import Mathlib

/-!
# Verification of the async2 cooperative coroutine runtime

Shallow embedding of `src/async2/async2.c`: the dynamic array
(`async_arr_*`), the task state object (`struct astate`), the event loop
(`events_queue` / `vacant_queue`), the scheduler pass
(`ASYNC_LOOP_RUNNER_BODY` and its blocks), and the combinator
constructors and bodies (`async_wait_for` / `async_waiter`,
`async_vgather` / `async_gather` / `async_gatherer`).

Machine addresses are modelled by identifiers: a task pointer is an index
into a heap list (`Loop.heap`), a heap block registered in a task's
`_allocs` array is a numeric block id.  `free` never removes the record
from the model heap; it marks the task `freed` and appends events to an
observable trace, so that claims about "freed exactly once / in this
order" become claims about the trace.

Allocation (`malloc`/`realloc`/`calloc`) success is driven by a finite
oracle list `Loop.alloc` consumed one bit per allocation attempt; an
empty oracle means every allocation succeeds.

The repository ships only `async2.c`; the header `async2.h` (the macros
`async_begin`/`async_end`/`async_yield`/`await_while`, `ASYNC_INCREF`,
`ASYNC_DECREF`, `async_cancel`, `async_done`, `async_cancelled`,
`ASYNC_PREPARE_NOARGS`, `async_create_task`) is not under `src/`.  Those
definitions are modelled from the spec (§3.1, §4.2, §4.6) and are marked
`Modelled from the spec:` in their doc comments.
-/

set_option autoImplicit false

namespace Async2

/-- Error codes `ASYNC_OK`, `ASYNC_ENOMEM`, `ASYNC_ECANCELED`,
`ASYNC_EINVAL_STATE` from the source. -/
inductive AErr where
  | ok
  | enomem
  | ecanceled
  | einvalState
deriving DecidableEq, Repr

/-- Modelled from the spec: §3.1/§4.2.  The continuation code `_async_k` of a
task: `INIT` on first entry, `CONT k` when suspended at resume point `k`
(a line label in the C macro scheme), `DONE` when finished.  The header
defining the concrete integer encoding is not under `src/`. -/
inductive Cont where
  | init
  | cont (k : Nat)
  | done
deriving DecidableEq, Repr

/-- The two cancel callbacks defined in the source:
`async_gatherer_cancel` and `async_waiter_cancel`. -/
inductive CbId where
  | gathererCancel
  | waiterCancel
deriving DecidableEq, Repr

/-- Step-function identifiers.  `yielder`, `gatherer` and `waiter` are the
coroutine bodies of the source (`async_yielder`, `async_gatherer`,
`async_waiter`).  `spinner` and `counterB` are concrete user coroutine
bodies — Modelled from the spec: §4.2 step contract (a body that yields
forever, and a body that yields a fixed number of times and finishes);
the runtime is parametric in user bodies and the claims quantify over
program runs, so witnesses need concrete instances. -/
inductive FuncId where
  | yielder
  | spinner
  | counterB
  | gatherer
  | waiter
deriving DecidableEq, Repr

/-- A dynamic array `async_arr_t`: `data` models the allocated buffer
(one list cell per allocated slot, so `data.length` is the capacity
field), `length` the number of live elements.  Cells at positions
`≥ length` model stale / uninitialised memory. -/
structure Arr (α : Type) where
  data : List α
  length : Nat
deriving DecidableEq, Repr

namespace Arr

/-- The capacity field of the array (allocated cells). -/
def cap {α : Type} (a : Arr α) : Nat := a.data.length

/-- The live elements of the array. -/
def contents {α : Type} (a : Arr α) : List α := a.data.take a.length

end Arr

/-- The capacity-doubling loop of `async_arr_expand_`:
`while (needed > n) { n <<= 1; }`, fuelled (the fuel `needed` is enough:
starting from `n ≥ 1`, `n` at least doubles each iteration). -/
def whileDoubleF : Nat → Nat → Nat → Nat
  | 0, n, _ => n
  | fuel + 1, n, needed => if 0 < n ∧ n < needed then whileDoubleF fuel (2 * n) needed else n

/-- `n` after `while (needed > n) n <<= 1;` in `async_arr_expand_`. -/
def whileDouble (n needed : Nat) : Nat := whileDoubleF needed n needed

/-- The buffer growth of `async_arr_expand_` after a successful `realloc`:
the buffer is extended to the doubled capacity, fresh cells filled with
`junk` (uninitialised memory). -/
def arrGrow {α : Type} (junk : α) (a : Arr α) (needed : Nat) : Arr α :=
  let ncap := whileDouble (if a.cap = 0 then 1 else 2 * a.cap) needed
  ⟨a.data ++ List.replicate (ncap - a.cap) junk, a.length⟩

/-- `async_arr_expand_(data, len, capacity, memsz, n_memb)`.  Takes the
allocation oracle; returns `(ok, new array, remaining oracle)`.  An
empty oracle means the `realloc` succeeds; otherwise the head bit
decides and is consumed.  On failure the array is returned unchanged. -/
def arrExpand {α : Type} (junk : α) (oracle : List Bool) (a : Arr α) (nMemb : Nat) :
    Bool × Arr α × List Bool :=
  let needed := a.length + nMemb
  if needed ≤ a.cap then (true, a, oracle)
  else
    match oracle with
    | [] => (true, arrGrow junk a needed, [])
    | true :: r => (true, arrGrow junk a needed, r)
    | false :: r => (false, a, r)

/-- `async_arr_splice_` followed by the `length -= count` of the
`async_arr_splice` macro: `memmove(data + start, data + start + count,
(len - start - count) * memsz)` shifts the tail left; cells past the new
logical end keep their old (now stale) values. -/
def memmoveDel {α : Type} (data : List α) (start count length : Nat) : List α :=
  data.take start ++ (data.drop (start + count)).take (length - start - count) ++
    data.drop (length - count)

/-- The `async_arr_splice(arr, start, count)` macro. -/
def arrSplice {α : Type} (a : Arr α) (start count : Nat) : Arr α :=
  ⟨memmoveDel a.data start count a.length, a.length - count⟩

/-- Task-private locals (`state->locals`).  `waiterL` is `waiter_stack`
(`sec`, `start`), `gathererL` is `gathered_stack` (the `arr_coros` array
plus the block id of its buffer, used by the deferred-free bookkeeping);
`counterL` is the frame of the `counterB` test body. -/
inductive Locals where
  | noneL
  | counterL (n : Nat)
  | waiterL (sec start : Nat)
  | gathererL (coros : Arr Nat) (buf : Option Nat)
deriving DecidableEq, Repr

/-- `struct astate`.  `freed` marks that `free(state)` ran (the record is
kept in the model heap so that post-mortem claims stay expressible);
`allocs` is the `_allocs` array of owned block ids. -/
structure Task where
  func : FuncId
  args : Option Nat
  locals : Locals
  cont : Cont
  sched : Bool
  cancelled : Bool
  err : AErr
  refcnt : Nat
  cancelCb : Option CbId
  next : Option Nat
  allocs : Arr Nat
  freed : Bool
deriving DecidableEq, Repr

/-- Observable events of a run, in chronological order. -/
inductive Ev where
  | stepCall (t : Nat)
  | cbCall (t : Nat)
  | decref (t : Nat)
  | cancelFlag (t : Nat)
  | freeBlock (b : Nat)
  | freeTask (t : Nat)
deriving DecidableEq, Repr

/-- The event loop plus the model environment: task heap, the two queues
of `struct async_event_loop`, the allocation oracle, the wall clock (in
abstract ticks; `clock()` of the source), a counter for fresh block ids,
and the event trace. -/
structure Loop where
  heap : List Task
  events : Arr (Option Nat)
  vacant : Arr Nat
  alloc : List Bool
  clock : Nat
  nextBlock : Nat
  trace : List Ev
deriving DecidableEq, Repr

namespace Loop

/-- Dereference a task pointer. -/
def getT (st : Loop) (t : Nat) : Option Task := st.heap[t]?

/-- Write through a task pointer (no-op on a dangling id). -/
def modT (t : Nat) (f : Task → Task) (st : Loop) : Loop :=
  match st.heap[t]? with
  | some s => { st with heap := st.heap.set t (f s) }
  | none => st

/-- Append an event to the trace. -/
def emit (e : Ev) (st : Loop) : Loop := { st with trace := st.trace ++ [e] }

/-- Append a list of events to the trace. -/
def emitAll (es : List Ev) (st : Loop) : Loop := { st with trace := st.trace ++ es }

/-- Consume one allocation-oracle bit (empty oracle: success). -/
def takeAlloc (st : Loop) : Bool × Loop :=
  match st.alloc with
  | [] => (true, st)
  | b :: r => (b, { st with alloc := r })

/-- Modelled from the spec: §4.6 `decref(t)`: `t.refcnt -= 1` (the
`ASYNC_DECREF` macro of the header, which is not under `src/`).  Emits a
`decref` event. -/
def decrefT (t : Nat) (st : Loop) : Loop :=
  emit (Ev.decref t) (modT t (fun s => { s with refcnt := s.refcnt - 1 }) st)

/-- Modelled from the spec: §4.6 `incref(t)`: `t.refcnt += 1` (the
`ASYNC_INCREF` macro of the header, which is not under `src/`). -/
def increfT (t : Nat) (st : Loop) : Loop :=
  modT t (fun s => { s with refcnt := s.refcnt + 1 }) st

/-- Modelled from the spec: §4.6 `cancel(t)`: set `t`'s cancellation
flag; idempotent; frees nothing (the `async_cancel` macro of the header,
which is not under `src/`).  Emits a `cancelFlag` event. -/
def cancelT (t : Nat) (st : Loop) : Loop :=
  emit (Ev.cancelFlag t) (modT t (fun s => { s with cancelled := true }) st)

/-- Modelled from the spec: §3.1 `async_done(t)` ⟺ `t.cont == DONE`
(header macro, not under `src/`).  A dangling id reads as not done. -/
def doneB (st : Loop) (t : Nat) : Bool :=
  match st.getT t with
  | some s => s.cont = Cont.done
  | none => false

/-- Set the `SCHEDULED` flag (`async_set_sheduled`). -/
def setSched (t : Nat) (st : Loop) : Loop :=
  modT t (fun s => { s with sched := true }) st

/-- The `STATE_FREE(state)` macro: free every `_allocs` entry in reverse
insertion order (`while (length--) free(data[length])`), destroy the
`_allocs` array, free the state itself. -/
def stateFree (t : Nat) (st : Loop) : Loop :=
  match st.getT t with
  | none => st
  | some s =>
    let st1 := emitAll (s.allocs.contents.reverse.map Ev.freeBlock) st
    let st2 := modT t (fun s2 => { s2 with freed := true, allocs := ⟨[], 0⟩ }) st1
    emit (Ev.freeTask t) st2

/-- Modelled from the spec: §4.2/§3.1 — the `async_end` / `async_exit`
macros (header, not under `src/`): finishing a body transitions `cont`
to `DONE` and releases the task's self-reference ("owns itself until
exited or cancelled", so the reference count decays to zero on normal
completion). -/
def asyncEnd (t : Nat) (st : Loop) : Loop :=
  modT t (fun s => { s with cont := Cont.done }) (decrefT t st)

/-- Push onto `events_queue` (the `async_arr_push` macro instantiated at
the events array), threading the allocation oracle. -/
def pushEvents (st : Loop) (v : Option Nat) : Bool × Loop :=
  let r := arrExpand none st.alloc st.events 1
  if r.1 then
    (true, { st with
      events := ⟨r.2.1.data.set r.2.1.length v, r.2.1.length + 1⟩,
      alloc := r.2.2 })
  else
    (false, { st with alloc := r.2.2 })

/-- Push onto `vacant_queue`. -/
def pushVacant (st : Loop) (v : Nat) : Bool × Loop :=
  let r := arrExpand 0 st.alloc st.vacant 1
  if r.1 then
    (true, { st with
      vacant := ⟨r.2.1.data.set r.2.1.length v, r.2.1.length + 1⟩,
      alloc := r.2.2 })
  else
    (false, { st with alloc := r.2.2 })

/-- `async_arr_reserve(&events_queue, n)`. -/
def reserveEvents (st : Loop) (n : Nat) : Bool × Loop :=
  let r := arrExpand none st.alloc st.events n
  (r.1, { st with events := r.2.1, alloc := r.2.2 })

end Loop

/-- `async_loop_add_task_(state)`.  Null in, null out; a task already
`SCHEDULED` is returned unchanged; otherwise it goes into a popped
vacant slot when the free list is non-empty, else is appended to
`events_queue`; a failed append destroys the task and returns null; on
success the `SCHEDULED` flag is set. -/
def addTask (x : Option Nat) (st : Loop) : Option Nat × Loop :=
  match x with
  | none => (none, st)
  | some t =>
    match st.getT t with
    | none => (none, st)
    | some s =>
      if s.sched then (some t, st)
      else if 0 < st.vacant.length then
        let i := st.vacant.data.getD (st.vacant.length - 1) 0
        let st1 := { st with vacant := ⟨st.vacant.data, st.vacant.length - 1⟩ }
        let st2 := { st1 with events := ⟨st1.events.data.set i (some t), st1.events.length⟩ }
        (some t, st2.setSched t)
      else
        let r := st.pushEvents (some t)
        if r.1 then (some t, r.2.setSched t)
        else (none, r.2.stateFree t)

/-- One non-null entry of the `async_loop_add_tasks_` loop: skip it if
its `SCHEDULED` flag is set, otherwise push it to the events tail and
set the flag (`async_arr_push` cannot fail there thanks to the
reservation). -/
def addTasksEntry (acc : Loop) (t : Nat) : Loop :=
  match acc.getT t with
  | none => acc
  | some s =>
    if s.sched then acc
    else
      let p := acc.pushEvents (some t)
      p.2.setSched t

/-- The loop body of `async_loop_add_tasks_`. -/
def addTasksF (acc : Loop) (x : Option Nat) : Loop :=
  match x with
  | none => acc
  | some t => addTasksEntry acc t

/-- `async_loop_add_tasks_(n, states)`.  Fails (returns null) when any
entry is null or reserving `n` slots fails; otherwise pushes each
not-yet-scheduled entry to the tail and sets its flag; already-scheduled
entries are skipped. -/
def addTasks (ts : List (Option Nat)) (st : Loop) : Option (List (Option Nat)) × Loop :=
  if ts.all Option.isSome then
    let r := st.reserveEvents ts.length
    if r.1 then (some ts, ts.foldl addTasksF r.2)
    else (none, r.2)
  else (none, st)

/-- Dispatch of a `_cancel` callback pointer.  Emits a `cbCall` event,
then runs the pointed-to function: `async_gatherer_cancel` decrefs and
cancels every still-tracked child; `async_waiter_cancel` ensures the
child is scheduled (`async_create_task`), then cancels it if not done
and drops the waiter's reference — unless scheduling failed (in which
case `add_task` already destroyed the child). -/
def runCb (cb : CbId) (t : Nat) (st0 : Loop) : Loop :=
  let st := st0.emit (Ev.cbCall t)
  match cb with
  | CbId.gathererCancel =>
    match st.getT t with
    | some s =>
      match s.locals with
      | Locals.gathererL coros _ =>
        coros.contents.foldl (fun acc c => Loop.cancelT c (Loop.decrefT c acc)) st
      | _ => st
    | none => st
  | CbId.waiterCancel =>
    match st.getT t with
    | some s =>
      match s.args with
      | none => st
      | some c =>
        let r := addTask (some c) st
        if r.1.isSome then
          let st2 := if r.2.doneB c then r.2 else r.2.cancelT c
          st2.decrefT c
        else r.2
    | none => st

/-- Replace the `arr_coros` field of a gatherer's locals. -/
def setCorosL (s : Task) (coros : Arr Nat) : Task :=
  match s.locals with
  | Locals.gathererL _ b => { s with locals := Locals.gathererL coros b }
  | _ => s

/-- One resumption of `async_gatherer`: scan `arr_coros` from the front;
a done child is decref'd and spliced out (`i--` keeps the position), a
pending child makes the body yield; when the array empties the body
falls through `async_end`.  Fuelled by the array length (each splice
shortens it). -/
def gatherScanF : Nat → Nat → Arr Nat → Loop → Loop
  | 0, _, _, st => st
  | fuel + 1, t, coros, st =>
    if coros.length = 0 then
      Loop.asyncEnd t (Loop.modT t (fun s => setCorosL s coros) st)
    else
      let c := coros.data.getD 0 0
      if st.doneB c then
        gatherScanF fuel t (arrSplice coros 0 1) (Loop.decrefT c st)
      else
        Loop.modT t (fun s => { setCorosL s coros with cont := Cont.cont 1 }) st

/-- `async_gatherer` resumed once (both on first entry and at the yield
label the body rescans from the start of `arr_coros`). -/
def gatherScan (t : Nat) (coros : Arr Nat) (st : Loop) : Loop :=
  gatherScanF (coros.length + 1) t coros st

/-- The `await_while` part of `async_waiter` (condition check at entry
and at every resumption): while the child is not done and the elapsed
time is below the timeout, yield; afterwards, if the child is still not
done, set `async_errno = ECANCELED` and cancel it; then decref the child
and fall through `async_end`. -/
def waiterAwait (t c sec start : Nat) (st : Loop) : Loop :=
  if !st.doneB c && decide (st.clock - start < sec) then
    Loop.modT t (fun s => { s with cont := Cont.cont 1 }) st
  else
    let st1 :=
      if st.doneB c then st
      else Loop.cancelT c (Loop.modT t (fun s => { s with err := AErr.ecanceled }) st)
    Loop.asyncEnd t (Loop.decrefT c st1)

/-- One resumption of `async_waiter`: on first entry schedule the child
(`async_create_task`); on failure null out `args`, set
`async_errno = ENOMEM` and exit; otherwise record `start = clock()` and
enter the wait; later resumptions re-enter the wait. -/
def waiterStep (t : Nat) (st : Loop) : Loop :=
  match st.getT t with
  | none => st
  | some s =>
    match s.locals with
    | Locals.waiterL sec start =>
      match s.cont with
      | Cont.done => st
      | Cont.init =>
        let r := addTask s.args st
        match r.1 with
        | none =>
          Loop.asyncEnd t
            (Loop.modT t (fun s2 => { s2 with args := none, err := AErr.enomem }) r.2)
        | some c =>
          let st2 := Loop.modT t (fun s2 => { s2 with locals := Locals.waiterL sec r.2.clock }) r.2
          waiterAwait t c sec r.2.clock st2
      | Cont.cont _ =>
        match s.args with
        | none => st
        | some c => waiterAwait t c sec start st
    | _ => st

/-- The dispatch of one step of a task body (the function body run by
`state->_func(state)`). -/
def stepBody (t : Nat) (st : Loop) : Loop :=
  match st.getT t with
  | none => st
  | some s =>
    match s.func with
    | FuncId.yielder =>
      match s.cont with
      | Cont.init => Loop.modT t (fun s2 => { s2 with cont := Cont.cont 1 }) st
      | Cont.cont _ => Loop.asyncEnd t st
      | Cont.done => st
    | FuncId.spinner =>
      match s.cont with
      | Cont.done => st
      | _ => Loop.modT t (fun s2 => { s2 with cont := Cont.cont 1 }) st
    | FuncId.counterB =>
      match s.cont with
      | Cont.done => st
      | _ =>
        match s.locals with
        | Locals.counterL 0 => Loop.asyncEnd t st
        | Locals.counterL (n + 1) =>
          Loop.modT t (fun s2 => { s2 with locals := Locals.counterL n, cont := Cont.cont 1 }) st
        | _ => st
    | FuncId.gatherer =>
      match s.cont with
      | Cont.done => st
      | _ =>
        match s.locals with
        | Locals.gathererL coros _ => gatherScan t coros st
        | _ => st
    | FuncId.waiter => waiterStep t st

/-- `state->_func(state)`: one step of a task body.  Emits a `stepCall`
event, then runs the body. -/
def stepTask (t : Nat) (st : Loop) : Loop := stepBody t (st.emit (Ev.stepCall t))

/-- `ASYNC_LOOP_RUNNER_BLOCK_NOREFS`, after the slot and the task have
been read (`events[i] = t`, `*t = s`, `s.refcnt = 0`): run the cancel
callback if the task is not done and has one; `STATE_FREE` it; push the
slot index onto the vacant list — on success null the slot, on failure
splice the slot out of the table and revisit the same index (`i--`). -/
def visitReap (st : Loop) (i t : Nat) (s : Task) : Loop × Nat :=
  let st1 :=
    if s.cont = Cont.done then st
    else
      match s.cancelCb with
      | some cb => runCb cb t st
      | none => st
  let st2 := st1.stateFree t
  let r := st2.pushVacant i
  if r.1 then
    ({ r.2 with events := ⟨r.2.events.data.set i none, r.2.events.length⟩ }, i + 1)
  else
    ({ r.2 with events := arrSplice r.2.events i 1 }, i)

/-- `ASYNC_LOOP_RUNNER_BLOCK_CANCELLED`, after the guards
(`s.err != ECANCELED`, cancellation flag set, `refcnt != 0`): if the
task is not done, drop its self-reference and run its cancel callback;
then (rereading `_next` from the heap) decref and cancel the awaited
child if any; finally set `err = ECANCELED` and `cont = DONE`. -/
def visitCancelled (st : Loop) (i t : Nat) (s : Task) : Loop × Nat :=
  let st1 :=
    if s.cont = Cont.done then st
    else
      let stA := st.decrefT t
      match s.cancelCb with
      | some cb => runCb cb t stA
      | none => stA
  let st2 :=
    match (st1.getT t).bind Task.next with
    | some nx => Loop.cancelT nx (Loop.decrefT nx st1)
    | none => st1
  (Loop.modT t (fun s2 => { s2 with err := AErr.ecanceled, cont := Cont.done }) st2, i + 1)

/-- `!state->_next || async_done(state->_next)`. -/
def nextDoneB (st : Loop) (s : Task) : Bool :=
  match s.next with
  | none => true
  | some nx => st.doneB nx

/-- One slot visit of `ASYNC_LOOP_RUNNER_BODY`: skip a null slot, else
reap at `refcnt == 0`, else propagate a pending cancellation, else step
the body when it is not done and its awaited child (if any) is done;
returns the updated state and the next loop index. -/
def visitStep (st : Loop) (i : Nat) : Loop × Nat :=
  match st.events.data.getD i none with
  | none => (st, i + 1)
  | some t =>
    match st.getT t with
    | none => (st, i + 1)
    | some s =>
      if s.refcnt = 0 then visitReap st i t s
      else if s.err ≠ AErr.ecanceled ∧ s.cancelled = true then visitCancelled st i t s
      else if s.cont ≠ Cont.done ∧ nextDoneB st s = true then (stepTask t st, i + 1)
      else (st, i + 1)

/-- One scheduler pass (`for (i = 0; i < events_queue.length; i++) …`),
fuelled: a single pass is not structurally bounded because a visited
callback may append new tasks to the table during the pass. -/
def runnerPassAux : Nat → Loop → Nat → Loop
  | 0, st, _ => st
  | fuel + 1, st, i =>
    if i < st.events.length then
      let r := visitStep st i
      runnerPassAux fuel r.1 r.2
    else st

/-- One full scheduler pass from slot 0. -/
def runnerPass (fuel : Nat) (st : Loop) : Loop := runnerPassAux fuel st 0

/-- A plain user task in its initial state (body: yield forever). -/
def taskW : Task :=
  ⟨FuncId.spinner, none, Locals.noneL, Cont.init, false, false, AErr.ok, 1, none, none, ⟨[], 0⟩,
    false⟩

/-- A one-task loop state with empty queues and an all-success oracle. -/
def stW : Loop := ⟨[taskW], ⟨[], 0⟩, ⟨[], 0⟩, [], 0, 0, []⟩

/-- Events a cancel callback may emit (besides its own `cbCall`):
refcount drops, cancellation flags, frees. -/
def cbBodyEv (e : Ev) : Prop :=
  (∃ u, e = Ev.decref u) ∨ (∃ u, e = Ev.cancelFlag u) ∨
    (∃ b, e = Ev.freeBlock b) ∨ (∃ u, e = Ev.freeTask u)

/-- The task ids a cancel callback may touch (the gatherer's tracked
children, or the waiter's awaited child). -/
def cbTouch (s : Task) : List Nat :=
  match s.cancelCb with
  | some CbId.gathererCancel =>
    match s.locals with
    | Locals.gathererL coros _ => coros.contents
    | _ => []
  | some CbId.waiterCancel =>
    match s.args with
    | some c => [c]
    | none => []
  | none => []

/-- An event list containing no task destruction. -/
def noFree (δ : List Ev) : Prop := ∀ e ∈ δ, ∀ u, e ≠ Ev.freeTask u

/-- A reapable task owning two registered blocks. -/
def taskC2W : Task :=
  { taskW with refcnt := 0, cont := Cont.done, allocs := ⟨[5, 7], 2⟩ }

/-- Loop holding `taskC2W` in slot 0. -/
def stC2W : Loop := ⟨[taskC2W], ⟨[some 0], 1⟩, ⟨[], 0⟩, [], 0, 0, []⟩

/-- A child task holding two references (itself plus a waiter). -/
def taskC2child : Task := { taskW with refcnt := 2 }

/-- A scheduled waiter awaiting `taskC2child` (its `args`). -/
def taskC2waiter : Task :=
  ⟨FuncId.waiter, some 0, Locals.waiterL 5 0, Cont.init, true, false, AErr.ok, 1,
    some CbId.waiterCancel, none, ⟨[], 0⟩, false⟩

/-- Loop where the waiter occupies the only table slot, the table is
full (capacity 1) and the next allocation fails. -/
def stC2X : Loop := ⟨[taskC2child, taskC2waiter], ⟨[some 1], 1⟩, ⟨[], 0⟩, [false], 0, 0, []⟩

/-- A cancelled task with zero refcnt (user cancelled it, then dropped
the last reference), suspended mid-body. -/
def taskC1X : Task := { taskW with cancelled := true, refcnt := 0, cont := Cont.cont 1 }

/-- Loop holding `taskC1X` in slot 0. -/
def stC1X : Loop := ⟨[taskC1X], ⟨[some 0], 1⟩, ⟨[], 0⟩, [], 0, 0, []⟩

/-- A cancelled, still-referenced task suspended mid-body. -/
def taskC1W : Task := { taskW with cancelled := true, cont := Cont.cont 1 }

/-- Loop holding `taskC1W` in slot 0. -/
def stC1W : Loop := ⟨[taskC1W], ⟨[some 0], 1⟩, ⟨[], 0⟩, [], 0, 0, []⟩

/-- Loop holding a fresh runnable task in slot 0. -/
def stC4W : Loop := ⟨[taskW], ⟨[some 0], 1⟩, ⟨[], 0⟩, [], 0, 0, []⟩

/-- A not-done child task awaited by the waiter fixture. -/
def taskC7child : Task :=
  ⟨FuncId.spinner, none, Locals.noneL, Cont.cont 1, true, false, AErr.ok, 2, none, none,
    ⟨[], 0⟩, false⟩

/-- A resumed waiter whose timeout (`sec = 0`) has already elapsed. -/
def taskC7waiter : Task :=
  ⟨FuncId.waiter, some 0, Locals.waiterL 0 0, Cont.cont 1, true, false, AErr.ok, 1,
    some CbId.waiterCancel, none, ⟨[], 0⟩, false⟩

/-- Loop holding the waiter fixture and its child. -/
def stC7W : Loop :=
  ⟨[taskC7child, taskC7waiter], ⟨[some 0, some 1], 2⟩, ⟨[], 0⟩, [], 0, 0, []⟩

/-- Modelled from the spec: §3.1 Lifecycle — the freshly constructed
task record of `ASYNC_PREPARE_NOARGS` (header macro, not under `src/`):
zeroed state with the given function, locals and cancel callback,
`cont = INIT`, owning itself (`refcnt = 1`), empty `_allocs`. -/
def prepInit (f : FuncId) (l : Locals) (cb : Option CbId) : Task :=
  ⟨f, none, l, Cont.init, false, false, AErr.ok, 1, cb, none, ⟨[], 0⟩, false⟩

/-- Modelled from the spec: §3.1 Lifecycle — `ASYNC_PREPARE_NOARGS`
(header macro, not under `src/`): allocate the task header + locals in
one block (one oracle draw); on failure nothing is created and the fail
label is taken with a null state. -/
def prepare (f : FuncId) (l : Locals) (cb : Option CbId) (st : Loop) :
    Option Nat × Loop :=
  let r := st.takeAlloc
  if r.1 then
    (some r.2.heap.length, { r.2 with heap := r.2.heap ++ [prepInit f l cb] })
  else (none, r.2)

/-- `async_free_later_(state, mem)`: a null `mem` fails; otherwise push
the block onto the task's `_allocs` (an `async_arr_push`, drawing the
oracle when the array must grow). -/
def freeLater (t : Nat) (mem : Option Nat) (st : Loop) : Bool × Loop :=
  match mem with
  | none => (false, st)
  | some m =>
    match st.getT t with
    | none => (false, st)
    | some s =>
      let r := arrExpand 0 st.alloc s.allocs 1
      if r.1 then
        (true,
          Loop.modT t
            (fun s2 => { s2 with
              allocs := ⟨r.2.1.data.set r.2.1.length m, r.2.1.length + 1⟩ })
            { st with alloc := r.2.2 })
      else (false, { st with alloc := r.2.2 })

/-- The `fail:` label of `async_vgather` reached with `state` non-null:
`async_arr_destroy(&stack->arr_coros)` — `free(data)` (emits `freeBlock`
when a buffer was allocated) and re-zeroing of the locals array — then
`STATE_FREE(state)`, then `STATE_FREE` of every child re-read from the
varargs. -/
def vgatherFail (g : Nat) (buf : Option Nat) (children : List Nat) (st : Loop) : Loop :=
  let st1 := match buf with
    | some b => Loop.emit (Ev.freeBlock b) st
    | none => st
  let st2 := Loop.modT g (fun s => { s with locals := Locals.gathererL ⟨[], 0⟩ none }) st1
  children.foldl (fun acc c => acc.stateFree c) (st2.stateFree g)

/-- `async_vgather(n, ...)`, specialised to non-null children (the
varargs are the child tasks).  Prepare the gatherer, init and reserve
the `coros` array (a fresh buffer block when `n > 0`), register the
buffer via `async_free_later_`, fill `coros` with the children, schedule
them via `async_create_tasks`, and `incref` each child; every failure
branches to `fail:` — on a null state only the children are freed,
otherwise `vgatherFail`. -/
def vgather (children : List Nat) (st : Loop) : Option Nat × Loop :=
  let n := children.length
  let p := prepare FuncId.gatherer (Locals.gathererL ⟨[], 0⟩ none)
    (some CbId.gathererCancel) st
  match p.1 with
  | none => (none, children.foldl (fun acc c => acc.stateFree c) p.2)
  | some g =>
    let r := arrExpand 0 p.2.alloc (⟨[], 0⟩ : Arr Nat) n
    let st1 := { p.2 with alloc := r.2.2 }
    if r.1 then
      let buf : Option Nat := if 0 < n then some st1.nextBlock else none
      let st2 := if 0 < n then { st1 with nextBlock := st1.nextBlock + 1 } else st1
      let fl := freeLater g buf st2
      if fl.1 then
        let coros : Arr Nat := ⟨children ++ r.2.1.data.drop n, n⟩
        let st3 := Loop.modT g
          (fun s => { s with locals := Locals.gathererL coros buf }) fl.2
        let a := addTasks (children.map some) st3
        match a.1 with
        | none => (none, vgatherFail g buf children a.2)
        | some _ => (some g, children.foldl (fun acc c => acc.increfT c) a.2)
      else (none, vgatherFail g buf children fl.2)
    else (none, vgatherFail g none children st1)

/-- `async_gather(n, states)`: prepare the gatherer, adopt the caller
buffer as `coros` (capacity = length = n, nothing registered for
deferred free), schedule the children via `async_create_tasks`; on
scheduling failure only `STATE_FREE(state)` runs before returning null —
the children are not freed.  On prepare failure the `fail:` label just
returns null. -/
def gather (children : List Nat) (st : Loop) : Option Nat × Loop :=
  let p := prepare FuncId.gatherer (Locals.gathererL ⟨[], 0⟩ none)
    (some CbId.gathererCancel) st
  match p.1 with
  | none => (none, p.2)
  | some g =>
    let st1 := Loop.modT g
      (fun s => { s with
        locals := Locals.gathererL ⟨children, children.length⟩ none }) p.2
    let a := addTasks (children.map some) st1
    match a.1 with
    | none => (none, a.2.stateFree g)
    | some _ => (some g, children.foldl (fun acc c => acc.increfT c) a.2)

/-- A one-child loop whose oracle lets `ASYNC_PREPARE_NOARGS` succeed
and the events reservation fail: the array-form gather's scheduling
failure path. -/
def stC6X : Loop := ⟨[taskW], ⟨[], 0⟩, ⟨[], 0⟩, [true, false], 0, 0, []⟩

/-- One-child loop with oracle `[T,T,T,F]`: prepare, coros reserve and
`free_later_` succeed, the events reservation fails (vgather fixture). -/
def stC6W1 : Loop := ⟨[taskW], ⟨[], 0⟩, ⟨[], 0⟩, [true, true, true, false], 0, 0, []⟩

/-- One-child loop with oracle `[T,F]`: prepare succeeds, the events
reservation fails (array-form gather fixture). -/
def stC6W2 : Loop := ⟨[taskW], ⟨[], 0⟩, ⟨[], 0⟩, [true, false], 0, 0, []⟩

/-- An awaited child (two references: its own and the waiter's), not yet
scheduled. -/
def taskC8child : Task :=
  ⟨FuncId.spinner, none, Locals.noneL, Cont.cont 1, false, false, AErr.ok, 2, none, none,
    ⟨[], 0⟩, false⟩

/-- A cancelled waiter holding the child, visited by the scheduler. -/
def taskC8waiter : Task :=
  ⟨FuncId.waiter, some 0, Locals.waiterL 5 0, Cont.cont 1, true, true, AErr.ok, 1,
    some CbId.waiterCancel, none, ⟨[], 0⟩, false⟩

/-- Full events table (capacity 1), failing oracle: the cancel-callback
path where `async_create_task(child)` fails. -/
def stC8X : Loop := ⟨[taskC8child, taskC8waiter], ⟨[some 1], 1⟩, ⟨[], 0⟩, [false], 0, 0, []⟩

/-- An awaited child that is already scheduled. -/
def taskC8childW : Task := { taskC8child with sched := true }

/-- A waiter over that child with the cancel callback installed. -/
def taskC8waiterW : Task := { taskC8waiter with cancelled := false }

/-- Loop for the C8 witness: both tasks in the table, no pending
allocation failure. -/
def stC8W : Loop :=
  ⟨[taskC8childW, taskC8waiterW], ⟨[some 0, some 1], 2⟩, ⟨[], 0⟩, [], 0, 0, []⟩

/-- Client operations of the loop API: construct (and populate) a task,
`add_task`, the refcount/cancel macros, a clock tick, and one scheduler
pass (`ASYNC_LOOP_RUNNER_BODY` iterated). -/
inductive Op where
  | newTask (s : Task)
  | addT (t : Nat)
  | incref (t : Nat)
  | decref (t : Nat)
  | cancel (t : Nat)
  | tick
  | runPass (fuel : Nat)

/-- Interpret one operation on the loop state. -/
def applyOp (st : Loop) (op : Op) : Loop :=
  match op with
  | Op.newTask s => { st with heap := st.heap ++ [s] }
  | Op.addT t => (addTask (some t) st).2
  | Op.incref t => st.increfT t
  | Op.decref t => st.decrefT t
  | Op.cancel t => st.cancelT t
  | Op.tick => { st with clock := st.clock + 1 }
  | Op.runPass fuel => runnerPass fuel st

/-- Run a sequence of operations. -/
def runOps (ops : List Op) (st : Loop) : Loop := ops.foldl applyOp st

/-- The loop-queue invariant of §3.2: both arrays are within capacity,
the vacant stack holds distinct indices of `NULL` slots inside the live
prefix of `events`, `vacant.length ≤ events.length`, and no allocation
failure is pending (`alloc = []`). -/
def Inv (st : Loop) : Prop :=
  st.events.length ≤ st.events.data.length ∧
  st.vacant.length ≤ st.vacant.data.length ∧
  st.vacant.contents.Nodup ∧
  (∀ x ∈ st.vacant.contents, x < st.events.length ∧ st.events.data.getD x none = none) ∧
  st.vacant.length ≤ st.events.length ∧
  st.alloc = []

/-- A task that yields once, then finishes. -/
def taskC3a : Task :=
  ⟨FuncId.yielder, none, Locals.noneL, Cont.init, false, false, AErr.ok, 1, none, none,
    ⟨[], 0⟩, false⟩

/-- A task that finishes on its first step. -/
def taskC3b : Task :=
  ⟨FuncId.counterB, none, Locals.counterL 0, Cont.init, false, false, AErr.ok, 1, none, none,
    ⟨[], 0⟩, false⟩

/-- A task that never finishes. -/
def taskC3c : Task :=
  ⟨FuncId.spinner, none, Locals.noneL, Cont.init, false, false, AErr.ok, 1, none, none,
    ⟨[], 0⟩, false⟩

/-- Start state for the C3 counterexample: three tasks, and an oracle
whose fifth allocation (the second vacant push) fails. -/
def stC3X : Loop :=
  ⟨[taskC3a, taskC3b, taskC3c], ⟨[], 0⟩, ⟨[], 0⟩, [true, true, true, true, false], 0, 0, []⟩

/-- The C3 counterexample operation sequence: schedule the three tasks,
then run three scheduler passes. -/
def opsC3X : List Op :=
  [Op.addT 0, Op.addT 1, Op.addT 2, Op.runPass 10, Op.runPass 10, Op.runPass 10]

/-- One-spinner start state with no pending allocation failures. -/
def stC3W : Loop := ⟨[taskC3c], ⟨[], 0⟩, ⟨[], 0⟩, [], 0, 0, []⟩

/-- The witness operation sequence: schedule the spinner, two passes. -/
def opsC3W : List Op := [Op.addT 0, Op.runPass 5, Op.runPass 5]

theorem whileDoubleF_ge (fuel n needed : Nat) (hn : 0 < n) (hf : needed - n ≤ fuel) :
    needed ≤ whileDoubleF fuel n needed := by
  induction fuel generalizing n with
  | zero => simp only [whileDoubleF]; omega
  | succ f ih =>
    simp only [whileDoubleF]
    split
    · exact ih (2 * n) (by omega) (by omega)
    · omega

theorem whileDouble_ge (n needed : Nat) (hn : 0 < n) : needed ≤ whileDouble n needed :=
  whileDoubleF_ge needed n needed hn (Nat.sub_le _ _)

theorem whileDoubleF_pow (fuel n needed : Nat) : ∃ k, whileDoubleF fuel n needed = n * 2 ^ k := by
  induction fuel generalizing n with
  | zero => exact ⟨0, by simp [whileDoubleF]⟩
  | succ f ih =>
    simp only [whileDoubleF]
    split
    · obtain ⟨k, hk⟩ := ih (2 * n)
      exact ⟨k + 1, by rw [hk]; ring⟩
    · exact ⟨0, by simp⟩

theorem whileDouble_pow (n needed : Nat) : ∃ k, whileDouble n needed = n * 2 ^ k :=
  whileDoubleF_pow needed n needed

theorem whileDouble_ge_self (n needed : Nat) : n ≤ whileDouble n needed := by
  obtain ⟨k, hk⟩ := whileDouble_pow n needed
  rw [hk]
  exact Nat.le_mul_of_pos_right n (Nat.pos_pow_of_pos k (by norm_num))

theorem arrGrow_length {α : Type} (junk : α) (a : Arr α) (needed : Nat) :
    (arrGrow junk a needed).length = a.length := rfl

theorem arrGrow_cap {α : Type} (junk : α) (a : Arr α) (needed : Nat) :
    (arrGrow junk a needed).cap = whileDouble (if a.cap = 0 then 1 else 2 * a.cap) needed := by
  have h1 : a.cap ≤ (if a.cap = 0 then 1 else 2 * a.cap) := by split <;> omega
  have h2 := whileDouble_ge_self (if a.cap = 0 then 1 else 2 * a.cap) needed
  simp only [Arr.cap] at h1 h2 ⊢
  simp only [arrGrow, Arr.cap, List.length_append, List.length_replicate]
  omega

theorem arrGrow_cap_ge {α : Type} (junk : α) (a : Arr α) (needed : Nat) :
    needed ≤ (arrGrow junk a needed).cap := by
  rw [arrGrow_cap]
  exact whileDouble_ge _ needed (by split <;> omega)

theorem arrExpand_false {α : Type} (junk : α) (oracle : List Bool) (a : Arr α) (n : Nat)
    (h : (arrExpand junk oracle a n).1 = false) :
    (arrExpand junk oracle a n).2.1 = a := by
  unfold arrExpand at h ⊢
  by_cases hle : a.length + n ≤ a.cap
  · simp [hle] at h
  · match oracle with
    | [] => simp [hle] at h
    | true :: r => simp [hle] at h
    | false :: r => simp [hle]

theorem arrExpand_true_cap {α : Type} (junk : α) (oracle : List Bool) (a : Arr α) (n : Nat)
    (h : (arrExpand junk oracle a n).1 = true) :
    (arrExpand junk oracle a n).2.1.length = a.length ∧
      a.length + n ≤ (arrExpand junk oracle a n).2.1.cap := by
  unfold arrExpand at h ⊢
  by_cases hle : a.length + n ≤ a.cap
  · simp [hle]
  · match oracle with
    | [] => simpa [hle, arrGrow_length] using arrGrow_cap_ge junk a (a.length + n)
    | true :: r => simpa [hle, arrGrow_length] using arrGrow_cap_ge junk a (a.length + n)
    | false :: r => simp [hle] at h

theorem arrExpand_true_doubling {α : Type} (junk : α) (oracle : List Bool) (a : Arr α) (n : Nat)
    (h : (arrExpand junk oracle a n).1 = true) :
    (arrExpand junk oracle a n).2.1 = a ∨
      ∃ k, (arrExpand junk oracle a n).2.1.cap =
        (if a.cap = 0 then 1 else 2 * a.cap) * 2 ^ k := by
  unfold arrExpand at h ⊢
  by_cases hle : a.length + n ≤ a.cap
  · simp [hle]
  · match oracle with
    | [] =>
      right
      obtain ⟨k, hk⟩ := whileDouble_pow (if a.cap = 0 then 1 else 2 * a.cap) (a.length + n)
      exact ⟨k, by simp [hle, arrGrow_cap, hk]⟩
    | true :: r =>
      right
      obtain ⟨k, hk⟩ := whileDouble_pow (if a.cap = 0 then 1 else 2 * a.cap) (a.length + n)
      exact ⟨k, by simp [hle, arrGrow_cap, hk]⟩
    | false :: r => simp [hle] at h

/-- C9: For every dynamic array and every requested element count,
`async_arr_expand_` either returns true with capacity at least
`length + n_memb` (the new capacity obtained by repeated doubling
starting from 1 when the capacity was 0, else from twice the old
capacity), or returns false with the array's data, length and capacity
all unchanged. -/
theorem C9_arr_expand {α : Type} (junk : α) (oracle : List Bool) (a : Arr α) (n : Nat) :
    ((arrExpand junk oracle a n).1 = true →
        (arrExpand junk oracle a n).2.1.length = a.length ∧
        a.length + n ≤ (arrExpand junk oracle a n).2.1.cap ∧
        ((arrExpand junk oracle a n).2.1 = a ∨
          ∃ k, (arrExpand junk oracle a n).2.1.cap =
            (if a.cap = 0 then 1 else 2 * a.cap) * 2 ^ k)) ∧
    ((arrExpand junk oracle a n).1 = false →
        (arrExpand junk oracle a n).2.1 = a) := by
  constructor
  · intro h
    obtain ⟨h1, h2⟩ := arrExpand_true_cap junk oracle a n h
    exact ⟨h1, h2, arrExpand_true_doubling junk oracle a n h⟩
  · exact arrExpand_false junk oracle a n

/-- Witness for C9: concrete growth from capacity 0 with a request of 3
elements (capacity becomes 4 = 1·2²) and a concrete failed growth. -/
theorem C9_arr_expand_witness :
    ((arrExpand (0 : Nat) [] ⟨[], 0⟩ 3).1 = true →
        (arrExpand (0 : Nat) [] ⟨[], 0⟩ 3).2.1.length = (⟨[], 0⟩ : Arr Nat).length ∧
        (⟨[], 0⟩ : Arr Nat).length + 3 ≤ (arrExpand (0 : Nat) [] ⟨[], 0⟩ 3).2.1.cap ∧
        ((arrExpand (0 : Nat) [] ⟨[], 0⟩ 3).2.1 = (⟨[], 0⟩ : Arr Nat) ∨
          ∃ k, (arrExpand (0 : Nat) [] ⟨[], 0⟩ 3).2.1.cap =
            (if (⟨[], 0⟩ : Arr Nat).cap = 0 then 1 else 2 * (⟨[], 0⟩ : Arr Nat).cap) * 2 ^ k)) ∧
    ((arrExpand (0 : Nat) [] ⟨[], 0⟩ 3).1 = false →
        (arrExpand (0 : Nat) [] ⟨[], 0⟩ 3).2.1 = (⟨[], 0⟩ : Arr Nat)) :=
  C9_arr_expand (0 : Nat) [] ⟨[], 0⟩ 3

theorem addTasksEntry_none (acc : Loop) (t : Nat) (hget : acc.getT t = none) :
    addTasksEntry acc t = acc := by
  unfold addTasksEntry
  rw [hget]

theorem addTasksEntry_sched (acc : Loop) (t : Nat) (s : Task) (hget : acc.getT t = some s)
    (hsch : s.sched = true) : addTasksEntry acc t = acc := by
  unfold addTasksEntry
  rw [hget]
  simp [hsch]

theorem addTasksEntry_push (acc : Loop) (t : Nat) (s : Task) (hget : acc.getT t = some s)
    (hsch : s.sched = false) :
    addTasksEntry acc t = (acc.pushEvents (some t)).2.setSched t := by
  unfold addTasksEntry
  rw [hget]
  simp [hsch]

theorem take_set_self {α : Type} (l : List α) (n : Nat) (v : α) :
    (l.set n v).take n = l.take n := by
  induction l generalizing n with
  | nil => simp
  | cons a tl ih =>
    cases n with
    | zero => simp
    | succ m => simp [List.set, List.take_succ_cons, ih]

theorem take_succ_set_self {α : Type} (l : List α) (n : Nat) (v : α) (h : n < l.length) :
    (l.set n v).take (n + 1) = l.take n ++ [v] := by
  induction l generalizing n with
  | nil => simp at h
  | cons a tl ih =>
    cases n with
    | zero => simp
    | succ m =>
      simp only [List.length_cons] at h
      simp [List.set, List.take_succ_cons, ih m (by omega)]

theorem arrExpand_contents {α : Type} (junk : α) (oracle : List Bool) (a : Arr α) (n : Nat)
    (hwf : a.length ≤ a.data.length) :
    (arrExpand junk oracle a n).2.1.contents = a.contents := by
  unfold arrExpand
  by_cases hle : a.length + n ≤ a.cap
  · simp [hle]
  · have hgrow : (arrGrow junk a (a.length + n)).contents = a.contents := by
      simp [arrGrow, Arr.contents, List.take_append_of_le_length hwf]
    match oracle with
    | [] => simpa [hle] using hgrow
    | true :: r => simpa [hle] using hgrow
    | false :: r => simp [hle]

theorem arrExpand_data_getD {α : Type} (junk : α) (oracle : List Bool) (a : Arr α) (n j : Nat) :
    (arrExpand junk oracle a n).2.1.data.getD j junk = a.data.getD j junk := by
  unfold arrExpand
  by_cases hle : a.length + n ≤ a.cap
  · simp [hle]
  · have hgrow : (arrGrow junk a (a.length + n)).data.getD j junk = a.data.getD j junk := by
      simp only [arrGrow]
      rw [List.getD_eq_getElem?_getD, List.getD_eq_getElem?_getD, List.getElem?_append]
      by_cases hj : j < a.data.length
      · simp [hj]
      · simp only [if_neg hj, List.getElem?_replicate]
        rw [List.getElem?_eq_none (l := a.data) (by omega)]
        split <;> split <;> simp
    match oracle with
    | [] => simpa [hle] using hgrow
    | true :: r => simpa [hle] using hgrow
    | false :: r => simp [hle]

namespace Loop

theorem modT_events (t : Nat) (f : Task → Task) (st : Loop) : (st.modT t f).events = st.events := by
  unfold modT; cases st.heap[t]? <;> rfl

theorem modT_vacant (t : Nat) (f : Task → Task) (st : Loop) : (st.modT t f).vacant = st.vacant := by
  unfold modT; cases st.heap[t]? <;> rfl

theorem modT_alloc (t : Nat) (f : Task → Task) (st : Loop) : (st.modT t f).alloc = st.alloc := by
  unfold modT; cases st.heap[t]? <;> rfl

theorem modT_clock (t : Nat) (f : Task → Task) (st : Loop) : (st.modT t f).clock = st.clock := by
  unfold modT; cases st.heap[t]? <;> rfl

theorem modT_trace (t : Nat) (f : Task → Task) (st : Loop) : (st.modT t f).trace = st.trace := by
  unfold modT; cases st.heap[t]? <;> rfl

theorem modT_heap_length (t : Nat) (f : Task → Task) (st : Loop) :
    (st.modT t f).heap.length = st.heap.length := by
  unfold modT; cases st.heap[t]? <;> simp

theorem getT_modT_self (t : Nat) (f : Task → Task) (st : Loop) :
    (st.modT t f).getT t = (st.getT t).map f := by
  unfold modT getT
  cases h : st.heap[t]? with
  | none => simp [h]
  | some s =>
    have ht : t < st.heap.length := by
      by_contra hc
      rw [List.getElem?_eq_none (by omega)] at h
      exact Option.noConfusion h
    simp [h, List.getElem?_set_self', List.getElem?_eq_getElem ht,
      List.getElem_eq_iff.mpr h]

theorem getT_modT_ne (t u : Nat) (f : Task → Task) (st : Loop) (h : u ≠ t) :
    (st.modT t f).getT u = st.getT u := by
  unfold modT getT
  cases hh : st.heap[t]? with
  | none => simp
  | some s => simp [List.getElem?_set_ne (Ne.symm h)]

theorem pushEvents_heap (st : Loop) (v : Option Nat) : (st.pushEvents v).2.heap = st.heap := by
  unfold pushEvents
  cases h : (arrExpand none st.alloc st.events 1).1 <;> simp [h]

theorem pushEvents_trace (st : Loop) (v : Option Nat) : (st.pushEvents v).2.trace = st.trace := by
  unfold pushEvents
  cases h : (arrExpand none st.alloc st.events 1).1 <;> simp [h]

theorem pushEvents_vacant (st : Loop) (v : Option Nat) : (st.pushEvents v).2.vacant = st.vacant := by
  unfold pushEvents
  cases h : (arrExpand none st.alloc st.events 1).1 <;> simp [h]

theorem pushEvents_clock (st : Loop) (v : Option Nat) : (st.pushEvents v).2.clock = st.clock := by
  unfold pushEvents
  cases h : (arrExpand none st.alloc st.events 1).1 <;> simp [h]

theorem pushEvents_false_events (st : Loop) (v : Option Nat)
    (h : (st.pushEvents v).1 = false) : (st.pushEvents v).2.events = st.events := by
  unfold pushEvents at h ⊢
  cases hr : (arrExpand none st.alloc st.events 1).1 with
  | false => simp [hr]
  | true => simp [hr] at h

theorem pushEvents_true_spec (st : Loop) (v : Option Nat)
    (h : (st.pushEvents v).1 = true) (hwf : st.events.length ≤ st.events.data.length) :
    (st.pushEvents v).2.events.length = st.events.length + 1 ∧
    (st.pushEvents v).2.events.contents = st.events.contents ++ [v] ∧
    (st.pushEvents v).2.events.length ≤ (st.pushEvents v).2.events.data.length := by
  unfold pushEvents at h ⊢
  cases hr : (arrExpand none st.alloc st.events 1).1 with
  | false => simp [hr] at h
  | true =>
    have hcap := arrExpand_true_cap none st.alloc st.events 1 hr
    have hcon := arrExpand_contents none st.alloc st.events 1 hwf
    simp only [hr, if_true, Arr.cap] at hcap ⊢
    refine ⟨by simp [hcap.1], ?_, by simp; omega⟩
    simp only [Arr.contents, List.length_set]
    rw [take_succ_set_self _ _ _ (by omega)]
    rw [← hcap.1]
    simp only [Arr.contents] at hcon
    rw [hcap.1] at hcon ⊢
    rw [hcon]

theorem pushVacant_heap (st : Loop) (v : Nat) : (st.pushVacant v).2.heap = st.heap := by
  unfold pushVacant
  cases h : (arrExpand 0 st.alloc st.vacant 1).1 <;> simp [h]

theorem pushVacant_trace (st : Loop) (v : Nat) : (st.pushVacant v).2.trace = st.trace := by
  unfold pushVacant
  cases h : (arrExpand 0 st.alloc st.vacant 1).1 <;> simp [h]

theorem pushVacant_events (st : Loop) (v : Nat) : (st.pushVacant v).2.events = st.events := by
  unfold pushVacant
  cases h : (arrExpand 0 st.alloc st.vacant 1).1 <;> simp [h]

theorem pushVacant_clock (st : Loop) (v : Nat) : (st.pushVacant v).2.clock = st.clock := by
  unfold pushVacant
  cases h : (arrExpand 0 st.alloc st.vacant 1).1 <;> simp [h]

theorem pushVacant_true_spec (st : Loop) (v : Nat)
    (h : (st.pushVacant v).1 = true) (hwf : st.vacant.length ≤ st.vacant.data.length) :
    (st.pushVacant v).2.vacant.length = st.vacant.length + 1 ∧
    (st.pushVacant v).2.vacant.contents = st.vacant.contents ++ [v] ∧
    (st.pushVacant v).2.vacant.length ≤ (st.pushVacant v).2.vacant.data.length := by
  unfold pushVacant at h ⊢
  cases hr : (arrExpand 0 st.alloc st.vacant 1).1 with
  | false => simp [hr] at h
  | true =>
    have hcap := arrExpand_true_cap 0 st.alloc st.vacant 1 hr
    have hcon := arrExpand_contents 0 st.alloc st.vacant 1 hwf
    simp only [hr, if_true, Arr.cap] at hcap ⊢
    refine ⟨by simp [hcap.1], ?_, by simp; omega⟩
    simp only [Arr.contents, List.length_set]
    rw [take_succ_set_self _ _ _ (by omega)]
    rw [← hcap.1]
    simp only [Arr.contents] at hcon
    rw [hcap.1] at hcon ⊢
    rw [hcon]

theorem reserveEvents_components (st : Loop) (n : Nat) :
    (st.reserveEvents n).2.heap = st.heap ∧ (st.reserveEvents n).2.trace = st.trace ∧
    (st.reserveEvents n).2.vacant = st.vacant ∧ (st.reserveEvents n).2.clock = st.clock := by
  unfold reserveEvents
  exact ⟨rfl, rfl, rfl, rfl⟩

theorem reserveEvents_contents (st : Loop) (n : Nat)
    (hwf : st.events.length ≤ st.events.data.length) :
    (st.reserveEvents n).2.events.contents = st.events.contents ∧
    (st.reserveEvents n).2.events.length = st.events.length := by
  unfold reserveEvents
  refine ⟨arrExpand_contents none st.alloc st.events n hwf, ?_⟩
  cases hr : (arrExpand none st.alloc st.events n).1 with
  | false => simp [arrExpand_false none st.alloc st.events n hr]
  | true => exact (arrExpand_true_cap none st.alloc st.events n hr).1

theorem reserveEvents_true_cap (st : Loop) (n : Nat)
    (h : (st.reserveEvents n).1 = true) :
    st.events.length + n ≤ (st.reserveEvents n).2.events.data.length ∧
    (st.reserveEvents n).2.events.length = st.events.length := by
  unfold reserveEvents at h ⊢
  dsimp only at h ⊢
  have hcap := arrExpand_true_cap none st.alloc st.events n h
  simp only [Arr.cap] at hcap
  exact ⟨by omega, hcap.1⟩

theorem getT_setSched_self (t : Nat) (st : Loop) :
    (st.setSched t).getT t = (st.getT t).map (fun s => { s with sched := true }) :=
  getT_modT_self t _ st

theorem emit_getT (e : Ev) (st : Loop) (u : Nat) : (st.emit e).getT u = st.getT u := rfl

theorem emitAll_getT (es : List Ev) (st : Loop) (u : Nat) :
    (st.emitAll es).getT u = st.getT u := rfl

theorem stateFree_events (t : Nat) (st : Loop) : (st.stateFree t).events = st.events := by
  unfold stateFree
  cases h : st.getT t with
  | none => rfl
  | some s => simp [emit, emitAll, modT_events]

theorem stateFree_vacant (t : Nat) (st : Loop) : (st.stateFree t).vacant = st.vacant := by
  unfold stateFree
  cases h : st.getT t with
  | none => rfl
  | some s => simp [emit, emitAll, modT_vacant]

theorem stateFree_alloc (t : Nat) (st : Loop) : (st.stateFree t).alloc = st.alloc := by
  unfold stateFree
  cases h : st.getT t with
  | none => rfl
  | some s => simp [emit, emitAll, modT_alloc]

theorem stateFree_clock (t : Nat) (st : Loop) : (st.stateFree t).clock = st.clock := by
  unfold stateFree
  cases h : st.getT t with
  | none => rfl
  | some s => simp [emit, emitAll, modT_clock]

theorem stateFree_heap_length (t : Nat) (st : Loop) :
    (st.stateFree t).heap.length = st.heap.length := by
  unfold stateFree
  cases h : st.getT t with
  | none => rfl
  | some s => simp [emit, emitAll, modT_heap_length]

theorem stateFree_trace (t : Nat) (st : Loop) (s : Task) (h : st.getT t = some s) :
    (st.stateFree t).trace =
      st.trace ++ s.allocs.contents.reverse.map Ev.freeBlock ++ [Ev.freeTask t] := by
  unfold stateFree
  rw [h]
  simp [emit, emitAll, modT_trace]

theorem stateFree_getT_self (t : Nat) (st : Loop) (s : Task) (h : st.getT t = some s) :
    (st.stateFree t).getT t = some { s with freed := true, allocs := ⟨[], 0⟩ } := by
  unfold stateFree
  rw [h]
  dsimp only
  rw [emit_getT, getT_modT_self, emitAll_getT, h]
  rfl

theorem getT_ext (st' st : Loop) (u : Nat) (h : st'.heap = st.heap) :
    st'.getT u = st.getT u := by
  unfold getT
  rw [h]

theorem map_sched_of_getT (st' st : Loop) (t : Nat) (s : Task) (hh : st'.heap = st.heap)
    (hs : st.getT t = some s) :
    ((st'.setSched t).getT t).map Task.sched = some true := by
  have h1 : st'.getT t = some s := by rw [getT_ext st' st t hh]; exact hs
  rw [getT_setSched_self, h1]
  rfl

theorem stateFree_getT_ne (t u : Nat) (st : Loop) (h : u ≠ t) :
    (st.stateFree t).getT u = st.getT u := by
  unfold stateFree
  cases hh : st.getT t with
  | none => rfl
  | some s =>
    dsimp only
    rw [emit_getT, getT_modT_ne _ _ _ _ h, emitAll_getT]

end Loop

/-- C5: `add_task(t)` returns null when `t` is null; returns `t` with no
table modification when `t.SCHEDULED` is already set; otherwise places
`t` in a popped vacant slot when the vacant list is non-empty, else
appends `t` to the table; when appending fails it destroys `t` and
returns null; and on every success it sets `SCHEDULED` and returns `t`. -/
theorem C5_add_task (st : Loop) (t : Nat) (s : Task) (hs : st.getT t = some s)
    (hwf : st.events.length ≤ st.events.data.length) :
    (addTask none st = (none, st)) ∧
    (s.sched = true → addTask (some t) st = (some t, st)) ∧
    (s.sched = false → 0 < st.vacant.length →
      (addTask (some t) st).1 = some t ∧
      (addTask (some t) st).2.events.data =
        st.events.data.set (st.vacant.data.getD (st.vacant.length - 1) 0) (some t) ∧
      (addTask (some t) st).2.events.length = st.events.length ∧
      (addTask (some t) st).2.vacant.length = st.vacant.length - 1 ∧
      ((addTask (some t) st).2.getT t).map Task.sched = some true ∧
      (addTask (some t) st).2.trace = st.trace) ∧
    (s.sched = false → st.vacant.length = 0 → (st.pushEvents (some t)).1 = true →
      (addTask (some t) st).1 = some t ∧
      (addTask (some t) st).2.events.contents = st.events.contents ++ [some t] ∧
      (addTask (some t) st).2.events.length = st.events.length + 1 ∧
      ((addTask (some t) st).2.getT t).map Task.sched = some true ∧
      (addTask (some t) st).2.trace = st.trace) ∧
    (s.sched = false → st.vacant.length = 0 → (st.pushEvents (some t)).1 = false →
      (addTask (some t) st).1 = none ∧
      (addTask (some t) st).2.events = st.events ∧
      (addTask (some t) st).2.trace.count (Ev.freeTask t) =
        st.trace.count (Ev.freeTask t) + 1 ∧
      ((addTask (some t) st).2.getT t).map Task.freed = some true) := by
  refine ⟨rfl, ?_, ?_, ?_, ?_⟩
  · intro hsch
    simp only [addTask, hs]
    simp [hsch]
  · intro hsch hvac
    simp only [addTask, hs]
    rw [if_neg (by simp [hsch]), if_pos hvac]
    refine ⟨rfl, ?_, ?_, ?_, ?_, ?_⟩
    · simp only [Loop.setSched, Loop.modT_events]
    · simp only [Loop.setSched, Loop.modT_events]
    · simp only [Loop.setSched, Loop.modT_vacant]
    · exact Loop.map_sched_of_getT _ st t s rfl hs
    · simp only [Loop.setSched, Loop.modT_trace]
  · intro hsch hvac hpush
    simp only [addTask, hs]
    rw [if_neg (by simp [hsch]), if_neg (by simp [hvac]), if_pos hpush]
    have hspec := Loop.pushEvents_true_spec st (some t) hpush hwf
    refine ⟨rfl, ?_, ?_, ?_, ?_⟩
    · simp only [Loop.setSched, Loop.modT_events]
      exact hspec.2.1
    · simp only [Loop.setSched, Loop.modT_events]
      exact hspec.1
    · exact Loop.map_sched_of_getT _ st t s (Loop.pushEvents_heap st (some t)) hs
    · simp only [Loop.setSched, Loop.modT_trace]
      exact Loop.pushEvents_trace st (some t)
  · intro hsch hvac hpush
    simp only [addTask, hs]
    rw [if_neg (by simp [hsch]), if_neg (by simp [hvac]), if_neg (by simp [hpush])]
    have hget : (st.pushEvents (some t)).2.getT t = some s := by
      unfold Loop.getT
      rw [Loop.pushEvents_heap]
      exact hs
    refine ⟨rfl, ?_, ?_, ?_⟩
    · rw [Loop.stateFree_events, Loop.pushEvents_false_events st (some t) hpush]
    · rw [Loop.stateFree_trace _ _ s hget, Loop.pushEvents_trace]
      simp only [List.count_append]
      have hbl : ∀ l : List Nat, (l.map Ev.freeBlock).count (Ev.freeTask t) = 0 := by
        intro l
        rw [List.count_eq_zero]
        intro hmem
        simp only [List.mem_map] at hmem
        obtain ⟨b, _, hb⟩ := hmem
        exact Ev.noConfusion hb
      simp [hbl]
    · rw [Loop.stateFree_getT_self _ _ s hget]
      rfl

theorem Loop.pushEvents_nogrow (st : Loop) (v : Option Nat)
    (h : st.events.length + 1 ≤ st.events.data.length) :
    (st.pushEvents v).1 = true ∧
    (st.pushEvents v).2.events.length = st.events.length + 1 ∧
    (st.pushEvents v).2.events.contents = st.events.contents ++ [v] ∧
    (st.pushEvents v).2.events.data.length = st.events.data.length ∧
    (st.pushEvents v).2.alloc = st.alloc := by
  have hexp : arrExpand none st.alloc st.events 1 = (true, st.events, st.alloc) := by
    unfold arrExpand
    rw [if_pos (by simpa [Arr.cap] using h)]
  unfold Loop.pushEvents
  rw [hexp]
  refine ⟨rfl, rfl, ?_, by simp, rfl⟩
  simp only [Arr.contents]
  exact take_succ_set_self _ _ _ (by omega)

theorem addTasksFold_spec (l : List (Option Nat)) (st0 : Loop)
    (hcap : st0.events.length + l.length ≤ st0.events.data.length) :
    ∃ app : List (Option Nat),
      (l.foldl addTasksF st0).events.contents = st0.events.contents ++ app ∧
      (l.foldl addTasksF st0).events.length = st0.events.length + app.length ∧
      (l.foldl addTasksF st0).events.data.length = st0.events.data.length ∧
      (∀ x ∈ app, x ∈ l) ∧
      (∀ t : Nat, some t ∈ app → ¬(st0.getT t).map Task.sched = some true) ∧
      (∀ u : Nat, (st0.getT u).map Task.sched = some true →
        ((l.foldl addTasksF st0).getT u).map Task.sched = some true) := by
  induction l generalizing st0 with
  | nil => exact ⟨[], by simp, by simp, rfl, by simp, by simp, fun u h => h⟩
  | cons x l ih =>
    rw [List.foldl_cons]
    have hskipCase : ∀ hsk : addTasksF st0 x = st0,
        ∃ app : List (Option Nat),
          (l.foldl addTasksF (addTasksF st0 x)).events.contents = st0.events.contents ++ app ∧
          (l.foldl addTasksF (addTasksF st0 x)).events.length =
            st0.events.length + app.length ∧
          (l.foldl addTasksF (addTasksF st0 x)).events.data.length =
            st0.events.data.length ∧
          (∀ y ∈ app, y ∈ x :: l) ∧
          (∀ t : Nat, some t ∈ app → ¬(st0.getT t).map Task.sched = some true) ∧
          (∀ u : Nat, (st0.getT u).map Task.sched = some true →
            ((l.foldl addTasksF (addTasksF st0 x)).getT u).map Task.sched = some true) := by
      intro hsk
      rw [hsk]
      obtain ⟨app, h1, h2, h3, h4, h5, h6⟩ := ih st0 (by simp at hcap ⊢; omega)
      exact ⟨app, h1, h2, h3, fun y hy => List.mem_cons_of_mem x (h4 y hy), h5, h6⟩
    match x with
    | none => exact hskipCase rfl
    | some t =>
      match hget : st0.getT t with
      | none => exact hskipCase (by show addTasksEntry st0 t = st0; exact addTasksEntry_none st0 t hget)
      | some s =>
        by_cases hsch : s.sched = true
        · exact hskipCase (by show addTasksEntry st0 t = st0; exact addTasksEntry_sched st0 t s hget hsch)
        · have hF : addTasksF st0 (some t) = (st0.pushEvents (some t)).2.setSched t :=
            addTasksEntry_push st0 t s hget (by simpa using hsch)
          rw [hF]
          have hpush := Loop.pushEvents_nogrow st0 (some t) (by simp at hcap ⊢; omega)
          have hev1 : ((st0.pushEvents (some t)).2.setSched t).events =
              (st0.pushEvents (some t)).2.events := Loop.modT_events t _ _
          have hlen1 : ((st0.pushEvents (some t)).2.setSched t).events.length + l.length ≤
              ((st0.pushEvents (some t)).2.setSched t).events.data.length := by
            rw [hev1, hpush.2.1, hpush.2.2.2.1]
            simp at hcap
            omega
          obtain ⟨app, h1, h2, h3, h4, h5, h6⟩ :=
            ih ((st0.pushEvents (some t)).2.setSched t) hlen1
          have hmono : ∀ u : Nat, (st0.getT u).map Task.sched = some true →
              (((st0.pushEvents (some t)).2.setSched t).getT u).map Task.sched = some true := by
            intro u hu
            by_cases hut : u = t
            · subst hut
              exact Loop.map_sched_of_getT _ st0 u s (Loop.pushEvents_heap st0 (some u)) hget
            · unfold Loop.setSched
              rw [Loop.getT_modT_ne _ _ _ _ hut,
                Loop.getT_ext _ st0 u (Loop.pushEvents_heap st0 (some t))]
              exact hu
          refine ⟨some t :: app, ?_, ?_, ?_, ?_, ?_, ?_⟩
          · rw [h1, hev1, hpush.2.2.1]
            simp
          · rw [h2, hev1, hpush.2.1]
            simp
            omega
          · rw [h3, hev1, hpush.2.2.2.1]
          · intro y hy
            rcases List.mem_cons.mp hy with hy | hy
            · exact hy ▸ List.mem_cons_self _ _
            · exact List.mem_cons_of_mem (some t) (h4 y hy)
          · intro u hu
            rcases List.mem_cons.mp hu with hu | hu
            · have : u = t := by injection hu
              subst this
              rw [hget]
              simp [hsch]
            · intro hcon
              exact h5 u hu (hmono u hcon)
          · intro u hu
            exact h6 u (hmono u hu)

/-- C10: `add_tasks(n, ts)` with every entry non-null and a successful
reservation: already-`SCHEDULED` entries are left where they are and not
appended to the table again (the appended suffix contains only entries
that were not scheduled before the call), and the call still returns
`ts`. -/
theorem C10_add_tasks (st : Loop) (ts : List (Option Nat))
    (hall : ts.all Option.isSome = true)
    (hres : (st.reserveEvents ts.length).1 = true)
    (hwf : st.events.length ≤ st.events.data.length) :
    (addTasks ts st).1 = some ts ∧
    ∃ app : List (Option Nat),
      (addTasks ts st).2.events.contents = st.events.contents ++ app ∧
      (∀ x ∈ app, x ∈ ts) ∧
      (∀ t : Nat, some t ∈ app → ¬(st.getT t).map Task.sched = some true) := by
  unfold addTasks
  rw [if_pos hall]
  dsimp only
  rw [if_pos hres]
  have hcomp := Loop.reserveEvents_components st ts.length
  have hcon := Loop.reserveEvents_contents st ts.length hwf
  have hcap := Loop.reserveEvents_true_cap st ts.length hres
  obtain ⟨app, h1, _, _, h4, h5, _⟩ :=
    addTasksFold_spec ts (st.reserveEvents ts.length).2 (by omega)
  refine ⟨rfl, app, ?_, h4, ?_⟩
  · rw [h1, hcon.1]
  · intro t ht
    have := h5 t ht
    rwa [Loop.getT_ext _ st t hcomp.1] at this

/-- Witness for C10: a loop with one already-scheduled task and one fresh
task; only the fresh one is appended. -/
theorem C10_add_tasks_witness :
    (addTasks [some 0, some 1]
      ⟨[{ taskW with sched := true }, taskW], ⟨[some 0, none, none, none], 1⟩, ⟨[], 0⟩,
        [], 0, 0, []⟩).1 = some [some 0, some 1] ∧
    ∃ app : List (Option Nat),
      (addTasks [some 0, some 1]
        ⟨[{ taskW with sched := true }, taskW], ⟨[some 0, none, none, none], 1⟩, ⟨[], 0⟩,
          [], 0, 0, []⟩).2.events.contents =
        (⟨[some 0, none, none, none], 1⟩ : Arr (Option Nat)).contents ++ app ∧
      (∀ x ∈ app, x ∈ [some 0, some 1]) ∧
      (∀ t : Nat, some t ∈ app →
        ¬((⟨[{ taskW with sched := true }, taskW], ⟨[some 0, none, none, none], 1⟩, ⟨[], 0⟩,
            [], 0, 0, []⟩ : Loop).getT t).map Task.sched = some true) :=
  C10_add_tasks _ [some 0, some 1] (by decide) (by decide) (by decide)

theorem Loop.decrefT_trace (c : Nat) (st : Loop) :
    (st.decrefT c).trace = st.trace ++ [Ev.decref c] := by
  simp [Loop.decrefT, Loop.emit, Loop.modT_trace]

theorem Loop.cancelT_trace (c : Nat) (st : Loop) :
    (st.cancelT c).trace = st.trace ++ [Ev.cancelFlag c] := by
  simp [Loop.cancelT, Loop.emit, Loop.modT_trace]

theorem Loop.asyncEnd_trace (t : Nat) (st : Loop) :
    (st.asyncEnd t).trace = st.trace ++ [Ev.decref t] := by
  simp [Loop.asyncEnd, Loop.modT_trace, Loop.decrefT_trace]

theorem Loop.setSched_trace (t : Nat) (st : Loop) : (st.setSched t).trace = st.trace :=
  Loop.modT_trace t _ st

theorem Loop.stateFree_trace_ext (t : Nat) (st : Loop) :
    ∃ δ : List Ev, (st.stateFree t).trace = st.trace ++ δ ∧
      ∀ e ∈ δ, (∃ b, e = Ev.freeBlock b) ∨ (∃ u, e = Ev.freeTask u) := by
  cases h : st.getT t with
  | none =>
    refine ⟨[], ?_, by simp⟩
    unfold Loop.stateFree
    rw [h]
    simp
  | some s =>
    refine ⟨s.allocs.contents.reverse.map Ev.freeBlock ++ [Ev.freeTask t], ?_, ?_⟩
    · rw [Loop.stateFree_trace t st s h, List.append_assoc]
    · intro e he
      rcases List.mem_append.mp he with he | he
      · obtain ⟨b, _, hb⟩ := List.mem_map.mp he
        exact Or.inl ⟨b, hb.symm⟩
      · simp only [List.mem_singleton] at he
        exact Or.inr ⟨t, he⟩

theorem addTask_trace_ext (x : Option Nat) (st : Loop) :
    ∃ δ : List Ev, (addTask x st).2.trace = st.trace ++ δ ∧
      ∀ e ∈ δ, (∃ b, e = Ev.freeBlock b) ∨ (∃ u, e = Ev.freeTask u) := by
  match x with
  | none => exact ⟨[], by simp [addTask], by simp⟩
  | some t =>
    match hget : st.getT t with
    | none => exact ⟨[], by simp [addTask, hget], by simp⟩
    | some s =>
      by_cases hsch : s.sched = true
      · exact ⟨[], by simp [addTask, hget, hsch], by simp⟩
      · by_cases hvac : 0 < st.vacant.length
        · refine ⟨[], ?_, by simp⟩
          simp only [addTask, hget]
          rw [if_neg (by simp [hsch]), if_pos hvac]
          simp [Loop.setSched_trace]
        · cases hp : (st.pushEvents (some t)).1 with
          | true =>
            refine ⟨[], ?_, by simp⟩
            simp only [addTask, hget]
            rw [if_neg (by simp [hsch]), if_neg hvac, if_pos hp]
            simp [Loop.setSched_trace, Loop.pushEvents_trace]
          | false =>
            obtain ⟨δ, hδ, hmem⟩ := Loop.stateFree_trace_ext t (st.pushEvents (some t)).2
            refine ⟨δ, ?_, hmem⟩
            simp only [addTask, hget]
            rw [if_neg (by simp [hsch]), if_neg hvac, if_neg (by simp [hp])]
            dsimp only
            rw [hδ, Loop.pushEvents_trace]

theorem foldDC_trace_ext (l : List Nat) (st : Loop) :
    ∃ δ : List Ev,
      (l.foldl (fun acc c => Loop.cancelT c (Loop.decrefT c acc)) st).trace = st.trace ++ δ ∧
      ∀ e ∈ δ, (∃ u, e = Ev.decref u) ∨ (∃ u, e = Ev.cancelFlag u) := by
  induction l generalizing st with
  | nil => exact ⟨[], by simp, by simp⟩
  | cons c l ih =>
    obtain ⟨δ, hδ, hmem⟩ := ih (Loop.cancelT c (Loop.decrefT c st))
    refine ⟨[Ev.decref c, Ev.cancelFlag c] ++ δ, ?_, ?_⟩
    · rw [List.foldl_cons, hδ, Loop.cancelT_trace, Loop.decrefT_trace]
      simp
    · intro e he
      rcases List.mem_append.mp he with he | he
      · simp only [List.mem_cons, List.mem_singleton, List.not_mem_nil, or_false] at he
        rcases he with he | he
        · exact Or.inl ⟨c, he⟩
        · exact Or.inr ⟨c, he⟩
      · exact hmem e he

theorem runCb_trace_ext (cb : CbId) (t : Nat) (st : Loop) :
    ∃ δ : List Ev, (runCb cb t st).trace = st.trace ++ [Ev.cbCall t] ++ δ ∧
      ∀ e ∈ δ, cbBodyEv e := by
  unfold runCb
  match cb with
  | CbId.gathererCancel =>
    cases hget : (st.emit (Ev.cbCall t)).getT t with
    | none => exact ⟨[], by simp only [hget]; simp [Loop.emit], by simp⟩
    | some s =>
      match hl : s.locals with
      | Locals.gathererL coros b =>
        obtain ⟨δ, hδ, hmem⟩ := foldDC_trace_ext coros.contents (st.emit (Ev.cbCall t))
        refine ⟨δ, ?_, fun e he => ?_⟩
        · simp only [hget, hl]
          rw [hδ]
          simp [Loop.emit]
        · rcases hmem e he with h | h
          · exact Or.inl h
          · exact Or.inr (Or.inl h)
      | Locals.noneL => exact ⟨[], by simp only [hget, hl]; simp [Loop.emit], by simp⟩
      | Locals.counterL n => exact ⟨[], by simp only [hget, hl]; simp [Loop.emit], by simp⟩
      | Locals.waiterL a b => exact ⟨[], by simp only [hget, hl]; simp [Loop.emit], by simp⟩
  | CbId.waiterCancel =>
    cases hget : (st.emit (Ev.cbCall t)).getT t with
    | none => exact ⟨[], by simp only [hget]; simp [Loop.emit], by simp⟩
    | some s =>
      match ha : s.args with
      | none => exact ⟨[], by simp only [hget, ha]; simp [Loop.emit], by simp⟩
      | some c =>
        obtain ⟨δ₁, hδ₁, hmem₁⟩ := addTask_trace_ext (some c) (st.emit (Ev.cbCall t))
        cases hr : (addTask (some c) (st.emit (Ev.cbCall t))).1.isSome with
        | false =>
          refine ⟨δ₁, ?_, fun e he => ?_⟩
          · simp only [hget, ha, hr, Bool.false_eq_true, if_false]
            rw [hδ₁]
            simp [Loop.emit]
          · rcases hmem₁ e he with h | h
            · exact Or.inr (Or.inr (Or.inl h))
            · exact Or.inr (Or.inr (Or.inr h))
        | true =>
          cases hd : (addTask (some c) (st.emit (Ev.cbCall t))).2.doneB c with
          | true =>
            refine ⟨δ₁ ++ [Ev.decref c], ?_, fun e he => ?_⟩
            · simp only [hget, ha, hr, hd, eq_self_iff_true, if_true]
              rw [Loop.decrefT_trace, hδ₁]
              simp [Loop.emit]
            · rcases List.mem_append.mp he with he | he
              · rcases hmem₁ e he with h | h
                · exact Or.inr (Or.inr (Or.inl h))
                · exact Or.inr (Or.inr (Or.inr h))
              · simp only [List.mem_singleton] at he
                exact Or.inl ⟨c, he⟩
          | false =>
            refine ⟨δ₁ ++ [Ev.cancelFlag c, Ev.decref c], ?_, fun e he => ?_⟩
            · simp only [hget, ha, hr, hd, eq_self_iff_true, if_true, Bool.false_eq_true,
                if_false]
              rw [Loop.decrefT_trace, Loop.cancelT_trace, hδ₁]
              simp [Loop.emit]
            · rcases List.mem_append.mp he with he | he
              · rcases hmem₁ e he with h | h
                · exact Or.inr (Or.inr (Or.inl h))
                · exact Or.inr (Or.inr (Or.inr h))
              · simp only [List.mem_cons, List.mem_singleton, List.not_mem_nil, or_false] at he
                rcases he with he | he
                · exact Or.inr (Or.inl ⟨c, he⟩)
                · exact Or.inl ⟨c, he⟩

theorem count_append_zero (tr δ : List Ev) (e : Ev) (h : ∀ x ∈ δ, x ≠ e) :
    (tr ++ δ).count e = tr.count e := by
  rw [List.count_append]
  have : δ.count e = 0 := List.count_eq_zero.mpr (fun hc => (h e hc) rfl)
  omega

theorem cbBodyEv_ne_step (e : Ev) (h : cbBodyEv e) (u : Nat) : e ≠ Ev.stepCall u := by
  rcases h with ⟨v, rfl⟩ | ⟨v, rfl⟩ | ⟨v, rfl⟩ | ⟨v, rfl⟩ <;> simp

theorem waiterAwait_trace_ext (t c sec start : Nat) (st : Loop) :
    ∃ δ : List Ev, (waiterAwait t c sec start st).trace = st.trace ++ δ ∧
      ∀ e ∈ δ, cbBodyEv e := by
  unfold waiterAwait
  by_cases h1 : (!st.doneB c && decide (st.clock - start < sec)) = true
  · rw [if_pos h1]
    exact ⟨[], by simp [Loop.modT_trace], by simp⟩
  · rw [if_neg h1]
    by_cases h2 : st.doneB c = true
    · refine ⟨[Ev.decref c, Ev.decref t], ?_, ?_⟩
      · rw [if_pos h2, Loop.asyncEnd_trace, Loop.decrefT_trace]
        simp
      · intro e he
        simp only [List.mem_cons, List.mem_singleton, List.not_mem_nil, or_false] at he
        rcases he with he | he
        · exact Or.inl ⟨c, he⟩
        · exact Or.inl ⟨t, he⟩
    · refine ⟨[Ev.cancelFlag c, Ev.decref c, Ev.decref t], ?_, ?_⟩
      · rw [if_neg h2, Loop.asyncEnd_trace, Loop.decrefT_trace, Loop.cancelT_trace,
          Loop.modT_trace]
        simp
      · intro e he
        simp only [List.mem_cons, List.mem_singleton, List.not_mem_nil, or_false] at he
        rcases he with he | he | he
        · exact Or.inr (Or.inl ⟨c, he⟩)
        · exact Or.inl ⟨c, he⟩
        · exact Or.inl ⟨t, he⟩

theorem waiterStep_trace_ext (t : Nat) (st : Loop) :
    ∃ δ : List Ev, (waiterStep t st).trace = st.trace ++ δ ∧ ∀ e ∈ δ, cbBodyEv e := by
  unfold waiterStep
  cases hget : st.getT t with
  | none => exact ⟨[], by simp, by simp⟩
  | some s =>
    match hl : s.locals with
    | Locals.noneL => exact ⟨[], by simp [hl], by simp⟩
    | Locals.counterL n => exact ⟨[], by simp [hl], by simp⟩
    | Locals.gathererL a b => exact ⟨[], by simp [hl], by simp⟩
    | Locals.waiterL sec start =>
      match hc : s.cont with
      | Cont.done => exact ⟨[], by simp [hl, hc], by simp⟩
      | Cont.init =>
        obtain ⟨δ₁, hδ₁, hmem₁⟩ := addTask_trace_ext s.args st
        cases hr : (addTask s.args st).1 with
        | none =>
          refine ⟨δ₁ ++ [Ev.decref t], ?_, ?_⟩
          · simp only [hl, hc, hr]
            rw [Loop.asyncEnd_trace, Loop.modT_trace, hδ₁]
            simp
          · intro e he
            rcases List.mem_append.mp he with he | he
            · rcases hmem₁ e he with h | h
              · exact Or.inr (Or.inr (Or.inl h))
              · exact Or.inr (Or.inr (Or.inr h))
            · simp only [List.mem_singleton] at he
              exact Or.inl ⟨t, he⟩
        | some c =>
          obtain ⟨δ₂, hδ₂, hmem₂⟩ := waiterAwait_trace_ext t c sec (addTask s.args st).2.clock
            (Loop.modT t
              (fun s2 => { s2 with locals := Locals.waiterL sec (addTask s.args st).2.clock })
              (addTask s.args st).2)
          refine ⟨δ₁ ++ δ₂, ?_, ?_⟩
          · simp only [hl, hc, hr]
            rw [hδ₂, Loop.modT_trace, hδ₁]
            simp
          · intro e he
            rcases List.mem_append.mp he with he | he
            · rcases hmem₁ e he with h | h
              · exact Or.inr (Or.inr (Or.inl h))
              · exact Or.inr (Or.inr (Or.inr h))
            · exact hmem₂ e he
      | Cont.cont k =>
        match ha : s.args with
        | none => exact ⟨[], by simp [hl, hc, ha], by simp⟩
        | some c =>
          obtain ⟨δ, hδ, hmem⟩ := waiterAwait_trace_ext t c sec start st
          exact ⟨δ, by simp only [hl, hc, ha]; exact hδ, hmem⟩

theorem gatherScanF_trace_ext (fuel : Nat) (t : Nat) (coros : Arr Nat) (st : Loop) :
    ∃ δ : List Ev, (gatherScanF fuel t coros st).trace = st.trace ++ δ ∧
      ∀ e ∈ δ, cbBodyEv e := by
  induction fuel generalizing coros st with
  | zero => exact ⟨[], by simp [gatherScanF], by simp⟩
  | succ f ih =>
    unfold gatherScanF
    by_cases h0 : coros.length = 0
    · rw [if_pos h0]
      refine ⟨[Ev.decref t], ?_, ?_⟩
      · rw [Loop.asyncEnd_trace, Loop.modT_trace]
      · intro e he
        simp only [List.mem_singleton] at he
        exact Or.inl ⟨t, he⟩
    · rw [if_neg h0]
      by_cases hd : st.doneB (coros.data.getD 0 0) = true
      · rw [if_pos hd]
        obtain ⟨δ, hδ, hmem⟩ := ih (arrSplice coros 0 1) (st.decrefT (coros.data.getD 0 0))
        refine ⟨Ev.decref (coros.data.getD 0 0) :: δ, ?_, ?_⟩
        · rw [hδ, Loop.decrefT_trace]
          simp
        · intro e he
          rcases List.mem_cons.mp he with he | he
          · exact Or.inl ⟨_, he⟩
          · exact hmem e he
      · rw [if_neg hd]
        exact ⟨[], by simp [Loop.modT_trace], by simp⟩

theorem stepBody_trace_ext (t : Nat) (st : Loop) :
    ∃ δ : List Ev, (stepBody t st).trace = st.trace ++ δ ∧ ∀ e ∈ δ, cbBodyEv e := by
  unfold stepBody
  cases hget : st.getT t with
  | none => exact ⟨[], by simp, by simp⟩
  | some s =>
    match hf : s.func with
    | FuncId.yielder =>
      match hc : s.cont with
      | Cont.init => exact ⟨[], by simp [hf, hc, Loop.modT_trace], by simp⟩
      | Cont.cont k =>
        refine ⟨[Ev.decref t], ?_, ?_⟩
        · simp only [hf, hc]
          rw [Loop.asyncEnd_trace]
        · intro e he
          simp only [List.mem_singleton] at he
          exact Or.inl ⟨t, he⟩
      | Cont.done => exact ⟨[], by simp [hf, hc], by simp⟩
    | FuncId.spinner =>
      match hc : s.cont with
      | Cont.init => exact ⟨[], by simp [hf, hc, Loop.modT_trace], by simp⟩
      | Cont.cont k => exact ⟨[], by simp [hf, hc, Loop.modT_trace], by simp⟩
      | Cont.done => exact ⟨[], by simp [hf, hc], by simp⟩
    | FuncId.counterB =>
      match hc : s.cont, hl : s.locals with
      | Cont.done, _ => exact ⟨[], by simp [hf, hc], by simp⟩
      | Cont.init, Locals.counterL 0 =>
        refine ⟨[Ev.decref t], ?_, ?_⟩
        · simp only [hf, hc, hl]
          rw [Loop.asyncEnd_trace]
        · intro e he
          simp only [List.mem_singleton] at he
          exact Or.inl ⟨t, he⟩
      | Cont.cont k, Locals.counterL 0 =>
        refine ⟨[Ev.decref t], ?_, ?_⟩
        · simp only [hf, hc, hl]
          rw [Loop.asyncEnd_trace]
        · intro e he
          simp only [List.mem_singleton] at he
          exact Or.inl ⟨t, he⟩
      | Cont.init, Locals.counterL (n + 1) =>
        exact ⟨[], by simp [hf, hc, hl, Loop.modT_trace], by simp⟩
      | Cont.cont k, Locals.counterL (n + 1) =>
        exact ⟨[], by simp [hf, hc, hl, Loop.modT_trace], by simp⟩
      | Cont.init, Locals.noneL => exact ⟨[], by simp [hf, hc, hl], by simp⟩
      | Cont.cont k, Locals.noneL => exact ⟨[], by simp [hf, hc, hl], by simp⟩
      | Cont.init, Locals.waiterL a b => exact ⟨[], by simp [hf, hc, hl], by simp⟩
      | Cont.cont k, Locals.waiterL a b => exact ⟨[], by simp [hf, hc, hl], by simp⟩
      | Cont.init, Locals.gathererL a b => exact ⟨[], by simp [hf, hc, hl], by simp⟩
      | Cont.cont k, Locals.gathererL a b => exact ⟨[], by simp [hf, hc, hl], by simp⟩
    | FuncId.gatherer =>
      match hc : s.cont, hl : s.locals with
      | Cont.done, _ => exact ⟨[], by simp [hf, hc], by simp⟩
      | Cont.init, Locals.gathererL coros b =>
        obtain ⟨δ, hδ, hmem⟩ := gatherScanF_trace_ext (coros.length + 1) t coros st
        exact ⟨δ, by simp only [hf, hc, hl]; rw [gatherScan]; exact hδ, hmem⟩
      | Cont.cont k, Locals.gathererL coros b =>
        obtain ⟨δ, hδ, hmem⟩ := gatherScanF_trace_ext (coros.length + 1) t coros st
        exact ⟨δ, by simp only [hf, hc, hl]; rw [gatherScan]; exact hδ, hmem⟩
      | Cont.init, Locals.noneL => exact ⟨[], by simp [hf, hc, hl], by simp⟩
      | Cont.cont k, Locals.noneL => exact ⟨[], by simp [hf, hc, hl], by simp⟩
      | Cont.init, Locals.waiterL a b => exact ⟨[], by simp [hf, hc, hl], by simp⟩
      | Cont.cont k, Locals.waiterL a b => exact ⟨[], by simp [hf, hc, hl], by simp⟩
      | Cont.init, Locals.counterL n => exact ⟨[], by simp [hf, hc, hl], by simp⟩
      | Cont.cont k, Locals.counterL n => exact ⟨[], by simp [hf, hc, hl], by simp⟩
    | FuncId.waiter =>
      obtain ⟨δ, hδ, hmem⟩ := waiterStep_trace_ext t st
      exact ⟨δ, by simp only [hf]; exact hδ, hmem⟩

theorem stepTask_trace_ext (t : Nat) (st : Loop) :
    ∃ δ : List Ev, (stepTask t st).trace = st.trace ++ [Ev.stepCall t] ++ δ ∧
      ∀ e ∈ δ, cbBodyEv e := by
  obtain ⟨δ, hδ, hmem⟩ := stepBody_trace_ext t (st.emit (Ev.stepCall t))
  exact ⟨δ, by rw [stepTask, hδ]; rfl, hmem⟩

theorem visitReap_trace_ext (st : Loop) (i t : Nat) (s : Task) :
    ∃ δ : List Ev, (visitReap st i t s).1.trace = st.trace ++ δ ∧
      ∀ e ∈ δ, e = Ev.cbCall t ∨ cbBodyEv e := by
  unfold visitReap
  have hst1 : ∃ δ₁ : List Ev,
      (if s.cont = Cont.done then st
       else match s.cancelCb with
            | some cb => runCb cb t st
            | none => st).trace = st.trace ++ δ₁ ∧
      ∀ e ∈ δ₁, e = Ev.cbCall t ∨ cbBodyEv e := by
    by_cases hc : s.cont = Cont.done
    · exact ⟨[], by rw [if_pos hc]; simp, by simp⟩
    · rw [if_neg hc]
      match s.cancelCb with
      | none => exact ⟨[], by simp, by simp⟩
      | some cb =>
        obtain ⟨δ', hδ', hmem'⟩ := runCb_trace_ext cb t st
        refine ⟨[Ev.cbCall t] ++ δ', by rw [hδ']; simp, ?_⟩
        intro e he
        rcases List.mem_append.mp he with he | he
        · simp only [List.mem_singleton] at he
          exact Or.inl he
        · exact Or.inr (hmem' e he)
  obtain ⟨δ₁, hδ₁, hmem₁⟩ := hst1
  obtain ⟨δ₂, hδ₂, hmem₂⟩ := Loop.stateFree_trace_ext t _
  refine ⟨δ₁ ++ δ₂, ?_, ?_⟩
  · cases hr : ((if s.cont = Cont.done then st
        else match s.cancelCb with
             | some cb => runCb cb t st
             | none => st).stateFree t).pushVacant i |>.1 with
    | true =>
      rw [if_pos (by rw [hr])]
      show ((_ : Loop).stateFree t).pushVacant i |>.2.trace = _
      rw [Loop.pushVacant_trace, hδ₂, hδ₁]
      simp
    | false =>
      rw [if_neg (by rw [hr]; simp)]
      show ((_ : Loop).stateFree t).pushVacant i |>.2.trace = _
      rw [Loop.pushVacant_trace, hδ₂, hδ₁]
      simp
  · intro e he
    rcases List.mem_append.mp he with he | he
    · exact hmem₁ e he
    · exact Or.inr (hmem₂ e he |>.elim (fun ⟨b, hb⟩ => Or.inr (Or.inr (Or.inl ⟨b, hb⟩)))
        (fun ⟨u, hu⟩ => Or.inr (Or.inr (Or.inr ⟨u, hu⟩))))

theorem visitCancelled_trace_ext (st : Loop) (i t : Nat) (s : Task) :
    ∃ δ : List Ev, (visitCancelled st i t s).1.trace = st.trace ++ δ ∧
      ∀ e ∈ δ, e = Ev.cbCall t ∨ cbBodyEv e := by
  unfold visitCancelled
  have hst1 : ∃ δ₁ : List Ev,
      (if s.cont = Cont.done then st
       else
         let stA := st.decrefT t
         match s.cancelCb with
         | some cb => runCb cb t stA
         | none => stA).trace = st.trace ++ δ₁ ∧
      ∀ e ∈ δ₁, e = Ev.cbCall t ∨ cbBodyEv e := by
    by_cases hc : s.cont = Cont.done
    · exact ⟨[], by rw [if_pos hc]; simp, by simp⟩
    · rw [if_neg hc]
      match s.cancelCb with
      | none =>
        refine ⟨[Ev.decref t], by rw [Loop.decrefT_trace], ?_⟩
        intro e he
        simp only [List.mem_singleton] at he
        exact Or.inr (Or.inl ⟨t, he⟩)
      | some cb =>
        obtain ⟨δ', hδ', hmem'⟩ := runCb_trace_ext cb t (st.decrefT t)
        refine ⟨[Ev.decref t] ++ [Ev.cbCall t] ++ δ', ?_, ?_⟩
        · rw [hδ', Loop.decrefT_trace]
          simp
        · intro e he
          rcases List.mem_append.mp he with he | he
          · rcases List.mem_append.mp he with he | he
            · simp only [List.mem_singleton] at he
              exact Or.inr (Or.inl ⟨t, he⟩)
            · simp only [List.mem_singleton] at he
              exact Or.inl he
          · exact Or.inr (hmem' e he)
  obtain ⟨δ₁, hδ₁, hmem₁⟩ := hst1
  set st1 := (if s.cont = Cont.done then st
       else
         let stA := st.decrefT t
         match s.cancelCb with
         | some cb => runCb cb t stA
         | none => stA) with hst1def
  have hst2 : ∃ δ₂ : List Ev,
      (match (st1.getT t).bind Task.next with
       | some nx => Loop.cancelT nx (Loop.decrefT nx st1)
       | none => st1).trace = st1.trace ++ δ₂ ∧
      ∀ e ∈ δ₂, cbBodyEv e := by
    cases hn : (st1.getT t).bind Task.next with
    | none => exact ⟨[], by simp, by simp⟩
    | some nx =>
      refine ⟨[Ev.decref nx, Ev.cancelFlag nx], ?_, ?_⟩
      · rw [Loop.cancelT_trace, Loop.decrefT_trace]
        simp
      · intro e he
        simp only [List.mem_cons, List.mem_singleton, List.not_mem_nil, or_false] at he
        rcases he with he | he
        · exact Or.inl ⟨nx, he⟩
        · exact Or.inr (Or.inl ⟨nx, he⟩)
  obtain ⟨δ₂, hδ₂, hmem₂⟩ := hst2
  refine ⟨δ₁ ++ δ₂, ?_, ?_⟩
  · rw [Loop.modT_trace, hδ₂, hδ₁]
    simp
  · intro e he
    rcases List.mem_append.mp he with he | he
    · exact hmem₁ e he
    · exact Or.inr (hmem₂ e he)

/-- C4: during a scheduler pass, a task's step function is never invoked
while the task is done or while `next` references a not-done child; it
is invoked exactly when the task is not done, not reapable
(`refcnt != 0`), not pending cancellation, and `next` is null or done. -/
theorem C4_step_gating (st : Loop) (i t : Nat) (s : Task)
    (he : st.events.data.getD i none = some t) (hs : st.getT t = some s) :
    (visitStep st i).1.trace.count (Ev.stepCall t) =
      st.trace.count (Ev.stepCall t) +
        (if s.refcnt ≠ 0 ∧ ¬(s.err ≠ AErr.ecanceled ∧ s.cancelled = true) ∧
            s.cont ≠ Cont.done ∧ nextDoneB st s = true then 1 else 0) := by
  unfold visitStep
  rw [he]
  dsimp only
  rw [hs]
  dsimp only
  by_cases h1 : s.refcnt = 0
  · rw [if_pos h1, if_neg (by simp [h1])]
    obtain ⟨δ, hδ, hmem⟩ := visitReap_trace_ext st i t s
    rw [hδ]
    rw [count_append_zero]
    · omega
    · intro x hx
      rcases hmem x hx with hx' | hx'
      · rw [hx']
        simp
      · exact cbBodyEv_ne_step x hx' t
  · rw [if_neg h1]
    by_cases h2 : s.err ≠ AErr.ecanceled ∧ s.cancelled = true
    · rw [if_pos h2, if_neg (fun hC => hC.2.1 h2)]
      obtain ⟨δ, hδ, hmem⟩ := visitCancelled_trace_ext st i t s
      rw [hδ, count_append_zero]
      · omega
      · intro x hx
        rcases hmem x hx with hx' | hx'
        · rw [hx']
          simp
        · exact cbBodyEv_ne_step x hx' t
    · rw [if_neg h2]
      by_cases h3 : s.cont ≠ Cont.done ∧ nextDoneB st s = true
      · rw [if_pos h3, if_pos ⟨h1, h2, h3⟩]
        obtain ⟨δ, hδ, hmem⟩ := stepTask_trace_ext t st
        rw [hδ]
        have hδ0 : δ.count (Ev.stepCall t) = 0 :=
          List.count_eq_zero.mpr (fun hc => (cbBodyEv_ne_step _ (hmem _ hc) t) rfl)
        rw [List.count_append, List.count_append]
        simp [hδ0]
      · rw [if_neg h3, if_neg (by rintro ⟨-, -, hx⟩; exact h3 hx)]
        simp

theorem Loop.decrefT_getT_ne (c u : Nat) (st : Loop) (h : u ≠ c) :
    (st.decrefT c).getT u = st.getT u := by
  unfold Loop.decrefT
  rw [Loop.emit_getT, Loop.getT_modT_ne _ _ _ _ h]

theorem Loop.decrefT_getT_self (c : Nat) (st : Loop) :
    (st.decrefT c).getT c = (st.getT c).map (fun s => { s with refcnt := s.refcnt - 1 }) := by
  unfold Loop.decrefT
  rw [Loop.emit_getT, Loop.getT_modT_self]

theorem Loop.cancelT_getT_ne (c u : Nat) (st : Loop) (h : u ≠ c) :
    (st.cancelT c).getT u = st.getT u := by
  unfold Loop.cancelT
  rw [Loop.emit_getT, Loop.getT_modT_ne _ _ _ _ h]

theorem Loop.cancelT_getT_self (c : Nat) (st : Loop) :
    (st.cancelT c).getT c = (st.getT c).map (fun s => { s with cancelled := true }) := by
  unfold Loop.cancelT
  rw [Loop.emit_getT, Loop.getT_modT_self]

theorem addTask_getT_ne (x : Option Nat) (u : Nat) (st : Loop)
    (h : ∀ c, x = some c → u ≠ c) : (addTask x st).2.getT u = st.getT u := by
  match x with
  | none => rfl
  | some c =>
    have huc : u ≠ c := h c rfl
    match hget : st.getT c with
    | none => simp [addTask, hget]
    | some s =>
      by_cases hsch : s.sched = true
      · simp [addTask, hget, hsch]
      · by_cases hvac : 0 < st.vacant.length
        · simp only [addTask, hget]
          rw [if_neg (by simp [hsch]), if_pos hvac]
          dsimp only
          unfold Loop.setSched
          rw [Loop.getT_modT_ne _ _ _ _ huc]
          rfl
        · cases hp : (st.pushEvents (some c)).1 with
          | true =>
            simp only [addTask, hget]
            rw [if_neg (by simp [hsch]), if_neg hvac, if_pos hp]
            dsimp only
            unfold Loop.setSched
            rw [Loop.getT_modT_ne _ _ _ _ huc, Loop.getT_ext _ st u (Loop.pushEvents_heap st _)]
          | false =>
            simp only [addTask, hget]
            rw [if_neg (by simp [hsch]), if_neg hvac, if_neg (by simp [hp])]
            dsimp only
            rw [Loop.stateFree_getT_ne _ _ _ huc,
              Loop.getT_ext _ st u (Loop.pushEvents_heap st _)]

theorem foldDC_getT_notmem (l : List Nat) (u : Nat) (st : Loop) (h : u ∉ l) :
    (l.foldl (fun acc c => Loop.cancelT c (Loop.decrefT c acc)) st).getT u = st.getT u := by
  induction l generalizing st with
  | nil => rfl
  | cons c l ih =>
    rw [List.foldl_cons, ih _ (fun hc => h (List.mem_cons_of_mem c hc)),
      Loop.cancelT_getT_ne _ _ _ (fun he => h (by rw [he]; exact List.mem_cons_self c l)),
      Loop.decrefT_getT_ne _ _ _ (fun he => h (by rw [he]; exact List.mem_cons_self c l))]

theorem runCb_getT_untouched (cb : CbId) (t : Nat) (st : Loop) (s : Task) (u : Nat)
    (hs : st.getT t = some s) (hcb : s.cancelCb = some cb) (hu : u ∉ cbTouch s) :
    (runCb cb t st).getT u = st.getT u := by
  have hget' : (st.emit (Ev.cbCall t)).getT t = some s := by rw [Loop.emit_getT]; exact hs
  unfold runCb
  match cb with
  | CbId.gathererCancel =>
    simp only [hget']
    match hl : s.locals with
    | Locals.gathererL coros b =>
      have hmem : u ∉ coros.contents := by
        intro hc
        apply hu
        unfold cbTouch
        rw [hcb, hl]
        exact hc
      simp only [hl]
      rw [foldDC_getT_notmem _ _ _ hmem, Loop.emit_getT]
    | Locals.noneL => simp only [hl]; rw [Loop.emit_getT]
    | Locals.counterL n => simp only [hl]; rw [Loop.emit_getT]
    | Locals.waiterL a b => simp only [hl]; rw [Loop.emit_getT]
  | CbId.waiterCancel =>
    simp only [hget']
    match ha : s.args with
    | none => simp only [ha]; rw [Loop.emit_getT]
    | some c =>
      simp only [ha]
      have huc : u ≠ c := by
        intro he
        apply hu
        unfold cbTouch
        rw [hcb, ha, he]
        exact List.mem_singleton.mpr rfl
      have haddT : (addTask (some c) (st.emit (Ev.cbCall t))).2.getT u =
          (st.emit (Ev.cbCall t)).getT u :=
        addTask_getT_ne (some c) u _ (fun c' hc' => by injection hc' with h2; rw [← h2]; exact huc)
      cases hr : (addTask (some c) (st.emit (Ev.cbCall t))).1.isSome with
      | false =>
        rw [if_neg (by simp)]
        rw [haddT, Loop.emit_getT]
      | true =>
        rw [if_pos rfl]
        cases hd : (addTask (some c) (st.emit (Ev.cbCall t))).2.doneB c with
        | true =>
          rw [if_pos rfl]
          rw [Loop.decrefT_getT_ne _ _ _ huc, haddT, Loop.emit_getT]
        | false =>
          rw [if_neg (by simp)]
          rw [Loop.decrefT_getT_ne _ _ _ huc, Loop.cancelT_getT_ne _ _ _ huc, haddT,
            Loop.emit_getT]

theorem foldDC_trace_ids (l : List Nat) (st : Loop) :
    ∃ δ : List Ev,
      (l.foldl (fun acc c => Loop.cancelT c (Loop.decrefT c acc)) st).trace = st.trace ++ δ ∧
      ∀ e ∈ δ, ∃ u ∈ l, e = Ev.decref u ∨ e = Ev.cancelFlag u := by
  induction l generalizing st with
  | nil => exact ⟨[], by simp, by simp⟩
  | cons c l ih =>
    obtain ⟨δ, hδ, hmem⟩ := ih (Loop.cancelT c (Loop.decrefT c st))
    refine ⟨[Ev.decref c, Ev.cancelFlag c] ++ δ, ?_, ?_⟩
    · rw [List.foldl_cons, hδ, Loop.cancelT_trace, Loop.decrefT_trace]
      simp
    · intro e he
      rcases List.mem_append.mp he with he | he
      · simp only [List.mem_cons, List.mem_singleton, List.not_mem_nil, or_false] at he
        rcases he with he | he
        · exact ⟨c, List.mem_cons_self c l, Or.inl he⟩
        · exact ⟨c, List.mem_cons_self c l, Or.inr he⟩
      · obtain ⟨u, hu, hor⟩ := hmem e he
        exact ⟨u, List.mem_cons_of_mem c hu, hor⟩

/-- Refined trace extension for `add_task`: every appended event is a
block free or the destruction of the very task that was passed in. -/
theorem addTask_trace_ids (c : Nat) (st : Loop) :
    ∃ δ : List Ev, (addTask (some c) st).2.trace = st.trace ++ δ ∧
      ∀ e ∈ δ, (∃ b, e = Ev.freeBlock b) ∨ e = Ev.freeTask c := by
  match hget : st.getT c with
  | none => exact ⟨[], by simp [addTask, hget], by simp⟩
  | some s =>
    by_cases hsch : s.sched = true
    · exact ⟨[], by simp [addTask, hget, hsch], by simp⟩
    · by_cases hvac : 0 < st.vacant.length
      · refine ⟨[], ?_, by simp⟩
        simp only [addTask, hget]
        rw [if_neg (by simp [hsch]), if_pos hvac]
        simp [Loop.setSched_trace]
      · cases hp : (st.pushEvents (some c)).1 with
        | true =>
          refine ⟨[], ?_, by simp⟩
          simp only [addTask, hget]
          rw [if_neg (by simp [hsch]), if_neg hvac, if_pos hp]
          simp [Loop.setSched_trace, Loop.pushEvents_trace]
        | false =>
          have hget2 : (st.pushEvents (some c)).2.getT c = some s := by
            rw [Loop.getT_ext _ st c (Loop.pushEvents_heap st _)]
            exact hget
          refine ⟨s.allocs.contents.reverse.map Ev.freeBlock ++ [Ev.freeTask c], ?_, ?_⟩
          · simp only [addTask, hget]
            rw [if_neg (by simp [hsch]), if_neg hvac, if_neg (by simp [hp])]
            dsimp only
            rw [Loop.stateFree_trace _ _ s hget2, Loop.pushEvents_trace]
            simp
          · intro e he
            rcases List.mem_append.mp he with he | he
            · obtain ⟨b, _, hb⟩ := List.mem_map.mp he
              exact Or.inl ⟨b, hb.symm⟩
            · simp only [List.mem_singleton] at he
              exact Or.inr he

/-- Refined trace extension for a cancel callback: besides its `cbCall`,
every appended event either is a block free or names a task in
`cbTouch s`. -/
theorem runCb_trace_touch (cb : CbId) (t : Nat) (st : Loop) (s : Task)
    (hs : st.getT t = some s) (hcb : s.cancelCb = some cb) :
    ∃ δ : List Ev, (runCb cb t st).trace = st.trace ++ [Ev.cbCall t] ++ δ ∧
      ∀ e ∈ δ, (∃ b, e = Ev.freeBlock b) ∨
        ∃ u ∈ cbTouch s, e = Ev.decref u ∨ e = Ev.cancelFlag u ∨ e = Ev.freeTask u := by
  have hget' : (st.emit (Ev.cbCall t)).getT t = some s := by rw [Loop.emit_getT]; exact hs
  have hemit : (st.emit (Ev.cbCall t)).trace = st.trace ++ [Ev.cbCall t] := rfl
  unfold runCb
  match cb with
  | CbId.gathererCancel =>
    simp only [hget']
    match hl : s.locals with
    | Locals.gathererL coros b =>
      obtain ⟨δ, hδ, hmem⟩ := foldDC_trace_ids coros.contents (st.emit (Ev.cbCall t))
      refine ⟨δ, by simp only [hl]; rw [hδ, hemit], ?_⟩
      intro e he
      obtain ⟨u, hu, hor⟩ := hmem e he
      have hu' : u ∈ cbTouch s := by
        unfold cbTouch
        rw [hcb, hl]
        exact hu
      rcases hor with h | h
      · exact Or.inr ⟨u, hu', Or.inl h⟩
      · exact Or.inr ⟨u, hu', Or.inr (Or.inl h)⟩
    | Locals.noneL => exact ⟨[], by simp only [hl]; rw [hemit]; simp, by simp⟩
    | Locals.counterL n => exact ⟨[], by simp only [hl]; rw [hemit]; simp, by simp⟩
    | Locals.waiterL a b => exact ⟨[], by simp only [hl]; rw [hemit]; simp, by simp⟩
  | CbId.waiterCancel =>
    simp only [hget']
    match ha : s.args with
    | none => exact ⟨[], by simp only [ha]; rw [hemit]; simp, by simp⟩
    | some c =>
      simp only [ha]
      have hc' : c ∈ cbTouch s := by
        unfold cbTouch
        rw [hcb, ha]
        exact List.mem_singleton.mpr rfl
      obtain ⟨δ₁, hδ₁, hmem₁⟩ := addTask_trace_ids c (st.emit (Ev.cbCall t))
      have hfree : ∀ e ∈ δ₁, (∃ b, e = Ev.freeBlock b) ∨
          ∃ u ∈ cbTouch s, e = Ev.decref u ∨ e = Ev.cancelFlag u ∨ e = Ev.freeTask u := by
        intro e he
        rcases hmem₁ e he with h | h
        · exact Or.inl h
        · exact Or.inr ⟨c, hc', Or.inr (Or.inr h)⟩
      cases hr : (addTask (some c) (st.emit (Ev.cbCall t))).1.isSome with
      | false =>
        refine ⟨δ₁, ?_, hfree⟩
        rw [if_neg (by simp), hδ₁, hemit]
      | true =>
        cases hd : (addTask (some c) (st.emit (Ev.cbCall t))).2.doneB c with
        | true =>
          refine ⟨δ₁ ++ [Ev.decref c], ?_, ?_⟩
          · rw [if_pos rfl, if_pos rfl, Loop.decrefT_trace, hδ₁, hemit]
            simp
          · intro e he
            rcases List.mem_append.mp he with he | he
            · exact hfree e he
            · simp only [List.mem_singleton] at he
              exact Or.inr ⟨c, hc', Or.inl he⟩
        | false =>
          refine ⟨δ₁ ++ [Ev.cancelFlag c, Ev.decref c], ?_, ?_⟩
          · rw [if_pos rfl, if_neg (by simp), Loop.decrefT_trace,
              Loop.cancelT_trace, hδ₁, hemit]
            simp
          · intro e he
            rcases List.mem_append.mp he with he | he
            · exact hfree e he
            · simp only [List.mem_cons, List.mem_singleton, List.not_mem_nil, or_false] at he
              rcases he with he | he
              · exact Or.inr ⟨c, hc', Or.inr (Or.inl he)⟩
              · exact Or.inr ⟨c, hc', Or.inl he⟩

/-- C1 (amended by the counterexample: the claim as stated omits the
`refcnt != 0` guard — the reap branch runs first and shadows the
cancelled branch): for every task `s` visited by a scheduler pass with
nonzero `refcnt`, `s.err != ECANCELED` and its cancellation flag set,
the visit performs exactly the cancellation protocol: if `s` is not
done, decrement `s.refcnt` and invoke `s.cancel_cb` when it is non-null;
if `s.next` is non-null, decrement `s.next.refcnt` and set `s.next`'s
cancellation flag; and finally set `s.err = ECANCELED` and
`s.cont = DONE`.  The aliasing hypotheses (`cbTouch`) say the callback's
own targets are distinct from `s` and `s.next`, which holds of the
runtime's waiter/gatherer shapes. -/
theorem C1_cancelled_propagation (st : Loop) (i t : Nat) (s : Task)
    (he : st.events.data.getD i none = some t)
    (hs : st.getT t = some s)
    (hrc : s.refcnt ≠ 0)
    (herr : s.err ≠ AErr.ecanceled)
    (hcanc : s.cancelled = true)
    (htouch : t ∉ cbTouch s)
    (hnt : s.next ≠ some t)
    (hnx : ∀ nx, s.next = some nx → nx ∉ cbTouch s) :
    (visitStep st i).2 = i + 1 ∧
    ((visitStep st i).1.getT t).map Task.err = some AErr.ecanceled ∧
    ((visitStep st i).1.getT t).map Task.cont = some Cont.done ∧
    ((visitStep st i).1.getT t).map Task.refcnt =
      some (if s.cont = Cont.done then s.refcnt else s.refcnt - 1) ∧
    (visitStep st i).1.trace.count (Ev.cbCall t) =
      st.trace.count (Ev.cbCall t) +
        (if s.cont ≠ Cont.done ∧ s.cancelCb ≠ none then 1 else 0) ∧
    (visitStep st i).1.trace.count (Ev.decref t) =
      st.trace.count (Ev.decref t) + (if s.cont = Cont.done then 0 else 1) ∧
    (∀ nx snx, s.next = some nx → st.getT nx = some snx →
      ((visitStep st i).1.getT nx).map Task.refcnt = some (snx.refcnt - 1) ∧
      ((visitStep st i).1.getT nx).map Task.cancelled = some true ∧
      (visitStep st i).1.trace.count (Ev.decref nx) = st.trace.count (Ev.decref nx) + 1 ∧
      (visitStep st i).1.trace.count (Ev.cancelFlag nx) =
        st.trace.count (Ev.cancelFlag nx) + 1) ∧
    (s.cancelCb = none →
      (visitStep st i).1.trace =
        st.trace ++ (if s.cont = Cont.done then [] else [Ev.decref t]) ++
          (match s.next with
           | some nx => [Ev.decref nx, Ev.cancelFlag nx]
           | none => [])) := by
  have hvc : visitStep st i = visitCancelled st i t s := by
    unfold visitStep
    rw [he]
    dsimp only
    rw [hs]
    dsimp only
    rw [if_neg hrc, if_pos ⟨herr, hcanc⟩]
  rw [hvc]
  unfold visitCancelled
  dsimp only
  have H1 : ∃ δ₁ : List Ev,
      (if s.cont = Cont.done then st
       else
         match s.cancelCb with
         | some cb => runCb cb t (st.decrefT t)
         | none => st.decrefT t).trace = st.trace ++ δ₁ ∧
      (if s.cont = Cont.done then st
       else
         match s.cancelCb with
         | some cb => runCb cb t (st.decrefT t)
         | none => st.decrefT t).getT t =
        some (if s.cont = Cont.done then s else { s with refcnt := s.refcnt - 1 }) ∧
      (∀ u, u ∉ cbTouch s → u ≠ t →
        (if s.cont = Cont.done then st
         else
           match s.cancelCb with
           | some cb => runCb cb t (st.decrefT t)
           | none => st.decrefT t).getT u = st.getT u) ∧
      δ₁.count (Ev.decref t) = (if s.cont = Cont.done then 0 else 1) ∧
      δ₁.count (Ev.cbCall t) = (if s.cont ≠ Cont.done ∧ s.cancelCb ≠ none then 1 else 0) ∧
      (∀ u, u ∉ cbTouch s → u ≠ t →
        δ₁.count (Ev.decref u) = 0 ∧ δ₁.count (Ev.cancelFlag u) = 0) ∧
      (s.cancelCb = none → δ₁ = if s.cont = Cont.done then [] else [Ev.decref t]) := by
    by_cases hdone : s.cont = Cont.done
    · refine ⟨[], ?_, ?_, ?_, ?_, ?_, ?_, ?_⟩ <;> simp [hdone, hs]
    · rw [if_neg hdone]
      cases hcb : s.cancelCb with
      | none =>
        refine ⟨[Ev.decref t], ?_, ?_, ?_, ?_, ?_, ?_, ?_⟩
        · rw [Loop.decrefT_trace]
        · rw [if_neg hdone, Loop.decrefT_getT_self, hs]
          simp [hcb]
        · intro u _ hut
          exact Loop.decrefT_getT_ne t u st hut
        · simp [hdone]
        · simp [hcb]
        · intro u _ hut
          constructor <;> simp [List.count_singleton, Ne.symm hut]
        · intro _
          rw [if_neg hdone]
      | some cb =>
        have hs' : (st.decrefT t).getT t = some { s with refcnt := s.refcnt - 1 } := by
          rw [Loop.decrefT_getT_self, hs]
          rfl
        have hcb' : ({ s with refcnt := s.refcnt - 1 } : Task).cancelCb = some cb := hcb
        have htch : cbTouch { s with refcnt := s.refcnt - 1 } = cbTouch s := rfl
        obtain ⟨δ, hδ, hmem⟩ := runCb_trace_touch cb t (st.decrefT t) _ hs' hcb'
        refine ⟨[Ev.decref t] ++ [Ev.cbCall t] ++ δ, ?_, ?_, ?_, ?_, ?_, ?_, ?_⟩
        · rw [hδ, Loop.decrefT_trace]
          simp
        · rw [if_neg hdone]
          rw [runCb_getT_untouched cb t _ _ t hs' hcb' (by rw [htch]; exact htouch), hs']
          simp [hcb]
        · intro u hu hut
          rw [runCb_getT_untouched cb t _ _ u hs' hcb' (by rw [htch]; exact hu),
            Loop.decrefT_getT_ne t u st hut]
        · have hδ0 : δ.count (Ev.decref t) = 0 := by
            rw [List.count_eq_zero]
            intro hc
            rcases hmem _ hc with ⟨b, hb⟩ | ⟨u, hu, hor⟩
            · exact Ev.noConfusion hb
            · rw [htch] at hu
              rcases hor with h | h | h
              · injection h with h2
                exact htouch (h2 ▸ hu)
              · exact Ev.noConfusion h
              · exact Ev.noConfusion h
          simp [List.count_append, hδ0, hdone]
        · have hδ0 : δ.count (Ev.cbCall t) = 0 := by
            rw [List.count_eq_zero]
            intro hc
            rcases hmem _ hc with ⟨b, hb⟩ | ⟨u, _, hor⟩
            · exact Ev.noConfusion hb
            · rcases hor with h | h | h <;> exact Ev.noConfusion h
          simp [List.count_append, hδ0, hdone, hcb]
        · intro u hu hut
          have hd0 : δ.count (Ev.decref u) = 0 := by
            rw [List.count_eq_zero]
            intro hc
            rcases hmem _ hc with ⟨b, hb⟩ | ⟨v, hv, hor⟩
            · exact Ev.noConfusion hb
            · rw [htch] at hv
              rcases hor with h | h | h
              · injection h with h2
                exact hu (h2 ▸ hv)
              · exact Ev.noConfusion h
              · exact Ev.noConfusion h
          have hc0 : δ.count (Ev.cancelFlag u) = 0 := by
            rw [List.count_eq_zero]
            intro hc
            rcases hmem _ hc with ⟨b, hb⟩ | ⟨v, hv, hor⟩
            · exact Ev.noConfusion hb
            · rw [htch] at hv
              rcases hor with h | h | h
              · exact Ev.noConfusion h
              · injection h with h2
                exact hu (h2 ▸ hv)
              · exact Ev.noConfusion h
          constructor <;>
            simp [List.count_cons, List.count_append, hd0, hc0, hut, Ne.symm hut]
        · intro hcn
          exact Option.noConfusion hcn
  obtain ⟨δ₁, hδ₁, hget₁, hother₁, hcnt₁, hcb₁, hzero₁, hexact₁⟩ := H1
  have hbind : ((if s.cont = Cont.done then st
       else
         match s.cancelCb with
         | some cb => runCb cb t (st.decrefT t)
         | none => st.decrefT t).getT t).bind Task.next = s.next := by
    rw [hget₁]
    by_cases hdone : s.cont = Cont.done <;> simp [hdone]
  rw [hbind]
  cases hn : s.next with
  | none =>
    refine ⟨rfl, ?_, ?_, ?_, ?_, ?_, ?_, ?_⟩
    · rw [Loop.getT_modT_self, hget₁]
      rfl
    · rw [Loop.getT_modT_self, hget₁]
      rfl
    · rw [Loop.getT_modT_self, hget₁]
      by_cases hdone : s.cont = Cont.done <;> simp [hdone]
    · rw [Loop.modT_trace, hδ₁, List.count_append, hcb₁]
    · rw [Loop.modT_trace, hδ₁, List.count_append, hcnt₁]
    · intro nx snx hnx' _
      exact Option.noConfusion hnx'
    · intro hcn
      rw [Loop.modT_trace, hδ₁, hexact₁ hcn]
      simp
  | some nx =>
    have hnxt : nx ≠ t := fun hh => hnt (hn.trans (congrArg some hh))
    have hnxtouch : nx ∉ cbTouch s := hnx nx hn
    have hst1nx : (if s.cont = Cont.done then st
         else
           match s.cancelCb with
           | some cb => runCb cb t (st.decrefT t)
           | none => st.decrefT t).getT nx = st.getT nx :=
      hother₁ nx hnxtouch hnxt
    refine ⟨rfl, ?_, ?_, ?_, ?_, ?_, ?_, ?_⟩
    · rw [Loop.getT_modT_self, Loop.cancelT_getT_ne _ _ _ (Ne.symm hnxt),
        Loop.decrefT_getT_ne _ _ _ (Ne.symm hnxt), hget₁]
      rfl
    · rw [Loop.getT_modT_self, Loop.cancelT_getT_ne _ _ _ (Ne.symm hnxt),
        Loop.decrefT_getT_ne _ _ _ (Ne.symm hnxt), hget₁]
      rfl
    · rw [Loop.getT_modT_self, Loop.cancelT_getT_ne _ _ _ (Ne.symm hnxt),
        Loop.decrefT_getT_ne _ _ _ (Ne.symm hnxt), hget₁]
      by_cases hdone : s.cont = Cont.done <;> simp [hdone]
    · rw [Loop.modT_trace, Loop.cancelT_trace, Loop.decrefT_trace, hδ₁]
      simp only [List.append_assoc, List.count_append, hcb₁]
      simp
    · rw [Loop.modT_trace, Loop.cancelT_trace, Loop.decrefT_trace, hδ₁]
      simp [List.append_assoc, List.count_append, List.count_cons, List.count_nil, hnxt,
        hcnt₁]
    · intro nx' snx hnx' hsnx
      have hnn : nx' = nx := by
        injection hnx' with h
        exact h.symm
      subst hnn
      refine ⟨?_, ?_, ?_, ?_⟩
      · rw [Loop.getT_modT_ne _ _ _ _ hnxt, Loop.cancelT_getT_self, Loop.decrefT_getT_self,
          hst1nx, hsnx]
        rfl
      · rw [Loop.getT_modT_ne _ _ _ _ hnxt, Loop.cancelT_getT_self, Loop.decrefT_getT_self,
          hst1nx, hsnx]
        rfl
      · rw [Loop.modT_trace, Loop.cancelT_trace, Loop.decrefT_trace, hδ₁]
        have hz := hzero₁ nx' hnxtouch hnxt
        simp [List.count_append, hz.1]
      · rw [Loop.modT_trace, Loop.cancelT_trace, Loop.decrefT_trace, hδ₁]
        have hz := hzero₁ nx' hnxtouch hnxt
        simp [List.count_append, hz.2]
    · intro hcn
      rw [Loop.modT_trace, Loop.cancelT_trace, Loop.decrefT_trace, hδ₁, hexact₁ hcn]
      simp

theorem arrExpand_nil {α : Type} (junk : α) (a : Arr α) (n : Nat) :
    (arrExpand junk [] a n).1 = true ∧ (arrExpand junk [] a n).2.2 = ([] : List Bool) := by
  unfold arrExpand
  dsimp only
  split <;> exact ⟨rfl, rfl⟩

theorem Loop.pushEvents_nil (st : Loop) (v : Option Nat) (h : st.alloc = []) :
    (st.pushEvents v).1 = true ∧ (st.pushEvents v).2.alloc = [] := by
  unfold Loop.pushEvents
  rw [h]
  rw [if_pos (arrExpand_nil none st.events 1).1]
  exact ⟨rfl, (arrExpand_nil none st.events 1).2⟩

theorem Loop.pushVacant_nil (st : Loop) (v : Nat) (h : st.alloc = []) :
    (st.pushVacant v).1 = true ∧ (st.pushVacant v).2.alloc = [] := by
  unfold Loop.pushVacant
  rw [h]
  rw [if_pos (arrExpand_nil 0 st.vacant 1).1]
  exact ⟨rfl, (arrExpand_nil 0 st.vacant 1).2⟩

theorem Loop.reserveEvents_nil (st : Loop) (n : Nat) (h : st.alloc = []) :
    (st.reserveEvents n).1 = true ∧ (st.reserveEvents n).2.alloc = [] := by
  unfold Loop.reserveEvents
  rw [h]
  exact ⟨(arrExpand_nil none st.events n).1, (arrExpand_nil none st.events n).2⟩

theorem addTask_nil (x : Option Nat) (st : Loop) (h : st.alloc = []) :
    (addTask x st).2.trace = st.trace ∧ (addTask x st).2.alloc = [] := by
  match x with
  | none => exact ⟨rfl, h⟩
  | some t =>
    match hget : st.getT t with
    | none => simp [addTask, hget, h]
    | some s =>
      by_cases hsch : s.sched = true
      · simp [addTask, hget, hsch, h]
      · by_cases hvac : 0 < st.vacant.length
        · simp only [addTask, hget]
          rw [if_neg (by simp [hsch]), if_pos hvac]
          exact ⟨Loop.setSched_trace t _, by rw [Loop.setSched, Loop.modT_alloc]; exact h⟩
        · simp only [addTask, hget]
          rw [if_neg (by simp [hsch]), if_neg hvac, if_pos (Loop.pushEvents_nil st _ h).1]
          refine ⟨?_, ?_⟩
          · rw [Loop.setSched_trace, Loop.pushEvents_trace]
          · rw [Loop.setSched, Loop.modT_alloc]
            exact (Loop.pushEvents_nil st _ h).2

theorem runCb_trace_nil (cb : CbId) (t : Nat) (st : Loop) (h : st.alloc = []) :
    ∃ δ : List Ev, (runCb cb t st).trace = st.trace ++ δ ∧ noFree δ := by
  have hemit : (st.emit (Ev.cbCall t)).trace = st.trace ++ [Ev.cbCall t] := rfl
  have hal : (st.emit (Ev.cbCall t)).alloc = [] := h
  unfold runCb
  match cb with
  | CbId.gathererCancel =>
    cases hget : (st.emit (Ev.cbCall t)).getT t with
    | none => exact ⟨[Ev.cbCall t], by simp only [hget]; rw [hemit], by intro e he u; simp at he; simp [he]⟩
    | some s =>
      match hl : s.locals with
      | Locals.gathererL coros b =>
        obtain ⟨δ, hδ, hmem⟩ := foldDC_trace_ext coros.contents (st.emit (Ev.cbCall t))
        refine ⟨[Ev.cbCall t] ++ δ, ?_, ?_⟩
        · simp only [hget, hl]
          rw [hδ, hemit]
          simp
        · intro e he u
          rcases List.mem_append.mp he with he | he
          · simp only [List.mem_singleton] at he
            simp [he]
          · rcases hmem e he with ⟨v, hv⟩ | ⟨v, hv⟩ <;> simp [hv]
      | Locals.noneL =>
        exact ⟨[Ev.cbCall t], by simp only [hget, hl]; rw [hemit],
          by intro e he u; simp at he; simp [he]⟩
      | Locals.counterL n =>
        exact ⟨[Ev.cbCall t], by simp only [hget, hl]; rw [hemit],
          by intro e he u; simp at he; simp [he]⟩
      | Locals.waiterL a b =>
        exact ⟨[Ev.cbCall t], by simp only [hget, hl]; rw [hemit],
          by intro e he u; simp at he; simp [he]⟩
  | CbId.waiterCancel =>
    cases hget : (st.emit (Ev.cbCall t)).getT t with
    | none => exact ⟨[Ev.cbCall t], by simp only [hget]; rw [hemit], by intro e he u; simp at he; simp [he]⟩
    | some s =>
      match ha : s.args with
      | none =>
        exact ⟨[Ev.cbCall t], by simp only [hget, ha]; rw [hemit],
          by intro e he u; simp at he; simp [he]⟩
      | some c =>
        simp only [hget, ha]
        have haddtr := (addTask_nil (some c) (st.emit (Ev.cbCall t)) hal).1
        cases hr : (addTask (some c) (st.emit (Ev.cbCall t))).1.isSome with
        | false =>
          refine ⟨[Ev.cbCall t], ?_, by intro e he u; simp at he; simp [he]⟩
          rw [if_neg (by simp), haddtr, hemit]
        | true =>
          cases hd : (addTask (some c) (st.emit (Ev.cbCall t))).2.doneB c with
          | true =>
            refine ⟨[Ev.cbCall t] ++ [Ev.decref c], ?_, ?_⟩
            · rw [if_pos rfl, if_pos rfl, Loop.decrefT_trace, haddtr, hemit]
              simp
            · intro e he u
              rcases List.mem_append.mp he with he | he <;>
                (simp only [List.mem_singleton] at he; simp [he])
          | false =>
            refine ⟨[Ev.cbCall t] ++ [Ev.cancelFlag c, Ev.decref c], ?_, ?_⟩
            · rw [if_pos rfl, if_neg (by simp), Loop.decrefT_trace, Loop.cancelT_trace,
                haddtr, hemit]
              simp
            · intro e he u
              rcases List.mem_append.mp he with he | he
              · simp only [List.mem_singleton] at he
                simp [he]
              · simp only [List.mem_cons, List.mem_singleton, List.not_mem_nil, or_false] at he
                rcases he with he | he <;> simp [he]

theorem gatherScanF_trace_decref (fuel : Nat) (t : Nat) (coros : Arr Nat) (st : Loop) :
    ∃ δ : List Ev, (gatherScanF fuel t coros st).trace = st.trace ++ δ ∧
      ∀ e ∈ δ, ∃ u, e = Ev.decref u := by
  induction fuel generalizing coros st with
  | zero => exact ⟨[], by simp [gatherScanF], by simp⟩
  | succ f ih =>
    unfold gatherScanF
    by_cases h0 : coros.length = 0
    · rw [if_pos h0]
      refine ⟨[Ev.decref t], ?_, ?_⟩
      · rw [Loop.asyncEnd_trace, Loop.modT_trace]
      · intro e he
        simp only [List.mem_singleton] at he
        exact ⟨t, he⟩
    · rw [if_neg h0]
      by_cases hd : st.doneB (coros.data.getD 0 0) = true
      · rw [if_pos hd]
        obtain ⟨δ, hδ, hmem⟩ := ih (arrSplice coros 0 1) (st.decrefT (coros.data.getD 0 0))
        refine ⟨Ev.decref (coros.data.getD 0 0) :: δ, ?_, ?_⟩
        · rw [hδ, Loop.decrefT_trace]
          simp
        · intro e he
          rcases List.mem_cons.mp he with he | he
          · exact ⟨_, he⟩
          · exact hmem e he
      · rw [if_neg hd]
        exact ⟨[], by simp [Loop.modT_trace], by simp⟩

theorem Loop.decrefT_alloc (c : Nat) (st : Loop) : (st.decrefT c).alloc = st.alloc := by
  unfold Loop.decrefT Loop.emit
  rw [Loop.modT_alloc]

theorem Loop.cancelT_alloc (c : Nat) (st : Loop) : (st.cancelT c).alloc = st.alloc := by
  unfold Loop.cancelT Loop.emit
  rw [Loop.modT_alloc]

theorem waiterAwait_trace_dc (t c sec start : Nat) (st : Loop) :
    ∃ δ : List Ev, (waiterAwait t c sec start st).trace = st.trace ++ δ ∧
      ∀ e ∈ δ, (∃ u, e = Ev.decref u) ∨ (∃ u, e = Ev.cancelFlag u) := by
  unfold waiterAwait
  by_cases h1 : (!st.doneB c && decide (st.clock - start < sec)) = true
  · rw [if_pos h1]
    exact ⟨[], by simp [Loop.modT_trace], by simp⟩
  · rw [if_neg h1]
    by_cases h2 : st.doneB c = true
    · refine ⟨[Ev.decref c, Ev.decref t], ?_, ?_⟩
      · rw [if_pos h2, Loop.asyncEnd_trace, Loop.decrefT_trace]
        simp
      · intro e he
        simp only [List.mem_cons, List.mem_singleton, List.not_mem_nil, or_false] at he
        rcases he with he | he
        · exact Or.inl ⟨c, he⟩
        · exact Or.inl ⟨t, he⟩
    · refine ⟨[Ev.cancelFlag c, Ev.decref c, Ev.decref t], ?_, ?_⟩
      · rw [if_neg h2, Loop.asyncEnd_trace, Loop.decrefT_trace, Loop.cancelT_trace,
          Loop.modT_trace]
        simp
      · intro e he
        simp only [List.mem_cons, List.mem_singleton, List.not_mem_nil, or_false] at he
        rcases he with he | he | he
        · exact Or.inr ⟨c, he⟩
        · exact Or.inl ⟨c, he⟩
        · exact Or.inl ⟨t, he⟩

theorem waiterStep_trace_nil (t : Nat) (st : Loop) (h : st.alloc = []) :
    ∃ δ : List Ev, (waiterStep t st).trace = st.trace ++ δ ∧ noFree δ := by
  unfold waiterStep
  cases hget : st.getT t with
  | none => exact ⟨[], by simp, by intro e he u; exact absurd he (List.not_mem_nil e)⟩
  | some s =>
    match hl : s.locals with
    | Locals.noneL =>
      exact ⟨[], by simp [hl], by intro e he u; exact absurd he (List.not_mem_nil e)⟩
    | Locals.counterL n =>
      exact ⟨[], by simp [hl], by intro e he u; exact absurd he (List.not_mem_nil e)⟩
    | Locals.gathererL a b =>
      exact ⟨[], by simp [hl], by intro e he u; exact absurd he (List.not_mem_nil e)⟩
    | Locals.waiterL sec start =>
      match hc : s.cont with
      | Cont.done =>
        exact ⟨[], by simp [hl, hc], by intro e he u; exact absurd he (List.not_mem_nil e)⟩
      | Cont.init =>
        have htr := (addTask_nil s.args st h).1
        cases hr : (addTask s.args st).1 with
        | none =>
          refine ⟨[Ev.decref t], ?_, ?_⟩
          · simp only [hl, hc, hr]
            rw [Loop.asyncEnd_trace, Loop.modT_trace, htr]
          · intro e he u
            simp only [List.mem_singleton] at he
            simp [he]
        | some c =>
          obtain ⟨δ₂, hδ₂, hmem₂⟩ := waiterAwait_trace_dc t c sec (addTask s.args st).2.clock
            (Loop.modT t
              (fun s2 => { s2 with locals := Locals.waiterL sec (addTask s.args st).2.clock })
              (addTask s.args st).2)
          refine ⟨δ₂, ?_, ?_⟩
          · simp only [hl, hc, hr]
            rw [hδ₂, Loop.modT_trace, htr]
          · intro e he u
            rcases hmem₂ e he with ⟨v, hv⟩ | ⟨v, hv⟩ <;> simp [hv]
      | Cont.cont k =>
        match ha : s.args with
        | none =>
          exact ⟨[], by simp [hl, hc, ha],
            by intro e he u; exact absurd he (List.not_mem_nil e)⟩
        | some c =>
          obtain ⟨δ, hδ, hmem⟩ := waiterAwait_trace_dc t c sec start st
          refine ⟨δ, by simp only [hl, hc, ha]; exact hδ, ?_⟩
          intro e he u
          rcases hmem e he with ⟨v, hv⟩ | ⟨v, hv⟩ <;> simp [hv]

theorem stepBody_trace_nil (t : Nat) (st : Loop) (h : st.alloc = []) :
    ∃ δ : List Ev, (stepBody t st).trace = st.trace ++ δ ∧ noFree δ := by
  unfold stepBody
  cases hget : st.getT t with
  | none => exact ⟨[], by simp, by intro e he u; exact absurd he (List.not_mem_nil e)⟩
  | some s =>
    match hf : s.func with
    | FuncId.yielder =>
      match hc : s.cont with
      | Cont.init =>
        exact ⟨[], by simp [hf, hc, Loop.modT_trace],
          by intro e he u; exact absurd he (List.not_mem_nil e)⟩
      | Cont.cont k =>
        refine ⟨[Ev.decref t], ?_, ?_⟩
        · simp only [hf, hc]
          rw [Loop.asyncEnd_trace]
        · intro e he u
          simp only [List.mem_singleton] at he
          simp [he]
      | Cont.done =>
        exact ⟨[], by simp [hf, hc], by intro e he u; exact absurd he (List.not_mem_nil e)⟩
    | FuncId.spinner =>
      match hc : s.cont with
      | Cont.init =>
        exact ⟨[], by simp [hf, hc, Loop.modT_trace],
          by intro e he u; exact absurd he (List.not_mem_nil e)⟩
      | Cont.cont k =>
        exact ⟨[], by simp [hf, hc, Loop.modT_trace],
          by intro e he u; exact absurd he (List.not_mem_nil e)⟩
      | Cont.done =>
        exact ⟨[], by simp [hf, hc], by intro e he u; exact absurd he (List.not_mem_nil e)⟩
    | FuncId.counterB =>
      match hc : s.cont, hl : s.locals with
      | Cont.done, _ =>
        exact ⟨[], by simp [hf, hc], by intro e he u; exact absurd he (List.not_mem_nil e)⟩
      | Cont.init, Locals.counterL 0 =>
        refine ⟨[Ev.decref t], ?_, ?_⟩
        · simp only [hf, hc, hl]
          rw [Loop.asyncEnd_trace]
        · intro e he u
          simp only [List.mem_singleton] at he
          simp [he]
      | Cont.cont k, Locals.counterL 0 =>
        refine ⟨[Ev.decref t], ?_, ?_⟩
        · simp only [hf, hc, hl]
          rw [Loop.asyncEnd_trace]
        · intro e he u
          simp only [List.mem_singleton] at he
          simp [he]
      | Cont.init, Locals.counterL (n + 1) =>
        exact ⟨[], by simp [hf, hc, hl, Loop.modT_trace],
          by intro e he u; exact absurd he (List.not_mem_nil e)⟩
      | Cont.cont k, Locals.counterL (n + 1) =>
        exact ⟨[], by simp [hf, hc, hl, Loop.modT_trace],
          by intro e he u; exact absurd he (List.not_mem_nil e)⟩
      | Cont.init, Locals.noneL =>
        exact ⟨[], by simp [hf, hc, hl], by intro e he u; exact absurd he (List.not_mem_nil e)⟩
      | Cont.cont k, Locals.noneL =>
        exact ⟨[], by simp [hf, hc, hl], by intro e he u; exact absurd he (List.not_mem_nil e)⟩
      | Cont.init, Locals.waiterL a b =>
        exact ⟨[], by simp [hf, hc, hl], by intro e he u; exact absurd he (List.not_mem_nil e)⟩
      | Cont.cont k, Locals.waiterL a b =>
        exact ⟨[], by simp [hf, hc, hl], by intro e he u; exact absurd he (List.not_mem_nil e)⟩
      | Cont.init, Locals.gathererL a b =>
        exact ⟨[], by simp [hf, hc, hl], by intro e he u; exact absurd he (List.not_mem_nil e)⟩
      | Cont.cont k, Locals.gathererL a b =>
        exact ⟨[], by simp [hf, hc, hl], by intro e he u; exact absurd he (List.not_mem_nil e)⟩
    | FuncId.gatherer =>
      match hc : s.cont, hl : s.locals with
      | Cont.done, _ =>
        exact ⟨[], by simp [hf, hc], by intro e he u; exact absurd he (List.not_mem_nil e)⟩
      | Cont.init, Locals.gathererL coros b =>
        obtain ⟨δ, hδ, hmem⟩ := gatherScanF_trace_decref (coros.length + 1) t coros st
        refine ⟨δ, by simp only [hf, hc, hl]; rw [gatherScan]; exact hδ, ?_⟩
        intro e he u
        obtain ⟨v, hv⟩ := hmem e he
        simp [hv]
      | Cont.cont k, Locals.gathererL coros b =>
        obtain ⟨δ, hδ, hmem⟩ := gatherScanF_trace_decref (coros.length + 1) t coros st
        refine ⟨δ, by simp only [hf, hc, hl]; rw [gatherScan]; exact hδ, ?_⟩
        intro e he u
        obtain ⟨v, hv⟩ := hmem e he
        simp [hv]
      | Cont.init, Locals.noneL =>
        exact ⟨[], by simp [hf, hc, hl], by intro e he u; exact absurd he (List.not_mem_nil e)⟩
      | Cont.cont k, Locals.noneL =>
        exact ⟨[], by simp [hf, hc, hl], by intro e he u; exact absurd he (List.not_mem_nil e)⟩
      | Cont.init, Locals.waiterL a b =>
        exact ⟨[], by simp [hf, hc, hl], by intro e he u; exact absurd he (List.not_mem_nil e)⟩
      | Cont.cont k, Locals.waiterL a b =>
        exact ⟨[], by simp [hf, hc, hl], by intro e he u; exact absurd he (List.not_mem_nil e)⟩
      | Cont.init, Locals.counterL n =>
        exact ⟨[], by simp [hf, hc, hl], by intro e he u; exact absurd he (List.not_mem_nil e)⟩
      | Cont.cont k, Locals.counterL n =>
        exact ⟨[], by simp [hf, hc, hl], by intro e he u; exact absurd he (List.not_mem_nil e)⟩
    | FuncId.waiter =>
      obtain ⟨δ, hδ, hmem⟩ := waiterStep_trace_nil t st h
      exact ⟨δ, by simp only [hf]; exact hδ, hmem⟩

theorem stepTask_trace_nil (t : Nat) (st : Loop) (h : st.alloc = []) :
    ∃ δ : List Ev, (stepTask t st).trace = st.trace ++ [Ev.stepCall t] ++ δ ∧ noFree δ := by
  obtain ⟨δ, hδ, hmem⟩ := stepBody_trace_nil t (st.emit (Ev.stepCall t)) h
  exact ⟨δ, by rw [stepTask, hδ]; rfl, hmem⟩

theorem visitCancelled_trace_nil (st : Loop) (i t : Nat) (s : Task) (h : st.alloc = []) :
    ∃ δ : List Ev, (visitCancelled st i t s).1.trace = st.trace ++ δ ∧ noFree δ := by
  unfold visitCancelled
  dsimp only
  have H1 : ∃ δ₁ : List Ev,
      (if s.cont = Cont.done then st
       else
         match s.cancelCb with
         | some cb => runCb cb t (st.decrefT t)
         | none => st.decrefT t).trace = st.trace ++ δ₁ ∧ noFree δ₁ := by
    by_cases hdone : s.cont = Cont.done
    · exact ⟨[], by rw [if_pos hdone]; simp,
        by intro e he u; exact absurd he (List.not_mem_nil e)⟩
    · rw [if_neg hdone]
      cases hcb : s.cancelCb with
      | none =>
        refine ⟨[Ev.decref t], by rw [Loop.decrefT_trace], ?_⟩
        intro e he u
        simp only [List.mem_singleton] at he
        simp [he]
      | some cb =>
        obtain ⟨δ, hδ, hmem⟩ := runCb_trace_nil cb t (st.decrefT t)
          (by rw [Loop.decrefT_alloc]; exact h)
        refine ⟨[Ev.decref t] ++ δ, ?_, ?_⟩
        · rw [hδ, Loop.decrefT_trace]
          simp
        · intro e he u
          rcases List.mem_append.mp he with he | he
          · simp only [List.mem_singleton] at he
            simp [he]
          · exact hmem e he u
  obtain ⟨δ₁, hδ₁, hmem₁⟩ := H1
  set st1 := (if s.cont = Cont.done then st
       else
         match s.cancelCb with
         | some cb => runCb cb t (st.decrefT t)
         | none => st.decrefT t) with hst1def
  cases hn : (st1.getT t).bind Task.next with
  | none =>
    refine ⟨δ₁, ?_, hmem₁⟩
    rw [Loop.modT_trace]
    exact hδ₁
  | some nx =>
    refine ⟨δ₁ ++ [Ev.decref nx, Ev.cancelFlag nx], ?_, ?_⟩
    · rw [Loop.modT_trace, Loop.cancelT_trace, Loop.decrefT_trace, hδ₁]
      simp
    · intro e he u
      rcases List.mem_append.mp he with he | he
      · exact hmem₁ e he u
      · simp only [List.mem_cons, List.mem_singleton, List.not_mem_nil, or_false] at he
        rcases he with he | he <;> simp [he]

/-- C2 (amended by the counterexample: the reap branch of a pass frees
only tasks whose refcnt is 0, and at that moment every block registered
in the task's allocs list is freed exactly once, in reverse insertion
order — but a failed allocation inside `add_task` reached from a task
body or cancel callback additionally destroys the passed task outright,
regardless of its refcnt; when every allocation succeeds, a visit never
frees a task with nonzero refcnt). -/
theorem C2_reap_protocol (st : Loop) (i t : Nat) (s : Task)
    (he : st.events.data.getD i none = some t) (hs : st.getT t = some s) :
    (s.refcnt = 0 → s.cancelCb = none →
      (visitStep st i).1.trace =
        st.trace ++ s.allocs.contents.reverse.map Ev.freeBlock ++ [Ev.freeTask t]) ∧
    (s.refcnt = 0 → s.cancelCb = none → s.allocs.contents.Nodup →
      ∀ b ∈ s.allocs.contents,
        (visitStep st i).1.trace.count (Ev.freeBlock b) =
          st.trace.count (Ev.freeBlock b) + 1) ∧
    (s.refcnt ≠ 0 → st.alloc = [] →
      ∀ u, (visitStep st i).1.trace.count (Ev.freeTask u) =
        st.trace.count (Ev.freeTask u)) := by
  have hreap : s.refcnt = 0 → s.cancelCb = none →
      (visitStep st i).1.trace =
        st.trace ++ s.allocs.contents.reverse.map Ev.freeBlock ++ [Ev.freeTask t] := by
    intro hrc hcb
    have hvr : visitStep st i = visitReap st i t s := by
      unfold visitStep
      rw [he]
      dsimp only
      rw [hs]
      dsimp only
      rw [if_pos hrc]
    rw [hvr]
    unfold visitReap
    dsimp only
    have hst1 : (if s.cont = Cont.done then st
        else match s.cancelCb with
             | some cb => runCb cb t st
             | none => st) = st := by
      rw [hcb]
      by_cases hdone : s.cont = Cont.done
      · rw [if_pos hdone]
      · rw [if_neg hdone]
    rw [hst1]
    have htr := Loop.stateFree_trace t st s hs
    cases hp : ((st.stateFree t).pushVacant i).1 with
    | true =>
      rw [if_pos rfl]
      show ((st.stateFree t).pushVacant i).2.trace = _
      rw [Loop.pushVacant_trace, htr]
    | false =>
      rw [if_neg (by simp)]
      show ((st.stateFree t).pushVacant i).2.trace = _
      rw [Loop.pushVacant_trace, htr]
  refine ⟨hreap, ?_, ?_⟩
  · intro hrc hcb hnd b hb
    rw [hreap hrc hcb]
    rw [List.count_append, List.count_append]
    have h1 : (s.allocs.contents.reverse.map Ev.freeBlock).count (Ev.freeBlock b) = 1 := by
      rw [List.count_map_of_injective _ Ev.freeBlock (fun x y hxy => by injection hxy) b]
      rw [List.count_reverse]
      exact List.count_eq_one_of_mem hnd hb
    have h2 : ([Ev.freeTask t] : List Ev).count (Ev.freeBlock b) = 0 := by simp
    omega
  · intro hrc halloc u
    unfold visitStep
    rw [he]
    dsimp only
    rw [hs]
    dsimp only
    rw [if_neg hrc]
    by_cases h2 : s.err ≠ AErr.ecanceled ∧ s.cancelled = true
    · rw [if_pos h2]
      obtain ⟨δ, hδ, hmem⟩ := visitCancelled_trace_nil st i t s halloc
      rw [hδ, count_append_zero]
      intro x hx
      exact hmem x hx u
    · rw [if_neg h2]
      by_cases h3 : s.cont ≠ Cont.done ∧ nextDoneB st s = true
      · rw [if_pos h3]
        obtain ⟨δ, hδ, hmem⟩ := stepTask_trace_nil t st halloc
        show (stepTask t st).trace.count (Ev.freeTask u) = _
        rw [hδ, List.append_assoc, count_append_zero]
        intro x hx
        rcases List.mem_append.mp hx with hx | hx
        · simp only [List.mem_singleton] at hx
          rw [hx]
          intro hcon
          exact Ev.noConfusion hcon
        · exact hmem x hx u
      · rw [if_neg h3]

theorem addTask_clock (x : Option Nat) (st : Loop) : (addTask x st).2.clock = st.clock := by
  match x with
  | none => rfl
  | some t =>
    match hget : st.getT t with
    | none => simp [addTask, hget]
    | some s =>
      by_cases hsch : s.sched = true
      · simp [addTask, hget, hsch]
      · by_cases hvac : 0 < st.vacant.length
        · simp only [addTask, hget]
          rw [if_neg (by simp [hsch]), if_pos hvac]
          dsimp only
          rw [Loop.setSched, Loop.modT_clock]
        · cases hp : (st.pushEvents (some t)).1 with
          | true =>
            simp only [addTask, hget]
            rw [if_neg (by simp [hsch]), if_neg hvac, if_pos hp]
            dsimp only
            rw [Loop.setSched, Loop.modT_clock, Loop.pushEvents_clock]
          | false =>
            simp only [addTask, hget]
            rw [if_neg (by simp [hsch]), if_neg hvac, if_neg (by simp [hp])]
            dsimp only
            rw [Loop.stateFree_clock, Loop.pushEvents_clock]

theorem Loop.doneB_modT_ne (t c : Nat) (f : Task → Task) (st : Loop) (h : c ≠ t) :
    (st.modT t f).doneB c = st.doneB c := by
  unfold Loop.doneB
  rw [Loop.getT_modT_ne _ _ _ _ h]

theorem waiterAwait_yield (t c sec start : Nat) (st : Loop)
    (hcond : (!st.doneB c && decide (st.clock - start < sec)) = true) :
    waiterAwait t c sec start st = Loop.modT t (fun s => { s with cont := Cont.cont 1 }) st := by
  unfold waiterAwait
  rw [if_pos hcond]

theorem waiterAwait_finish_notdone (t c sec start : Nat) (st : Loop)
    (hcond : (!st.doneB c && decide (st.clock - start < sec)) = false)
    (hd : st.doneB c = false) :
    waiterAwait t c sec start st =
      Loop.asyncEnd t (Loop.decrefT c
        (Loop.cancelT c (Loop.modT t (fun s => { s with err := AErr.ecanceled }) st))) := by
  unfold waiterAwait
  rw [if_neg (by simp [hcond]), if_neg (by simp [hd])]

theorem waiterAwait_finish_done (t c sec start : Nat) (st : Loop)
    (hcond : (!st.doneB c && decide (st.clock - start < sec)) = false)
    (hd : st.doneB c = true) :
    waiterAwait t c sec start st = Loop.asyncEnd t (Loop.decrefT c st) := by
  unfold waiterAwait
  rw [if_neg (by simp [hcond]), if_pos hd]

/-- C7: the `wait_for` body (`async_waiter`): on its first step it
schedules the child; on scheduling failure it nulls out `args`, sets
`err = ENOMEM` and finishes (without touching the child's refcnt);
otherwise it yields while the child is not done and the elapsed time is
below the timeout; if the child is still not done when the wait ends it
sets `err = ECANCELED` and cancels the child; and on every non-failure
finishing path it decrements the child's refcnt exactly once, while
yielding steps decrement it zero times. -/
theorem C7_waiter_body (st : Loop) (t c : Nat) (s sc : Task) (sec start : Nat)
    (hs : st.getT t = some s)
    (hsc : st.getT c = some sc)
    (hl : s.locals = Locals.waiterL sec start)
    (ha : s.args = some c)
    (hct : c ≠ t) :
    (s.cont = Cont.init → (addTask (some c) st).1 = none →
      ((waiterStep t st).getT t).map Task.args = some none ∧
      ((waiterStep t st).getT t).map Task.err = some AErr.enomem ∧
      ((waiterStep t st).getT t).map Task.cont = some Cont.done ∧
      (waiterStep t st).trace.count (Ev.decref c) = st.trace.count (Ev.decref c)) ∧
    (s.cont = Cont.init → (addTask (some c) st).1 = some c →
      (addTask (some c) st).2.doneB c = false → 0 < sec →
      ((waiterStep t st).getT t).map Task.cont = some (Cont.cont 1) ∧
      ((waiterStep t st).getT t).map Task.locals = some (Locals.waiterL sec st.clock) ∧
      ((waiterStep t st).getT t).map Task.err = some s.err ∧
      (waiterStep t st).trace.count (Ev.decref c) = st.trace.count (Ev.decref c)) ∧
    (∀ k, s.cont = Cont.cont k → st.doneB c = false → st.clock - start < sec →
      ((waiterStep t st).getT t).map Task.cont = some (Cont.cont 1) ∧
      ((waiterStep t st).getT t).map Task.err = some s.err ∧
      (waiterStep t st).trace = st.trace) ∧
    (∀ k, s.cont = Cont.cont k → st.doneB c = false → ¬(st.clock - start < sec) →
      ((waiterStep t st).getT t).map Task.err = some AErr.ecanceled ∧
      ((waiterStep t st).getT t).map Task.cont = some Cont.done ∧
      ((waiterStep t st).getT c).map Task.cancelled = some true ∧
      (waiterStep t st).trace.count (Ev.decref c) = st.trace.count (Ev.decref c) + 1 ∧
      (waiterStep t st).trace.count (Ev.cancelFlag c) =
        st.trace.count (Ev.cancelFlag c) + 1) ∧
    (∀ k, s.cont = Cont.cont k → st.doneB c = true →
      ((waiterStep t st).getT t).map Task.err = some s.err ∧
      ((waiterStep t st).getT t).map Task.cont = some Cont.done ∧
      (waiterStep t st).trace.count (Ev.decref c) = st.trace.count (Ev.decref c) + 1 ∧
      (waiterStep t st).trace.count (Ev.cancelFlag c) =
        st.trace.count (Ev.cancelFlag c)) := by
  refine ⟨?_, ?_, ?_, ?_, ?_⟩
  · intro hc hr
    have hW : waiterStep t st =
        Loop.asyncEnd t
          (Loop.modT t (fun s2 => { s2 with args := none, err := AErr.enomem })
            (addTask s.args st).2) := by
      unfold waiterStep
      rw [hs]
      dsimp only
      rw [hl]
      dsimp only
      rw [hc]
      dsimp only
      rw [ha, hr]
    rw [hW]
    have hget1 : (addTask s.args st).2.getT t = some s := by
      rw [ha]
      rw [addTask_getT_ne (some c) t st (fun c' hc' => by injection hc' with h2; rw [← h2]; exact (Ne.symm hct))]
      exact hs
    obtain ⟨δ, hδ, hmem⟩ := addTask_trace_ids c st
    refine ⟨?_, ?_, ?_, ?_⟩
    · rw [Loop.asyncEnd, Loop.getT_modT_self, Loop.decrefT_getT_self, Loop.getT_modT_self,
        hget1]
      rfl
    · rw [Loop.asyncEnd, Loop.getT_modT_self, Loop.decrefT_getT_self, Loop.getT_modT_self,
        hget1]
      rfl
    · rw [Loop.asyncEnd, Loop.getT_modT_self, Loop.decrefT_getT_self, Loop.getT_modT_self,
        hget1]
      rfl
    · rw [Loop.asyncEnd_trace, Loop.modT_trace, ha, hδ]
      rw [List.append_assoc, count_append_zero]
      intro x hx
      rcases List.mem_append.mp hx with hx | hx
      · rcases hmem x hx with ⟨b, hb⟩ | hb
        · rw [hb]
          intro hcon
          exact Ev.noConfusion hcon
        · rw [hb]
          intro hcon
          exact Ev.noConfusion hcon
      · simp only [List.mem_singleton] at hx
        rw [hx]
        intro hcon
        injection hcon with h2
        exact hct h2.symm
  · intro hc hr hd hsec
    have hW : waiterStep t st =
        waiterAwait t c sec (addTask s.args st).2.clock
          (Loop.modT t
            (fun s2 => { s2 with locals := Locals.waiterL sec (addTask s.args st).2.clock })
            (addTask s.args st).2) := by
      unfold waiterStep
      rw [hs]
      dsimp only
      rw [hl]
      dsimp only
      rw [hc]
      dsimp only
      rw [ha]
      rw [hr]
    have hclock : (addTask s.args st).2.clock = st.clock := by rw [ha]; exact addTask_clock _ st
    have hd2 : (Loop.modT t
        (fun s2 => { s2 with locals := Locals.waiterL sec (addTask s.args st).2.clock })
        (addTask s.args st).2).doneB c = false := by
      rw [Loop.doneB_modT_ne _ _ _ _ hct, ha]
      exact hd
    have hcl2 : (Loop.modT t
        (fun s2 => { s2 with locals := Locals.waiterL sec (addTask s.args st).2.clock })
        (addTask s.args st).2).clock = (addTask s.args st).2.clock := Loop.modT_clock _ _ _
    have hcond : (!(Loop.modT t
        (fun s2 => { s2 with locals := Locals.waiterL sec (addTask s.args st).2.clock })
        (addTask s.args st).2).doneB c &&
        decide ((Loop.modT t
          (fun s2 => { s2 with locals := Locals.waiterL sec (addTask s.args st).2.clock })
          (addTask s.args st).2).clock - (addTask s.args st).2.clock < sec)) = true := by
      rw [hd2, hcl2]
      simp [hsec]
    rw [hW, waiterAwait_yield _ _ _ _ _ hcond]
    have hget1 : (addTask s.args st).2.getT t = some s := by
      rw [ha]
      rw [addTask_getT_ne (some c) t st (fun c' hc' => by injection hc' with h2; rw [← h2]; exact (Ne.symm hct))]
      exact hs
    have htr1 : (addTask s.args st).2.trace = st.trace := by
      rw [ha]
      match hgetc : st.getT c with
      | none =>
        simp only [addTask, hgetc] at hr
        exact Option.noConfusion hr
      | some sc =>
        by_cases hsch : sc.sched = true
        · simp [addTask, hgetc, hsch]
        · by_cases hvac : 0 < st.vacant.length
          · simp only [addTask, hgetc]
            rw [if_neg (by simp [hsch]), if_pos hvac]
            simp [Loop.setSched_trace]
          · cases hp : (st.pushEvents (some c)).1 with
            | true =>
              simp only [addTask, hgetc]
              rw [if_neg (by simp [hsch]), if_neg hvac, if_pos hp]
              simp [Loop.setSched_trace, Loop.pushEvents_trace]
            | false =>
              simp only [addTask, hgetc] at hr
              rw [if_neg (by simp [hsch]), if_neg hvac, if_neg (by simp [hp])] at hr
              exact Option.noConfusion hr
    refine ⟨?_, ?_, ?_, ?_⟩
    · rw [Loop.getT_modT_self, Loop.getT_modT_self, hget1]
      rfl
    · rw [Loop.getT_modT_self, Loop.getT_modT_self, hget1]
      simp [hclock]
    · rw [Loop.getT_modT_self, Loop.getT_modT_self, hget1]
      rfl
    · rw [Loop.modT_trace, Loop.modT_trace, htr1]
  · intro k hc hd hlt
    have hW : waiterStep t st = waiterAwait t c sec start st := by
      unfold waiterStep
      rw [hs]
      dsimp only
      rw [hl]
      dsimp only
      rw [hc]
      dsimp only
      rw [ha]
    have hcond : (!st.doneB c && decide (st.clock - start < sec)) = true := by
      rw [hd]
      simp [hlt]
    rw [hW, waiterAwait_yield _ _ _ _ _ hcond]
    refine ⟨?_, ?_, ?_⟩
    · rw [Loop.getT_modT_self, hs]
      rfl
    · rw [Loop.getT_modT_self, hs]
      rfl
    · rw [Loop.modT_trace]
  · intro k hc hd hlt
    have hW : waiterStep t st = waiterAwait t c sec start st := by
      unfold waiterStep
      rw [hs]
      dsimp only
      rw [hl]
      dsimp only
      rw [hc]
      dsimp only
      rw [ha]
    have hcond : (!st.doneB c && decide (st.clock - start < sec)) = false := by
      rw [hd]
      simp [hlt]
    rw [hW, waiterAwait_finish_notdone _ _ _ _ _ hcond hd]
    refine ⟨?_, ?_, ?_, ?_, ?_⟩
    · rw [Loop.asyncEnd, Loop.getT_modT_self, Loop.decrefT_getT_self,
        Loop.decrefT_getT_ne _ _ _ (Ne.symm hct), Loop.cancelT_getT_ne _ _ _ (Ne.symm hct),
        Loop.getT_modT_self, hs]
      rfl
    · rw [Loop.asyncEnd, Loop.getT_modT_self, Loop.decrefT_getT_self,
        Loop.decrefT_getT_ne _ _ _ (Ne.symm hct), Loop.cancelT_getT_ne _ _ _ (Ne.symm hct),
        Loop.getT_modT_self, hs]
      rfl
    · rw [Loop.asyncEnd, Loop.getT_modT_ne _ _ _ _ hct, Loop.decrefT_getT_ne _ _ _ hct,
        Loop.decrefT_getT_self, Loop.cancelT_getT_self, Loop.getT_modT_ne _ _ _ _ hct, hsc]
      rfl
    · rw [Loop.asyncEnd_trace, Loop.decrefT_trace, Loop.cancelT_trace, Loop.modT_trace]
      simp [List.count_append, List.count_cons, List.count_nil, hct, Ne.symm hct]
    · rw [Loop.asyncEnd_trace, Loop.decrefT_trace, Loop.cancelT_trace, Loop.modT_trace]
      simp [List.count_append, List.count_cons, List.count_nil, hct, Ne.symm hct]
  · intro k hc hd
    have hW : waiterStep t st = waiterAwait t c sec start st := by
      unfold waiterStep
      rw [hs]
      dsimp only
      rw [hl]
      dsimp only
      rw [hc]
      dsimp only
      rw [ha]
    have hcond : (!st.doneB c && decide (st.clock - start < sec)) = false := by
      rw [hd]
      simp
    rw [hW, waiterAwait_finish_done _ _ _ _ _ hcond hd]
    refine ⟨?_, ?_, ?_, ?_⟩
    · rw [Loop.asyncEnd, Loop.getT_modT_self, Loop.decrefT_getT_self,
        Loop.decrefT_getT_ne _ _ _ (Ne.symm hct), hs]
      rfl
    · rw [Loop.asyncEnd, Loop.getT_modT_self, Loop.decrefT_getT_self,
        Loop.decrefT_getT_ne _ _ _ (Ne.symm hct), hs]
      rfl
    · rw [Loop.asyncEnd_trace, Loop.decrefT_trace]
      simp [List.count_append, List.count_cons, List.count_nil, hct, Ne.symm hct]
    · rw [Loop.asyncEnd_trace, Loop.decrefT_trace]
      simp [List.count_append, List.count_cons, List.count_nil, hct, Ne.symm hct]

/-- Witness for C2: the reap of a concrete task frees its two blocks in
reverse insertion order, then the task itself. -/
theorem C2_reap_protocol_witness :
    (visitStep stC2W 0).1.trace =
      stC2W.trace ++ taskC2W.allocs.contents.reverse.map Ev.freeBlock ++ [Ev.freeTask 0] :=
  (C2_reap_protocol stC2W 0 0 taskC2W (by decide) (by decide)).1 (by decide) (by decide)

/-- C2 counterexample: during a scheduler pass, stepping the waiter calls
`add_task(child)`; the push allocation fails, so `add_task` destroys the
child (`STATE_FREE`) even though its refcnt is 2 — the pass frees a task
whose refcnt is not 0, contradicting the claim. -/
theorem C2_counterexample :
    (stC2X.getT 0).map Task.refcnt = some 2 ∧
    (visitStep stC2X 0).1.trace.count (Ev.freeTask 0) = 1 ∧
    ((visitStep stC2X 0).1.getT 0).map Task.freed = some true ∧
    ((visitStep stC2X 0).1.getT 0).map Task.refcnt = some 2 := by
  decide

/-- C1 counterexample: the claim as stated quantifies over every visited
task with `err != ECANCELED` and the cancellation flag set, but when
such a task also has `refcnt == 0` the reap branch runs instead: the
task is freed, its `err` stays `OK` and is never set to `ECANCELED`,
contradicting the claimed "finally set s.err = ECANCELED and
s.cont = DONE". -/
theorem C1_counterexample :
    (stC1X.getT 0).map Task.cancelled = some true ∧
    (stC1X.getT 0).map Task.err = some AErr.ok ∧
    (stC1X.getT 0).map Task.refcnt = some 0 ∧
    ((visitStep stC1X 0).1.getT 0).map Task.err = some AErr.ok ∧
    ((visitStep stC1X 0).1.getT 0).map Task.freed = some true ∧
    (visitStep stC1X 0).1.trace.count (Ev.freeTask 0) = 1 ∧
    ¬(((visitStep stC1X 0).1.getT 0).map Task.err = some AErr.ecanceled) := by
  decide

/-- Witness for the amended C1 at a concrete cancelled task. -/
theorem C1_cancelled_propagation_witness :
    ((visitStep stC1W 0).1.getT 0).map Task.err = some AErr.ecanceled ∧
    ((visitStep stC1W 0).1.getT 0).map Task.cont = some Cont.done :=
  have h := C1_cancelled_propagation stC1W 0 0 taskC1W (by decide) (by decide) (by decide)
    (by decide) (by decide) (by decide) (by decide) (fun nx h => Option.noConfusion h)
  ⟨h.2.1, h.2.2.1⟩

/-- Witness for C4 at a concrete runnable task. -/
theorem C4_step_gating_witness :
    (visitStep stC4W 0).1.trace.count (Ev.stepCall 0) =
      stC4W.trace.count (Ev.stepCall 0) +
        (if taskW.refcnt ≠ 0 ∧ ¬(taskW.err ≠ AErr.ecanceled ∧ taskW.cancelled = true) ∧
            taskW.cont ≠ Cont.done ∧ nextDoneB stC4W taskW = true then 1 else 0) :=
  C4_step_gating stC4W 0 0 taskW (by decide) (by decide)

/-- Witness for C5 at a concrete loop state. -/
theorem C5_add_task_witness :
    addTask none stW = (none, stW) ∧
    (addTask (some 0) stW).1 = some 0 ∧
    (addTask (some 0) stW).2.events.contents = stW.events.contents ++ [some 0] ∧
    ((addTask (some 0) stW).2.getT 0).map Task.sched = some true := by
  have h := C5_add_task stW 0 taskW (by decide) (by decide)
  have h4 := h.2.2.2.1 (by decide) (by decide) (by decide)
  exact ⟨h.1, h4.1, h4.2.1, h4.2.2.2.1⟩

/-- Witness for C7: concrete resumed waiter whose timeout elapsed with the
child still pending — the step sets `err = ECANCELED`, finishes, flags the
child cancelled and decrements its refcnt exactly once. -/
theorem C7_waiter_body_witness :
    ((waiterStep 1 stC7W).getT 1).map Task.err = some AErr.ecanceled ∧
    ((waiterStep 1 stC7W).getT 1).map Task.cont = some Cont.done ∧
    ((waiterStep 1 stC7W).getT 0).map Task.cancelled = some true ∧
    (waiterStep 1 stC7W).trace.count (Ev.decref 0) = stC7W.trace.count (Ev.decref 0) + 1 ∧
    (waiterStep 1 stC7W).trace.count (Ev.cancelFlag 0) =
      stC7W.trace.count (Ev.cancelFlag 0) + 1 := by
  have h := C7_waiter_body stC7W 1 0 taskC7waiter taskC7child 0 0 (by decide) (by decide)
    (by decide) (by decide) (by decide)
  exact h.2.2.2.1 1 (by decide) (by decide) (by decide)

theorem prepare_spec_true (f : FuncId) (l : Locals) (cb : Option CbId) (st : Loop)
    (r : List Bool) (h : st.alloc = true :: r) :
    prepare f l cb st =
      (some st.heap.length,
        { st with alloc := r, heap := st.heap ++ [prepInit f l cb] }) := by
  unfold prepare Loop.takeAlloc
  rw [h]
  rfl

theorem arrExpand_fail {α : Type} (junk : α) (r : List Bool) (a : Arr α) (n : Nat)
    (h : a.cap < a.length + n) :
    arrExpand junk (false :: r) a n = (false, a, r) := by
  unfold arrExpand
  rw [if_neg (by omega)]

theorem arrExpand_grow {α : Type} (junk : α) (r : List Bool) (a : Arr α) (n : Nat)
    (h : a.cap < a.length + n) :
    arrExpand junk (true :: r) a n = (true, arrGrow junk a (a.length + n), r) := by
  unfold arrExpand
  rw [if_neg (by omega)]

theorem freeLater_push_fresh (t m : Nat) (st : Loop) (s : Task) (r : List Bool)
    (hs : st.getT t = some s) (hall : s.allocs = ⟨[], 0⟩)
    (ha : st.alloc = true :: r) :
    freeLater t (some m) st =
      (true,
        Loop.modT t (fun s2 => { s2 with allocs := ⟨[m], 1⟩ })
          { st with alloc := r }) := by
  unfold freeLater
  rw [hs]
  dsimp only
  rw [hall, ha]
  rfl

theorem addTasks_fail_reserve (ts : List (Option Nat)) (st : Loop) (rest : List Bool)
    (hall : ts.all Option.isSome = true) (ha : st.alloc = false :: rest)
    (hcap : st.events.cap < st.events.length + ts.length) :
    addTasks ts st = (none, { st with alloc := rest }) := by
  unfold addTasks Loop.reserveEvents
  rw [hall, ha, arrExpand_fail none rest st.events ts.length hcap]
  rfl

theorem foldSF_trace_ext (l : List Nat) (st : Loop) :
    ∃ δ, (l.foldl (fun acc c => acc.stateFree c) st).trace = st.trace ++ δ := by
  induction l generalizing st with
  | nil => exact ⟨[], by simp⟩
  | cons c rest ih =>
    obtain ⟨δ1, h1⟩ := Loop.stateFree_trace_ext c st
    obtain ⟨δ2, h2⟩ := ih (st.stateFree c)
    exact ⟨δ1 ++ δ2, by simp only [List.foldl_cons, h2, h1.1, List.append_assoc]⟩

theorem foldSF_heap_length (l : List Nat) (st : Loop) :
    (l.foldl (fun acc c => acc.stateFree c) st).heap.length = st.heap.length := by
  induction l generalizing st with
  | nil => rfl
  | cons c rest ih =>
    simp only [List.foldl_cons]
    rw [ih (st.stateFree c), Loop.stateFree_heap_length]

theorem foldSF_freeTask_mem (l : List Nat) (st : Loop) (c : Nat) (hc : c ∈ l)
    (hlt : c < st.heap.length) :
    Ev.freeTask c ∈ (l.foldl (fun acc c2 => acc.stateFree c2) st).trace := by
  induction l generalizing st with
  | nil => cases hc
  | cons x rest ih =>
    simp only [List.foldl_cons]
    rcases List.mem_cons.mp hc with hcx | hcr
    · subst hcx
      obtain ⟨s, hs⟩ : ∃ s, st.getT c = some s := by
        unfold Loop.getT
        exact ⟨st.heap[c], List.getElem?_eq_getElem hlt⟩
      obtain ⟨δ, hδ⟩ := foldSF_trace_ext rest (st.stateFree c)
      rw [hδ, Loop.stateFree_trace c st s hs]
      simp
    · exact ih (st.stateFree x) hcr (by rw [Loop.stateFree_heap_length]; exact hlt)

theorem Loop.getT_concat (st : Loop) (heap2 : List Task) (x : Task)
    (h : st.heap = heap2 ++ [x]) : st.getT heap2.length = some x := by
  unfold Loop.getT
  rw [h, List.getElem?_concat_length]

theorem vgatherFail_spec (g b : Nat) (children : List Nat) (st : Loop) (s : Task)
    (hs : st.getT g = some s) (hb : b ∈ s.allocs.contents)
    (hchild : ∀ c ∈ children, c < st.heap.length) :
    (∃ δ, (vgatherFail g (some b) children st).trace = st.trace ++ δ ∧
      2 ≤ δ.count (Ev.freeBlock b) ∧ Ev.freeTask g ∈ δ) ∧
    ∀ c ∈ children, Ev.freeTask c ∈ (vgatherFail g (some b) children st).trace := by
  have hg2 : (Loop.modT g (fun s2 => { s2 with locals := Locals.gathererL ⟨[], 0⟩ none })
      (Loop.emit (Ev.freeBlock b) st)).getT g =
      some { s with locals := Locals.gathererL ⟨[], 0⟩ none } := by
    rw [Loop.getT_modT_self, Loop.emit_getT, hs]
    rfl
  unfold vgatherFail
  dsimp only
  obtain ⟨δ2, hδ2⟩ := foldSF_trace_ext children
    ((Loop.modT g (fun s2 => { s2 with locals := Locals.gathererL ⟨[], 0⟩ none })
      (Loop.emit (Ev.freeBlock b) st)).stateFree g)
  constructor
  · refine ⟨[Ev.freeBlock b] ++ s.allocs.contents.reverse.map Ev.freeBlock ++
      [Ev.freeTask g] ++ δ2, ?_, ?_, ?_⟩
    · rw [hδ2, Loop.stateFree_trace _ _ _ hg2, Loop.modT_trace]
      simp [Loop.emit, List.append_assoc]
    · have h1 : 0 < (s.allocs.contents.map Ev.freeBlock).count (Ev.freeBlock b) :=
        List.count_pos_iff.mpr (by simp only [List.mem_map]; exact ⟨b, hb, rfl⟩)
      simp only [List.count_append, List.count_cons, List.count_nil]
      simp
      omega
    · simp
  · intro c hc
    refine foldSF_freeTask_mem children _ c hc ?_
    rw [Loop.stateFree_heap_length, Loop.modT_heap_length]
    exact hchild c hc

/-- C6 (amended): when scheduling the children fails, the varargs form
`async_vgather` takes its `fail:` path: the gatherer and every child
task are freed and null is returned (the registered `coros` buffer is in
fact freed twice: once by `async_arr_destroy` and again by `STATE_FREE`
through `_allocs`); the array form `async_gather` frees only the
gatherer before returning null — the children are left unfreed. -/
theorem C6_gather_cleanup (st1 st2 : Loop) (children1 children2 : List Nat)
    (rest1 rest2 : List Bool)
    (ha1 : st1.alloc = true :: true :: true :: false :: rest1)
    (hn1 : 0 < children1.length)
    (hchild1 : ∀ c ∈ children1, c < st1.heap.length)
    (hcap1 : st1.events.cap < st1.events.length + children1.length)
    (ha2 : st2.alloc = true :: false :: rest2)
    (hchild2 : ∀ c ∈ children2, c < st2.heap.length)
    (hcap2 : st2.events.cap < st2.events.length + children2.length)
    (hfr2 : ∀ c ∈ children2, (st2.getT c).map Task.freed = some false) :
    ((vgather children1 st1).1 = none ∧
      Ev.freeTask st1.heap.length ∈ (vgather children1 st1).2.trace ∧
      (∀ c ∈ children1, Ev.freeTask c ∈ (vgather children1 st1).2.trace) ∧
      st1.trace.count (Ev.freeBlock st1.nextBlock) + 2 ≤
        (vgather children1 st1).2.trace.count (Ev.freeBlock st1.nextBlock)) ∧
    ((gather children2 st2).1 = none ∧
      Ev.freeTask st2.heap.length ∈ (gather children2 st2).2.trace ∧
      ∀ c ∈ children2, ((gather children2 st2).2.getT c).map Task.freed = some false) := by
  obtain ⟨H, E, V, A1, C, NB, TR⟩ := st1
  obtain ⟨H2, E2, V2, A2, C2, NB2, TR2⟩ := st2
  dsimp only at ha1 hchild1 hcap1 ha2 hchild2 hcap2 hfr2 ⊢
  subst ha1
  subst ha2
  unfold vgather gather
  rw [prepare_spec_true FuncId.gatherer (Locals.gathererL ⟨[], 0⟩ none)
    (some CbId.gathererCancel) ⟨H, E, V, true :: true :: true :: false :: rest1, C, NB, TR⟩
    (true :: true :: false :: rest1) rfl]
  rw [prepare_spec_true FuncId.gatherer (Locals.gathererL ⟨[], 0⟩ none)
    (some CbId.gathererCancel) ⟨H2, E2, V2, true :: false :: rest2, C2, NB2, TR2⟩
    (false :: rest2) rfl]
  dsimp only
  set PP : Task := prepInit FuncId.gatherer (Locals.gathererL ⟨[], 0⟩ none)
    (some CbId.gathererCancel) with hPP
  rw [arrExpand_grow 0 (true :: false :: rest1) ⟨[], 0⟩ children1.length
    (by simp [Arr.cap]; omega)]
  dsimp only
  rw [if_pos rfl]
  rw [if_pos hn1, if_pos hn1]
  have hgB : (⟨H ++ [PP], E, V, true :: false :: rest1, C, NB + 1, TR⟩ : Loop).getT H.length
      = some PP := by
    unfold Loop.getT
    dsimp only
    rw [List.getElem?_concat_length]
  rw [freeLater_push_fresh H.length NB
    ⟨H ++ [PP], E, V, true :: false :: rest1, C, NB + 1, TR⟩ PP (false :: rest1) hgB rfl rfl]
  dsimp only
  rw [if_pos rfl]
  set CR : Arr Nat := ⟨children1 ++ (arrGrow 0 ⟨[], 0⟩ (0 + children1.length)).data.drop
    children1.length, children1.length⟩ with hCR
  set ST3 : Loop := Loop.modT H.length
    (fun s => { s with locals := Locals.gathererL CR (some NB) })
    (Loop.modT H.length (fun s2 => { s2 with allocs := ⟨[NB], 1⟩ })
      ⟨H ++ [PP], E, V, false :: rest1, C, NB + 1, TR⟩) with hST3
  have ha3 : ST3.alloc = false :: rest1 := by
    rw [hST3, Loop.modT_alloc, Loop.modT_alloc]
  have hcap3 : ST3.events.cap < ST3.events.length + (children1.map some).length := by
    rw [hST3, Loop.modT_events, Loop.modT_events]
    simp only [List.length_map]
    exact hcap1
  rw [addTasks_fail_reserve (children1.map some) ST3 rest1 (by simp) ha3 hcap3]
  dsimp only
  set SB : Loop := Loop.modT H2.length
    (fun s => { s with locals := Locals.gathererL ⟨children2, children2.length⟩ none })
    ⟨H2 ++ [PP], E2, V2, false :: rest2, C2, NB2, TR2⟩ with hSB
  have ha4 : SB.alloc = false :: rest2 := by rw [hSB, Loop.modT_alloc]
  have hcap4 : SB.events.cap < SB.events.length + (children2.map some).length := by
    rw [hSB, Loop.modT_events]
    simp only [List.length_map]
    exact hcap2
  rw [addTasks_fail_reserve (children2.map some) SB rest2 (by simp) ha4 hcap4]
  dsimp only
  have hsA : ({ ST3 with alloc := rest1 } : Loop).getT H.length =
      some { { PP with allocs := ⟨[NB], 1⟩ } with
        locals := Locals.gathererL CR (some NB) } := by
    have h0 : ({ ST3 with alloc := rest1 } : Loop).getT H.length = ST3.getT H.length :=
      Loop.getT_ext _ _ _ rfl
    rw [h0, hST3, Loop.getT_modT_self, Loop.getT_modT_self]
    have h1 : (⟨H ++ [PP], E, V, false :: rest1, C, NB + 1, TR⟩ : Loop).getT H.length
        = some PP := by
      unfold Loop.getT
      dsimp only
      rw [List.getElem?_concat_length]
    rw [h1]
    rfl
  have hbA : NB ∈ ({ { PP with allocs := ⟨[NB], 1⟩ } with
      locals := Locals.gathererL CR (some NB) } : Task).allocs.contents := by
    simp [Arr.contents]
  have hchA : ∀ c ∈ children1, c < ({ ST3 with alloc := rest1 } : Loop).heap.length := by
    intro c hc
    have h1 := hchild1 c hc
    have h2 : ({ ST3 with alloc := rest1 } : Loop).heap.length = H.length + 1 := by
      show ST3.heap.length = H.length + 1
      rw [hST3, Loop.modT_heap_length, Loop.modT_heap_length]
      simp
    omega
  have htrF : ({ ST3 with alloc := rest1 } : Loop).trace = TR := by
    show ST3.trace = TR
    rw [hST3, Loop.modT_trace, Loop.modT_trace]
  obtain ⟨⟨δ, hδ, hcnt, hgm⟩, hcm⟩ := vgatherFail_spec H.length NB children1
    { ST3 with alloc := rest1 }
    { { PP with allocs := ⟨[NB], 1⟩ } with
      locals := Locals.gathererL CR (some NB) } hsA hbA hchA
  have hsB2 : ({ SB with alloc := rest2 } : Loop).getT H2.length =
      some { PP with locals := Locals.gathererL ⟨children2, children2.length⟩ none } := by
    have h0 : ({ SB with alloc := rest2 } : Loop).getT H2.length = SB.getT H2.length :=
      Loop.getT_ext _ _ _ rfl
    rw [h0, hSB, Loop.getT_modT_self]
    have h1 : (⟨H2 ++ [PP], E2, V2, false :: rest2, C2, NB2, TR2⟩ : Loop).getT H2.length
        = some PP := by
      unfold Loop.getT
      dsimp only
      rw [List.getElem?_concat_length]
    rw [h1]
    rfl
  refine ⟨⟨rfl, ?_, ?_, ?_⟩, rfl, ?_, ?_⟩
  · rw [hδ]
    exact List.mem_append_right _ hgm
  · intro c hc
    exact hcm c hc
  · rw [hδ, htrF, List.count_append]
    omega
  · rw [Loop.stateFree_trace _ _ _ hsB2]
    simp [Arr.contents]
  · intro c hc
    have hlt := hchild2 c hc
    have hne : c ≠ H2.length := Nat.ne_of_lt hlt
    rw [Loop.stateFree_getT_ne _ _ _ hne]
    have h0 : ({ SB with alloc := rest2 } : Loop).getT c = SB.getT c :=
      Loop.getT_ext _ _ _ rfl
    rw [h0, hSB, Loop.getT_modT_ne _ _ _ _ hne]
    have h1 : (⟨H2 ++ [PP], E2, V2, false :: rest2, C2, NB2, TR2⟩ : Loop).getT c
        = H2[c]? := by
      unfold Loop.getT
      dsimp only
      exact List.getElem?_append_left hlt
    rw [h1]
    exact hfr2 c hc

/-- C6 counterexample: `async_gather` (array form) over one child, with
`async_create_tasks` failing — the gatherer (id 1) is freed and null is
returned, but the child (id 0) is never freed, contradicting the claim
that "the gatherer task and all n child tasks are freed". -/
theorem C6_counterexample :
    (gather [0] stC6X).1 = none ∧
    Ev.freeTask 1 ∈ (gather [0] stC6X).2.trace ∧
    Ev.freeTask 0 ∉ (gather [0] stC6X).2.trace ∧
    ((gather [0] stC6X).2.getT 0).map Task.freed = some false := by decide

/-- Witness for C6: on concrete one-child loops, the failing vgather
frees both the gatherer (id 1) and the child (id 0), while the failing
array-form gather frees the gatherer only. -/
theorem C6_gather_cleanup_witness :
    (vgather [0] stC6W1).1 = none ∧
    Ev.freeTask 1 ∈ (vgather [0] stC6W1).2.trace ∧
    Ev.freeTask 0 ∈ (vgather [0] stC6W1).2.trace ∧
    (gather [0] stC6W2).1 = none ∧
    Ev.freeTask 1 ∈ (gather [0] stC6W2).2.trace := by
  have h := C6_gather_cleanup stC6W1 stC6W2 [0] [0] [] [] (by decide) (by decide)
    (by decide) (by decide) (by decide) (by decide) (by decide) (by decide)
  exact ⟨h.1.1, h.1.2.1, h.1.2.2.1 0 (by decide), h.2.1, h.2.2.1⟩

/-- C8 (amended): the awaited child's refcount is decremented by the
parent exactly once on the normal completion of the await
(`async_waiter` finishing), on cancellation propagation through the
scheduler (`_next` handling of `ASYNC_LOOP_RUNNER_BLOCK_CANCELLED`), and
on the parent's cancel callback (`async_waiter_cancel`) provided its
`async_create_task` succeeds; when that scheduling fails, `add_task`
destroys the child outright and no decrement is performed. -/
theorem C8_child_decref (st : Loop) (t c : Nat) (s : Task)
    (hs : st.getT t = some s) (hct : c ≠ t) :
    (∀ sec start k, s.locals = Locals.waiterL sec start → s.args = some c →
      s.cont = Cont.cont k → st.doneB c = true →
      (waiterStep t st).trace.count (Ev.decref c) = st.trace.count (Ev.decref c) + 1) ∧
    (∀ i, s.next = some c → s.cancelCb = none →
      (visitCancelled st i t s).1.trace.count (Ev.decref c)
        = st.trace.count (Ev.decref c) + 1) ∧
    (∀ sc, s.args = some c → st.getT c = some sc → sc.sched = true →
      (runCb CbId.waiterCancel t st).trace.count (Ev.decref c)
        = st.trace.count (Ev.decref c) + 1) ∧
    (∀ sc, s.args = some c → st.getT c = some sc → sc.sched = false →
      st.vacant.length = 0 →
      (arrExpand (none : Option Nat) st.alloc st.events 1).1 = false →
      (runCb CbId.waiterCancel t st).trace.count (Ev.decref c)
          = st.trace.count (Ev.decref c) ∧
        Ev.freeTask c ∈ (runCb CbId.waiterCancel t st).trace) := by
  refine ⟨?_, ?_, ?_, ?_⟩
  · intro sec start k hl ha hk hd
    have hW : waiterStep t st = waiterAwait t c sec start st := by
      unfold waiterStep
      rw [hs]
      dsimp only
      rw [hl]
      dsimp only
      rw [hk]
      dsimp only
      rw [ha]
    rw [hW, waiterAwait_finish_done t c sec start st (by simp [hd]) hd]
    rw [Loop.asyncEnd_trace, Loop.decrefT_trace]
    rw [count_append_zero]
    · rw [List.count_append]
      simp
    · intro x hx
      simp only [List.mem_singleton] at hx
      subst hx
      intro hcon
      injection hcon with h2
      exact hct h2.symm
  · intro i hnx hcbn
    unfold visitCancelled
    dsimp only
    rw [hcbn]
    by_cases hdone : s.cont = Cont.done
    · rw [if_pos hdone, hs]
      dsimp only [Option.bind]
      rw [hnx]
      dsimp only
      rw [Loop.modT_trace, Loop.cancelT_trace, Loop.decrefT_trace]
      simp [List.count_append]
    · rw [if_neg hdone]
      dsimp only
      rw [Loop.decrefT_getT_self, hs]
      dsimp only [Option.map, Option.bind]
      rw [hnx]
      dsimp only
      rw [Loop.modT_trace, Loop.cancelT_trace, Loop.decrefT_trace, Loop.decrefT_trace]
      simp [List.count_append, hct]
  · intro sc ha hsc hsched
    have haddeq : addTask (some c) (st.emit (Ev.cbCall t)) = (some c, st.emit (Ev.cbCall t)) := by
      unfold addTask
      dsimp only
      rw [Loop.emit_getT, hsc]
      dsimp only
      rw [if_pos hsched]
    unfold runCb
    dsimp only
    rw [Loop.emit_getT, hs]
    dsimp only
    rw [ha]
    dsimp only
    rw [haddeq]
    dsimp only [Option.isSome]
    rw [if_pos rfl]
    by_cases hd : (st.emit (Ev.cbCall t)).doneB c
    · rw [if_pos hd, Loop.decrefT_trace]
      simp [Loop.emit, List.count_append]
    · rw [if_neg hd, Loop.decrefT_trace, Loop.cancelT_trace]
      simp [Loop.emit, List.count_append]
  · intro sc ha hsc hsched hv hpf
    have hr1 : ((st.emit (Ev.cbCall t)).pushEvents (some c)).1 = false := by
      unfold Loop.pushEvents
      simp only [Loop.emit]
      rw [if_neg (by simp [hpf])]
    have haddeq : addTask (some c) (st.emit (Ev.cbCall t)) =
        (none, ((st.emit (Ev.cbCall t)).pushEvents (some c)).2.stateFree c) := by
      unfold addTask
      dsimp only
      rw [Loop.emit_getT, hsc]
      dsimp only
      rw [if_neg (by simp [hsched])]
      rw [if_neg (by simp [Loop.emit, hv])]
      rw [if_neg (by simp [hr1])]
    unfold runCb
    dsimp only
    rw [Loop.emit_getT, hs]
    dsimp only
    rw [ha]
    dsimp only
    rw [haddeq]
    dsimp only [Option.isSome]
    rw [if_neg (by simp)]
    have hgc2 : (((st.emit (Ev.cbCall t)).pushEvents (some c)).2).getT c = some sc := by
      rw [Loop.getT_ext _ (st.emit (Ev.cbCall t)) _ (Loop.pushEvents_heap _ _), Loop.emit_getT]
      exact hsc
    constructor
    · rw [Loop.stateFree_trace _ _ sc hgc2, Loop.pushEvents_trace]
      simp only [Loop.emit]
      rw [count_append_zero]
      · rw [count_append_zero]
        · rw [count_append_zero]
          intro x hx
          simp only [List.mem_singleton] at hx
          subst hx
          intro hcon
          exact Ev.noConfusion hcon
        · intro x hx
          simp only [List.mem_map] at hx
          obtain ⟨b, _, hb⟩ := hx
          rw [← hb]
          intro hcon
          exact Ev.noConfusion hcon
      · intro x hx
        simp only [List.mem_singleton] at hx
        subst hx
        intro hcon
        exact Ev.noConfusion hcon
    · rw [Loop.stateFree_trace _ _ sc hgc2]
      simp

/-- C8 counterexample: the scheduler visits the cancelled waiter and runs
`async_waiter_cancel`; `async_create_task(child)` fails, so `add_task`
destroys the child outright — the child (refcnt 2, held by the parent)
is freed with zero decrements, not "decremented exactly once". -/
theorem C8_counterexample :
    (visitStep stC8X 0).1.trace.count (Ev.decref 0) = 0 ∧
    Ev.freeTask 0 ∈ (visitStep stC8X 0).1.trace ∧
    ((visitStep stC8X 0).1.getT 0).map Task.freed = some true := by decide

/-- Witness for C8: on a concrete waiter/child pair with the child
already scheduled, the cancel-callback path decrements the child's
refcount exactly once. -/
theorem C8_child_decref_witness :
    (runCb CbId.waiterCancel 1 stC8W).trace.count (Ev.decref 0) =
      stC8W.trace.count (Ev.decref 0) + 1 := by
  have h := C8_child_decref stC8W 1 0 taskC8waiterW (by decide) (by decide)
  exact h.2.2.1 taskC8childW (by decide) (by decide) (by decide)

theorem nodup_lt_length_le (l : List Nat) (n : Nat) (hd : l.Nodup) (hb : ∀ x ∈ l, x < n) :
    l.length ≤ n := by
  classical
  have h1 : l.toFinset.card = l.length := List.toFinset_card_of_nodup hd
  have h2 : l.toFinset ⊆ Finset.range n := by
    intro x hx
    simp only [List.mem_toFinset] at hx
    simpa using hb x hx
  have h3 := Finset.card_le_card h2
  rw [h1, Finset.card_range] at h3
  exact h3

theorem getD_set_ne {α : Type} (l : List α) (i j : Nat) (v d : α) (h : j ≠ i) :
    (l.set i v).getD j d = l.getD j d := by
  rw [List.getD_eq_getElem?_getD, List.getD_eq_getElem?_getD, List.getElem?_set_ne (Ne.symm h)]

theorem getD_set_self {α : Type} (l : List α) (i : Nat) (v d : α) (h : i < l.length) :
    (l.set i v).getD i d = v := by
  rw [List.getD_eq_getElem?_getD, List.getElem?_set_self (by omega)]
  rfl

theorem Inv_ext (st' st : Loop) (he : st'.events = st.events) (hv : st'.vacant = st.vacant)
    (ha : st'.alloc = st.alloc) (h : Inv st) : Inv st' := by
  unfold Inv at h ⊢
  rw [he, hv, ha]
  exact h

theorem Inv_emit (e : Ev) (st : Loop) (h : Inv st) : Inv (st.emit e) :=
  Inv_ext _ st rfl rfl rfl h

theorem Inv_emitAll (es : List Ev) (st : Loop) (h : Inv st) : Inv (st.emitAll es) :=
  Inv_ext _ st rfl rfl rfl h

theorem Inv_modT (t : Nat) (f : Task → Task) (st : Loop) (h : Inv st) : Inv (st.modT t f) :=
  Inv_ext _ st (Loop.modT_events t f st) (Loop.modT_vacant t f st) (Loop.modT_alloc t f st) h

theorem Inv_decrefT (c : Nat) (st : Loop) (h : Inv st) : Inv (st.decrefT c) :=
  Inv_emit _ _ (Inv_modT _ _ _ h)

theorem Inv_cancelT (c : Nat) (st : Loop) (h : Inv st) : Inv (st.cancelT c) :=
  Inv_emit _ _ (Inv_modT _ _ _ h)

theorem Inv_increfT (c : Nat) (st : Loop) (h : Inv st) : Inv (st.increfT c) :=
  Inv_modT _ _ _ h

theorem Inv_setSched (t : Nat) (st : Loop) (h : Inv st) : Inv (st.setSched t) :=
  Inv_modT _ _ _ h

theorem Inv_asyncEnd (t : Nat) (st : Loop) (h : Inv st) : Inv (st.asyncEnd t) :=
  Inv_modT _ _ _ (Inv_decrefT _ _ h)

theorem Inv_stateFree (t : Nat) (st : Loop) (h : Inv st) : Inv (st.stateFree t) :=
  Inv_ext _ st (Loop.stateFree_events t st) (Loop.stateFree_vacant t st)
    (Loop.stateFree_alloc t st) h

theorem pop_top_mem (l : List Nat) (len : Nat) (h0 : 0 < len) (hle : len ≤ l.length) :
    l.getD (len - 1) 0 ∈ l.take len := by
  have hlt : len - 1 < l.length := by omega
  rw [List.getD_eq_getElem l 0 hlt]
  have h2 : (l.take len)[len - 1]? = l[len - 1]? := by
    rw [List.getElem?_take, if_pos (by omega)]
  have h3 : (l.take len)[len - 1]? = some l[len - 1] := by
    rw [h2, List.getElem?_eq_getElem hlt]
  exact List.getElem?_mem h3

theorem pop_contents_ne (l : List Nat) (len : Nat) (h0 : 0 < len) (hle : len ≤ l.length)
    (hnd : (l.take len).Nodup) (x : Nat) (hx : x ∈ l.take (len - 1)) :
    x ≠ l.getD (len - 1) 0 ∧ x ∈ l.take len := by
  have hlt : len - 1 < l.length := by omega
  have htt : l.take (len - 1) = (l.take len).take (len - 1) := by
    rw [List.take_take]
    congr 1
    omega
  have hx2 : x ∈ (l.take len).take (len - 1) := htt ▸ hx
  have hx3 : x ∈ l.take len := List.mem_of_mem_take hx2
  refine ⟨?_, hx3⟩
  intro heq
  have hltt : len - 1 < (l.take len).length := by
    simp only [List.length_take]
    omega
  have hdrop : (l.take len).drop (len - 1) =
      (l.take len)[len - 1] :: (l.take len).drop (len - 1 + 1) :=
    List.drop_eq_getElem_cons hltt
  have hgetTake : (l.take len)[len - 1] = l[len - 1] := by
    rw [List.getElem_take]
  have hnd2 := hnd
  rw [← List.take_append_drop (len - 1) (l.take len)] at hnd2
  have hdisj := (List.nodup_append.mp hnd2).2.2
  apply hdisj hx2
  rw [hdrop]
  subst heq
  rw [List.getD_eq_getElem l 0 hlt, ← hgetTake]
  exact List.mem_cons_self _ _

theorem Loop.pushEvents_data_getD (st : Loop) (v : Option Nat) (x : Nat)
    (hx : x < st.events.length) :
    (st.pushEvents v).2.events.data.getD x none = st.events.data.getD x none := by
  unfold Loop.pushEvents
  cases hr : (arrExpand none st.alloc st.events 1).1 with
  | false => simp [hr]
  | true =>
    have hlen := (arrExpand_true_cap none st.alloc st.events 1 hr).1
    simp only [hr, if_true]
    rw [getD_set_ne _ _ _ _ _ (by omega)]
    exact arrExpand_data_getD none st.alloc st.events 1 x

theorem Inv_addTask (x : Option Nat) (st : Loop) (h : Inv st) : Inv (addTask x st).2 := by
  obtain ⟨hew, hvw, hnd, hmem, hlen, hal⟩ := h
  match x with
  | none => exact ⟨hew, hvw, hnd, hmem, hlen, hal⟩
  | some t =>
    match hget : st.getT t with
    | none =>
      simp only [addTask, hget]
      exact ⟨hew, hvw, hnd, hmem, hlen, hal⟩
    | some s =>
      simp only [addTask, hget]
      by_cases hsch : s.sched = true
      · rw [if_pos hsch]
        exact ⟨hew, hvw, hnd, hmem, hlen, hal⟩
      · rw [if_neg hsch]
        by_cases hvac : 0 < st.vacant.length
        · rw [if_pos hvac]
          dsimp only
          apply Inv_setSched
          refine ⟨?_, ?_, ?_, ?_, ?_, ?_⟩
          · show st.events.length ≤ (st.events.data.set _ (some t)).length
            simpa using hew
          · show st.vacant.length - 1 ≤ st.vacant.data.length
            omega
          · show (st.vacant.data.take (st.vacant.length - 1)).Nodup
            have htt : st.vacant.data.take (st.vacant.length - 1) =
                st.vacant.contents.take (st.vacant.length - 1) := by
              rw [Arr.contents, List.take_take]
              congr 1
              omega
            rw [htt]
            exact hnd.sublist (List.take_sublist _ _)
          · intro y hy
            have hy2 : y ∈ st.vacant.data.take (st.vacant.length - 1) := hy
            obtain ⟨hne, hyc⟩ :=
              pop_contents_ne st.vacant.data st.vacant.length hvac hvw hnd y hy2
            obtain ⟨hyL, hynone⟩ := hmem y hyc
            refine ⟨hyL, ?_⟩
            show (st.events.data.set (st.vacant.data.getD (st.vacant.length - 1) 0)
              (some t)).getD y none = none
            rw [getD_set_ne _ _ _ _ _ hne]
            exact hynone
          · show st.vacant.length - 1 ≤ st.events.length
            omega
          · exact hal
        · rw [if_neg hvac]
          rw [if_pos (Loop.pushEvents_nil st (some t) hal).1]
          apply Inv_setSched
          have hspec := Loop.pushEvents_true_spec st (some t)
            (Loop.pushEvents_nil st (some t) hal).1 hew
          refine ⟨hspec.2.2, ?_, ?_, ?_, ?_, ?_⟩
          · rw [Loop.pushEvents_vacant]
            exact hvw
          · rw [Loop.pushEvents_vacant]
            exact hnd
          · intro y hy
            rw [Loop.pushEvents_vacant] at hy
            obtain ⟨hyL, hynone⟩ := hmem y hy
            refine ⟨?_, ?_⟩
            · rw [hspec.1]
              omega
            · rw [Loop.pushEvents_data_getD st (some t) y hyL]
              exact hynone
          · rw [Loop.pushEvents_vacant, hspec.1]
            omega
          · exact (Loop.pushEvents_nil st (some t) hal).2

theorem Loop.decrefT_events (c : Nat) (st : Loop) : (st.decrefT c).events = st.events := by
  unfold Loop.decrefT Loop.emit
  rw [Loop.modT_events]

theorem Loop.decrefT_vacant (c : Nat) (st : Loop) : (st.decrefT c).vacant = st.vacant := by
  unfold Loop.decrefT Loop.emit
  rw [Loop.modT_vacant]

theorem Loop.cancelT_events (c : Nat) (st : Loop) : (st.cancelT c).events = st.events := by
  unfold Loop.cancelT Loop.emit
  rw [Loop.modT_events]

theorem Loop.cancelT_vacant (c : Nat) (st : Loop) : (st.cancelT c).vacant = st.vacant := by
  unfold Loop.cancelT Loop.emit
  rw [Loop.modT_vacant]

theorem Loop.pushEvents_true_len (st : Loop) (v : Option Nat)
    (h : (st.pushEvents v).1 = true) :
    (st.pushEvents v).2.events.length = st.events.length + 1 := by
  unfold Loop.pushEvents at h ⊢
  cases hr : (arrExpand none st.alloc st.events 1).1 with
  | false => simp [hr] at h
  | true =>
    simp only [hr, if_true]
    show (arrExpand none st.alloc st.events 1).2.1.length + 1 = st.events.length + 1
    rw [(arrExpand_true_cap none st.alloc st.events 1 hr).1]

theorem addTask_evlen (x : Option Nat) (st : Loop) :
    st.events.length ≤ (addTask x st).2.events.length := by
  match x with
  | none => exact Nat.le_refl _
  | some t =>
    match hget : st.getT t with
    | none => simp [addTask, hget]
    | some s =>
      simp only [addTask, hget]
      by_cases hsch : s.sched = true
      · rw [if_pos hsch]
      · rw [if_neg hsch]
        by_cases hvac : 0 < st.vacant.length
        · rw [if_pos hvac]
          dsimp only
          rw [Loop.setSched, Loop.modT_events]
        · rw [if_neg hvac]
          by_cases hp : (st.pushEvents (some t)).1 = true
          · rw [if_pos hp]
            dsimp only
            rw [Loop.setSched, Loop.modT_events, Loop.pushEvents_true_len st (some t) hp]
            omega
          · rw [if_neg hp]
            dsimp only
            rw [Loop.stateFree_events,
              Loop.pushEvents_false_events st (some t) (by simpa using hp)]

theorem addTask_vacsub (x : Option Nat) (st : Loop) :
    (addTask x st).2.vacant.contents ⊆ st.vacant.contents := by
  match x with
  | none => exact fun y hy => hy
  | some t =>
    match hget : st.getT t with
    | none => simp [addTask, hget]
    | some s =>
      simp only [addTask, hget]
      by_cases hsch : s.sched = true
      · rw [if_pos hsch]
        exact fun y hy => hy
      · rw [if_neg hsch]
        by_cases hvac : 0 < st.vacant.length
        · rw [if_pos hvac]
          dsimp only
          rw [Loop.setSched, Loop.modT_vacant]
          intro y hy
          have hy2 : y ∈ st.vacant.data.take (st.vacant.length - 1) := hy
          have htt : st.vacant.data.take (st.vacant.length - 1) =
              st.vacant.contents.take (st.vacant.length - 1) := by
            rw [Arr.contents, List.take_take]
            congr 1
            omega
          rw [htt] at hy2
          exact List.mem_of_mem_take hy2
        · rw [if_neg hvac]
          by_cases hp : (st.pushEvents (some t)).1 = true
          · rw [if_pos hp]
            dsimp only
            rw [Loop.setSched, Loop.modT_vacant, Loop.pushEvents_vacant]
            exact fun y hy => hy
          · rw [if_neg hp]
            dsimp only
            rw [Loop.stateFree_vacant, Loop.pushEvents_vacant]
            exact fun y hy => hy

theorem foldDC_events (l : List Nat) (st : Loop) :
    (l.foldl (fun acc c => Loop.cancelT c (Loop.decrefT c acc)) st).events = st.events := by
  induction l generalizing st with
  | nil => rfl
  | cons c rest ih =>
    simp only [List.foldl_cons]
    rw [ih, Loop.cancelT_events, Loop.decrefT_events]

theorem foldDC_vacant (l : List Nat) (st : Loop) :
    (l.foldl (fun acc c => Loop.cancelT c (Loop.decrefT c acc)) st).vacant = st.vacant := by
  induction l generalizing st with
  | nil => rfl
  | cons c rest ih =>
    simp only [List.foldl_cons]
    rw [ih, Loop.cancelT_vacant, Loop.decrefT_vacant]

theorem runCb_evlen (cb : CbId) (t : Nat) (st : Loop) :
    st.events.length ≤ (runCb cb t st).events.length := by
  unfold runCb
  match cb with
  | CbId.gathererCancel =>
    dsimp only
    cases hget : (st.emit (Ev.cbCall t)).getT t with
    | none => simp only [hget]; exact Nat.le_refl _
    | some s =>
      match hl : s.locals with
      | Locals.gathererL coros b =>
        simp only [hget, hl]
        rw [foldDC_events]
        exact Nat.le_refl _
      | Locals.noneL => simp only [hget, hl]; exact Nat.le_refl _
      | Locals.counterL n => simp only [hget, hl]; exact Nat.le_refl _
      | Locals.waiterL a b => simp only [hget, hl]; exact Nat.le_refl _
  | CbId.waiterCancel =>
    dsimp only
    cases hget : (st.emit (Ev.cbCall t)).getT t with
    | none => simp only [hget]; exact Nat.le_refl _
    | some s =>
      match ha : s.args with
      | none => simp only [hget, ha]; exact Nat.le_refl _
      | some c =>
        simp only [hget, ha]
        have hbase : st.events.length ≤
            (addTask (some c) (st.emit (Ev.cbCall t))).2.events.length :=
          addTask_evlen (some c) (st.emit (Ev.cbCall t))
        by_cases hr : (addTask (some c) (st.emit (Ev.cbCall t))).1.isSome = true
        · rw [if_pos hr]
          by_cases hd : (addTask (some c) (st.emit (Ev.cbCall t))).2.doneB c = true
          · rw [if_pos hd, Loop.decrefT_events]
            exact hbase
          · rw [if_neg hd, Loop.decrefT_events, Loop.cancelT_events]
            exact hbase
        · rw [if_neg hr]
          exact hbase

theorem runCb_vacsub (cb : CbId) (t : Nat) (st : Loop) :
    (runCb cb t st).vacant.contents ⊆ st.vacant.contents := by
  unfold runCb
  match cb with
  | CbId.gathererCancel =>
    dsimp only
    cases hget : (st.emit (Ev.cbCall t)).getT t with
    | none => simp only [hget]; exact fun y hy => hy
    | some s =>
      match hl : s.locals with
      | Locals.gathererL coros b =>
        simp only [hget, hl]
        rw [foldDC_vacant]
        exact fun y hy => hy
      | Locals.noneL => simp only [hget, hl]; exact fun y hy => hy
      | Locals.counterL n => simp only [hget, hl]; exact fun y hy => hy
      | Locals.waiterL a b => simp only [hget, hl]; exact fun y hy => hy
  | CbId.waiterCancel =>
    dsimp only
    cases hget : (st.emit (Ev.cbCall t)).getT t with
    | none => simp only [hget]; exact fun y hy => hy
    | some s =>
      match ha : s.args with
      | none => simp only [hget, ha]; exact fun y hy => hy
      | some c =>
        simp only [hget, ha]
        have hbase := addTask_vacsub (some c) (st.emit (Ev.cbCall t))
        by_cases hr : (addTask (some c) (st.emit (Ev.cbCall t))).1.isSome = true
        · rw [if_pos hr]
          by_cases hd : (addTask (some c) (st.emit (Ev.cbCall t))).2.doneB c = true
          · rw [if_pos hd, Loop.decrefT_vacant]
            exact hbase
          · rw [if_neg hd, Loop.decrefT_vacant, Loop.cancelT_vacant]
            exact hbase
        · rw [if_neg hr]
          exact hbase

theorem Inv_foldDC (l : List Nat) (st : Loop) (h : Inv st) :
    Inv (l.foldl (fun acc c => Loop.cancelT c (Loop.decrefT c acc)) st) := by
  induction l generalizing st with
  | nil => exact h
  | cons c rest ih =>
    simp only [List.foldl_cons]
    exact ih _ (Inv_cancelT _ _ (Inv_decrefT _ _ h))

theorem Inv_runCb (cb : CbId) (t : Nat) (st : Loop) (h : Inv st) : Inv (runCb cb t st) := by
  unfold runCb
  match cb with
  | CbId.gathererCancel =>
    dsimp only
    cases hget : (st.emit (Ev.cbCall t)).getT t with
    | none => simp only [hget]; exact Inv_emit _ _ h
    | some s =>
      match hl : s.locals with
      | Locals.gathererL coros b =>
        simp only [hget, hl]
        exact Inv_foldDC _ _ (Inv_emit _ _ h)
      | Locals.noneL => simp only [hget, hl]; exact Inv_emit _ _ h
      | Locals.counterL n => simp only [hget, hl]; exact Inv_emit _ _ h
      | Locals.waiterL a b => simp only [hget, hl]; exact Inv_emit _ _ h
  | CbId.waiterCancel =>
    dsimp only
    cases hget : (st.emit (Ev.cbCall t)).getT t with
    | none => simp only [hget]; exact Inv_emit _ _ h
    | some s =>
      match ha : s.args with
      | none => simp only [hget, ha]; exact Inv_emit _ _ h
      | some c =>
        simp only [hget, ha]
        have hbase : Inv (addTask (some c) (st.emit (Ev.cbCall t))).2 :=
          Inv_addTask _ _ (Inv_emit _ _ h)
        by_cases hr : (addTask (some c) (st.emit (Ev.cbCall t))).1.isSome = true
        · rw [if_pos hr]
          by_cases hd : (addTask (some c) (st.emit (Ev.cbCall t))).2.doneB c = true
          · rw [if_pos hd]
            exact Inv_decrefT _ _ hbase
          · rw [if_neg hd]
            exact Inv_decrefT _ _ (Inv_cancelT _ _ hbase)
        · rw [if_neg hr]
          exact hbase

theorem Inv_gatherScanF (fuel t : Nat) (coros : Arr Nat) (st : Loop) (h : Inv st) :
    Inv (gatherScanF fuel t coros st) := by
  induction fuel generalizing coros st with
  | zero => exact h
  | succ n ih =>
    unfold gatherScanF
    by_cases hz : coros.length = 0
    · rw [if_pos hz]
      exact Inv_asyncEnd _ _ (Inv_modT _ _ _ h)
    · rw [if_neg hz]
      dsimp only
      by_cases hd : st.doneB (coros.data.getD 0 0) = true
      · rw [if_pos hd]
        exact ih _ _ (Inv_decrefT _ _ h)
      · rw [if_neg hd]
        exact Inv_modT _ _ _ h

theorem Inv_waiterAwait (t c sec start : Nat) (st : Loop) (h : Inv st) :
    Inv (waiterAwait t c sec start st) := by
  unfold waiterAwait
  by_cases hw : (!st.doneB c && decide (st.clock - start < sec)) = true
  · rw [if_pos hw]
    exact Inv_modT _ _ _ h
  · rw [if_neg hw]
    dsimp only
    by_cases hd : st.doneB c = true
    · rw [if_pos hd]
      exact Inv_asyncEnd _ _ (Inv_decrefT _ _ h)
    · rw [if_neg hd]
      exact Inv_asyncEnd _ _ (Inv_decrefT _ _ (Inv_cancelT _ _ (Inv_modT _ _ _ h)))

theorem Inv_waiterStep (t : Nat) (st : Loop) (h : Inv st) : Inv (waiterStep t st) := by
  unfold waiterStep
  cases hget : st.getT t with
  | none => exact h
  | some s =>
    match hl : s.locals with
    | Locals.waiterL sec start =>
      simp only [hget, hl]
      match hk : s.cont with
      | Cont.done => exact h
      | Cont.init =>
        simp only [hk]
        cases hr : (addTask s.args st).1 with
        | none =>
          simp only [hr]
          exact Inv_asyncEnd _ _ (Inv_modT _ _ _ (Inv_addTask _ _ h))
        | some c =>
          simp only [hr]
          exact Inv_waiterAwait _ _ _ _ _ (Inv_modT _ _ _ (Inv_addTask _ _ h))
      | Cont.cont k =>
        simp only [hk]
        match ha : s.args with
        | none => simp only [ha]; exact h
        | some c =>
          simp only [ha]
          exact Inv_waiterAwait _ _ _ _ _ h
    | Locals.noneL => simp only [hget, hl]; exact h
    | Locals.counterL n => simp only [hget, hl]; exact h
    | Locals.gathererL a b => simp only [hget, hl]; exact h

theorem Inv_stepBody (t : Nat) (st : Loop) (h : Inv st) : Inv (stepBody t st) := by
  unfold stepBody
  cases hget : st.getT t with
  | none => exact h
  | some s =>
    match hf : s.func with
    | FuncId.yielder =>
      simp only [hget, hf]
      match hk : s.cont with
      | Cont.init => simp only [hk]; exact Inv_modT _ _ _ h
      | Cont.cont k => simp only [hk]; exact Inv_asyncEnd _ _ h
      | Cont.done => exact h
    | FuncId.spinner =>
      simp only [hget, hf]
      match hk : s.cont with
      | Cont.done => exact h
      | Cont.init => simp only [hk]; exact Inv_modT _ _ _ h
      | Cont.cont k => simp only [hk]; exact Inv_modT _ _ _ h
    | FuncId.counterB =>
      simp only [hget, hf]
      match hk : s.cont with
      | Cont.done => exact h
      | Cont.init =>
        simp only [hk]
        match hl : s.locals with
        | Locals.counterL 0 => simp only [hl]; exact Inv_asyncEnd _ _ h
        | Locals.counterL (n + 1) => simp only [hl]; exact Inv_modT _ _ _ h
        | Locals.noneL => simp only [hl]; exact h
        | Locals.waiterL a b => simp only [hl]; exact h
        | Locals.gathererL a b => simp only [hl]; exact h
      | Cont.cont k =>
        simp only [hk]
        match hl : s.locals with
        | Locals.counterL 0 => simp only [hl]; exact Inv_asyncEnd _ _ h
        | Locals.counterL (n + 1) => simp only [hl]; exact Inv_modT _ _ _ h
        | Locals.noneL => simp only [hl]; exact h
        | Locals.waiterL a b => simp only [hl]; exact h
        | Locals.gathererL a b => simp only [hl]; exact h
    | FuncId.gatherer =>
      simp only [hget, hf]
      match hk : s.cont with
      | Cont.done => exact h
      | Cont.init =>
        simp only [hk]
        match hl : s.locals with
        | Locals.gathererL coros b => simp only [hl]; exact Inv_gatherScanF _ _ _ _ h
        | Locals.noneL => simp only [hl]; exact h
        | Locals.waiterL a b => simp only [hl]; exact h
        | Locals.counterL n => simp only [hl]; exact h
      | Cont.cont k =>
        simp only [hk]
        match hl : s.locals with
        | Locals.gathererL coros b => simp only [hl]; exact Inv_gatherScanF _ _ _ _ h
        | Locals.noneL => simp only [hl]; exact h
        | Locals.waiterL a b => simp only [hl]; exact h
        | Locals.counterL n => simp only [hl]; exact h
    | FuncId.waiter => simp only [hget, hf]; exact Inv_waiterStep t st h

theorem Inv_stepTask (t : Nat) (st : Loop) (h : Inv st) : Inv (stepTask t st) :=
  Inv_stepBody _ _ (Inv_emit _ _ h)

theorem Inv_reapPush (stX : Loop) (i t : Nat) (h : Inv stX)
    (hi : i < stX.events.length) (hnv : i ∉ stX.vacant.contents) :
    Inv ({ ((stX.stateFree t).pushVacant i).2 with
      events := ⟨((stX.stateFree t).pushVacant i).2.events.data.set i none,
        ((stX.stateFree t).pushVacant i).2.events.length⟩ } : Loop) := by
  obtain ⟨hew, hvw, hnd, hmem, hlen, hal⟩ := h
  have hal2 : (stX.stateFree t).alloc = [] := by
    rw [Loop.stateFree_alloc]
    exact hal
  have hp := (Loop.pushVacant_nil (stX.stateFree t) i hal2).1
  have hvw2 : (stX.stateFree t).vacant.length ≤ (stX.stateFree t).vacant.data.length := by
    rw [Loop.stateFree_vacant]
    exact hvw
  have hspec := Loop.pushVacant_true_spec (stX.stateFree t) i hp hvw2
  have hev : ((stX.stateFree t).pushVacant i).2.events = stX.events := by
    rw [Loop.pushVacant_events, Loop.stateFree_events]
  have hnodup2 : (stX.vacant.contents ++ [i]).Nodup := by
    refine List.Nodup.append hnd (List.nodup_singleton i) ?_
    intro a ha hai
    simp only [List.mem_singleton] at hai
    subst hai
    exact hnv ha
  refine ⟨?_, ?_, ?_, ?_, ?_, ?_⟩
  · show ((stX.stateFree t).pushVacant i).2.events.length ≤
      (((stX.stateFree t).pushVacant i).2.events.data.set i none).length
    rw [hev]
    simp only [List.length_set]
    exact hew
  · exact hspec.2.2
  · show ((stX.stateFree t).pushVacant i).2.vacant.contents.Nodup
    rw [hspec.2.1, Loop.stateFree_vacant]
    exact hnodup2
  · intro y hy
    rw [hspec.2.1, Loop.stateFree_vacant] at hy
    rcases List.mem_append.mp hy with hy | hy
    · obtain ⟨hyL, hynone⟩ := hmem y hy
      have hyne : y ≠ i := fun hcon => hnv (hcon ▸ hy)
      constructor
      · show y < ((stX.stateFree t).pushVacant i).2.events.length
        rw [hev]
        exact hyL
      · show (((stX.stateFree t).pushVacant i).2.events.data.set i none).getD y none = none
        rw [getD_set_ne _ _ _ _ _ hyne, hev]
        exact hynone
    · simp only [List.mem_singleton] at hy
      subst hy
      constructor
      · rw [hev]
        exact hi
      · rw [hev]
        exact getD_set_self _ _ _ _ (by omega)
  · show ((stX.stateFree t).pushVacant i).2.vacant.length ≤
      ((stX.stateFree t).pushVacant i).2.events.length
    rw [hspec.1, Loop.stateFree_vacant, hev]
    have hble : ∀ x ∈ stX.vacant.contents ++ [i], x < stX.events.length := by
      intro x hx
      rcases List.mem_append.mp hx with hx | hx
      · exact (hmem x hx).1
      · simp only [List.mem_singleton] at hx
        subst hx
        exact hi
    have hcard := nodup_lt_length_le _ _ hnodup2 hble
    have hclen : stX.vacant.contents.length = stX.vacant.length := by
      simp only [Arr.contents, List.length_take]
      omega
    simp only [List.length_append, List.length_singleton] at hcard
    omega
  · show ((stX.stateFree t).pushVacant i).2.alloc = []
    exact (Loop.pushVacant_nil _ i hal2).2

theorem Inv_visitReap (st : Loop) (i t : Nat) (s : Task) (h : Inv st)
    (hi : i < st.events.length) (hnv : i ∉ st.vacant.contents) :
    Inv (visitReap st i t s).1 := by
  unfold visitReap
  dsimp only
  by_cases hdone : s.cont = Cont.done
  · rw [if_pos hdone]
    have hal2 : (st.stateFree t).alloc = [] := by
      rw [Loop.stateFree_alloc]
      exact h.2.2.2.2.2
    rw [if_pos (Loop.pushVacant_nil (st.stateFree t) i hal2).1]
    exact Inv_reapPush st i t h hi hnv
  · rw [if_neg hdone]
    match hcb : s.cancelCb with
    | some cb =>
      simp only [hcb]
      have h1 : Inv (runCb cb t st) := Inv_runCb cb t st h
      have hi1 : i < (runCb cb t st).events.length :=
        Nat.lt_of_lt_of_le hi (runCb_evlen cb t st)
      have hnv1 : i ∉ (runCb cb t st).vacant.contents :=
        fun hmem2 => hnv (runCb_vacsub cb t st hmem2)
      have hal2 : ((runCb cb t st).stateFree t).alloc = [] := by
        rw [Loop.stateFree_alloc]
        exact h1.2.2.2.2.2
      rw [if_pos (Loop.pushVacant_nil ((runCb cb t st).stateFree t) i hal2).1]
      exact Inv_reapPush (runCb cb t st) i t h1 hi1 hnv1
    | none =>
      simp only [hcb]
      have hal2 : (st.stateFree t).alloc = [] := by
        rw [Loop.stateFree_alloc]
        exact h.2.2.2.2.2
      rw [if_pos (Loop.pushVacant_nil (st.stateFree t) i hal2).1]
      exact Inv_reapPush st i t h hi hnv

theorem Inv_visitCancelled (st : Loop) (i t : Nat) (s : Task) (h : Inv st) :
    Inv (visitCancelled st i t s).1 := by
  unfold visitCancelled
  dsimp only
  have h1 : Inv (if s.cont = Cont.done then st else
      match s.cancelCb with
      | some cb => runCb cb t (st.decrefT t)
      | none => st.decrefT t) := by
    by_cases hdone : s.cont = Cont.done
    · rw [if_pos hdone]
      exact h
    · rw [if_neg hdone]
      match hcb : s.cancelCb with
      | some cb => simp only [hcb]; exact Inv_runCb _ _ _ (Inv_decrefT _ _ h)
      | none => simp only [hcb]; exact Inv_decrefT _ _ h
  generalize hst1 : (if s.cont = Cont.done then st else
      match s.cancelCb with
      | some cb => runCb cb t (st.decrefT t)
      | none => st.decrefT t) = st1 at h1 ⊢
  cases hnx : (st1.getT t).bind Task.next with
  | none => exact Inv_modT _ _ _ h1
  | some nx => exact Inv_modT _ _ _ (Inv_cancelT _ _ (Inv_decrefT _ _ h1))

theorem Inv_visitStep (st : Loop) (i : Nat) (h : Inv st) (hi : i < st.events.length) :
    Inv (visitStep st i).1 := by
  unfold visitStep
  cases hsl : st.events.data.getD i none with
  | none => exact h
  | some t =>
    dsimp only
    cases hget : st.getT t with
    | none => exact h
    | some s =>
      dsimp only
      by_cases hz : s.refcnt = 0
      · rw [if_pos hz]
        refine Inv_visitReap st i t s h hi ?_
        intro hmemi
        have hcon := (h.2.2.2.1 i hmemi).2
        rw [hsl] at hcon
        exact Option.noConfusion hcon
      · rw [if_neg hz]
        by_cases hc2 : s.err ≠ AErr.ecanceled ∧ s.cancelled = true
        · rw [if_pos hc2]
          exact Inv_visitCancelled st i t s h
        · rw [if_neg hc2]
          by_cases hc3 : s.cont ≠ Cont.done ∧ nextDoneB st s = true
          · rw [if_pos hc3]
            exact Inv_stepTask t st h
          · rw [if_neg hc3]
            exact h

theorem Inv_runnerPassAux (fuel : Nat) (st : Loop) (i : Nat) (h : Inv st) :
    Inv (runnerPassAux fuel st i) := by
  induction fuel generalizing st i with
  | zero => exact h
  | succ n ih =>
    unfold runnerPassAux
    by_cases hi : i < st.events.length
    · rw [if_pos hi]
      exact ih _ _ (Inv_visitStep st i h hi)
    · rw [if_neg hi]
      exact h

theorem Inv_applyOp (st : Loop) (op : Op) (h : Inv st) : Inv (applyOp st op) := by
  match op with
  | Op.newTask s => exact Inv_ext _ st rfl rfl rfl h
  | Op.addT t => exact Inv_addTask _ _ h
  | Op.incref t => exact Inv_increfT _ _ h
  | Op.decref t => exact Inv_decrefT _ _ h
  | Op.cancel t => exact Inv_cancelT _ _ h
  | Op.tick => exact Inv_ext _ st rfl rfl rfl h
  | Op.runPass fuel => exact Inv_runnerPassAux fuel st 0 h

theorem Inv_runOps (ops : List Op) (st : Loop) (h : Inv st) : Inv (runOps ops st) := by
  induction ops generalizing st with
  | nil => exact h
  | cons op rest ih => exact ih _ (Inv_applyOp st op h)

/-- C3 (amended): across any sequence of task constructions, `add_task`
calls, refcount/cancel operations, clock ticks and scheduler passes in
which no allocation fails, the vacant queue holds only indices of `NULL`
slots within the live prefix of `events_queue`, and
`vacant.length ≤ events.length`.  (The destructor's fast path and the
runner's splice fallback on a failed vacant push are excluded: both
break the slot property.) -/
theorem C3_vacant_invariant (ops : List Op) (st : Loop) (h : Inv st) :
    (∀ x ∈ (runOps ops st).vacant.contents,
      x < (runOps ops st).events.length ∧
      (runOps ops st).events.data.getD x none = none) ∧
    (runOps ops st).vacant.length ≤ (runOps ops st).events.length := by
  have hInv : Inv (runOps ops st) := Inv_runOps ops st h
  exact ⟨hInv.2.2.2.1, hInv.2.2.2.2.1⟩

/-- C3 counterexample: after task 1 is reaped (vacant = `[1]`), task 0
is reaped while the vacant push allocation fails, so the runner splices
slot 0 out of `events_queue`; the stored vacant index 1 now names the
slot holding task 2 — `events[1] ≠ NULL`, falsifying the invariant. -/
theorem C3_counterexample :
    1 ∈ (runOps opsC3X stC3X).vacant.contents ∧
    (runOps opsC3X stC3X).events.data.getD 1 none = some 2 := by decide

/-- Witness for C3: on a concrete loop run the invariant conclusions
evaluate and hold. -/
theorem C3_vacant_invariant_witness :
    (∀ x ∈ (runOps opsC3W stC3W).vacant.contents,
      x < (runOps opsC3W stC3W).events.length ∧
      (runOps opsC3W stC3W).events.data.getD x none = none) ∧
    (runOps opsC3W stC3W).vacant.length ≤ (runOps opsC3W stC3W).events.length :=
  C3_vacant_invariant opsC3W stC3W (by unfold Inv; decide)

end Async2
